import Mathlib

/-!
# Metrix masternode registry, election and payment ledger

A shallow embedding of `src/masternode.cpp`, `src/masternode.h` and
`src/activemasternode.cpp`.

Conventions of the embedding.
* `int`, `int64_t` and `CAmount` values are `Int`; signed overflow is undefined
  behaviour in the source and lies outside the model.  Unsigned values
  (`uint256`, `uint64_t`, `unsigned int`) are `Nat` reduced explicitly modulo
  `2^256`, `2^64`, `2^32` wherever the source truncates.
* Global mutable objects (`vecMasternodes`, `vWinning`, `mapCacheBlockHashes`,
  `mapSeenMasternodeVotes`) are passed and returned explicitly.
* Collaborators whose code is not part of the translated files (clock, chain,
  hashing, signatures, the mempool acceptance test, script encoding, constants
  of `darksend.h` and `amount.h`) are fields of `Env`.
* A read through a null pointer or past the end of a vector is undefined
  behaviour: a function that can reach one returns an `Option`, and `none`
  stands for a run of the source that has no result.
-/

namespace Metrix

/-! ## Data model -/

/-- Scripts, keys and signatures are byte strings. -/
abbrev CScript := List Nat

/-- Public keys are byte strings. -/
abbrev CPubKey := List Nat

/-- The modulus of `uint256` arithmetic. -/
def U256 : Nat := 2 ^ 256

/-- The modulus of `uint64_t` arithmetic. -/
def U64 : Nat := 2 ^ 64

/-- The modulus of `unsigned int` arithmetic. -/
def U32 : Nat := 2 ^ 32

/-- Transaction outpoint: the collateral reference (transaction id + output index). -/
structure COutPoint where
  hash : Nat
  n : Nat
deriving DecidableEq, Repr

/-- Transaction input; `operator==` compares all three fields. -/
structure CTxIn where
  prevout : COutPoint
  scriptSig : CScript
  nSequence : Nat
deriving DecidableEq, Repr

/-- Network service: `CNetAddr` part (`ip`) and port. -/
structure CService where
  ip : Nat
  port : Nat
deriving DecidableEq, Repr

/-- Transaction output. -/
structure CTxOut where
  nValue : Int
  scriptPubKey : CScript
deriving DecidableEq, Repr

/-- Transaction, reduced to the outputs the masternode code reads. -/
structure CTransaction where
  vout : List CTxOut
deriving DecidableEq, Repr

/-- Block, reduced to its transaction vector. -/
structure CBlock where
  vtx : List CTransaction
deriving DecidableEq, Repr

/-- Block index entry.  The height of an entry is its position in the active
chain (genesis at position 0) and `pprev` is the entry before it.  `disk` is
what `ReadBlockFromDisk` yields for the entry (`none` when the read fails). -/
structure CBlockIndex where
  hash : Nat
  disk : Option CBlock
deriving DecidableEq, Repr

/-- The class `CMasterNode` of `masternode.h`. -/
structure CMasterNode where
  addr : CService
  vin : CTxIn
  lastTimeSeen : Int
  pubkey : CPubKey
  pubkey2 : CPubKey
  sig : List Nat
  now : Int
  lastDseep : Int
  cacheInputAge : Int
  cacheInputAgeBlock : Int
  enabled : Int
  unitTest : Bool
  allowFreeTx : Bool
  protocolVersion : Int
  collateral : Int
  nLastDsq : Int
deriving DecidableEq, Repr

/-- The class `CMasternodePaymentWinner` of `masternode.h`. -/
structure CMasternodePaymentWinner where
  nBlockHeight : Int
  vin : CTxIn
  payee : CScript
  vchSig : List Nat
  score : Nat
deriving DecidableEq, Repr

/-- The map `mapCacheBlockHashes`, as an association list; the source inserts a
key only after `count` reported it absent, so insertion is `cons`. -/
abbrev Cache := List (Int × Nat)

/-- Collaborators and constants that the translated files use but do not define. -/
structure Env where
  /-- Value of `GetAdjustedTime()`. -/
  adjustedTime : Int
  /-- The active chain `chainActive`, genesis first; empty when `Tip()` is `NULL`. -/
  chain : List CBlockIndex
  /-- Double SHA-256 of a byte string (`Hash(begin, end)`, `CHashWriter::GetHash`). -/
  Hash : List Nat → Nat
  /-- Script of `GetScriptForDestination(pubkey.GetID())`. -/
  GetScriptForDestination : CPubKey → CScript
  /-- Mempool test `AcceptableInputs` on the one-input transaction spending `vin`
  into one output of the given value. -/
  AcceptableInputs : CTxIn → Int → Bool
  /-- Method `CBlock::HasMasternodePayment`. -/
  HasMasternodePayment : CBlock → Bool
  /-- Constant `COIN` of `amount.h`. -/
  COIN : Int
  /-- Constant `MASTERNODE_REMOVAL_SECONDS`. -/
  MASTERNODE_REMOVAL_SECONDS : Int
  /-- Constant `MASTERNODE_EXPIRATION_SECONDS`. -/
  MASTERNODE_EXPIRATION_SECONDS : Int
  /-- Constant `MASTERNODE_MIN_DSEEP_SECONDS`. -/
  MASTERNODE_MIN_DSEEP_SECONDS : Int
  /-- Constant `MASTERNODE_MIN_DSEE_SECONDS`. -/
  MASTERNODE_MIN_DSEE_SECONDS : Int
  /-- Constant `MASTERNODE_MIN_CONFIRMATIONS`. -/
  MASTERNODE_MIN_CONFIRMATIONS : Int
  /-- Value of `GetTime()`. -/
  time : Int
  /-- Global `fLiteMode`. -/
  fLiteMode : Bool
  /-- Value of `IsInitialBlockDownload()`. -/
  IsInitialBlockDownload : Bool
  /-- Method `darkSendSigner.VerifyMessage(pubkey, vchSig, strMessage, _)`. -/
  VerifyMessage : CPubKey → List Nat → String → Bool
  /-- Method `CService::ToString`. -/
  addrToString : CService → String
  /-- Value of `addr.IsRFC1918() || addr.IsLocal()`. -/
  isLocal : CService → Bool
  /-- Method `darkSendSigner.IsVinAssociatedWithPubkey(vin, pubkey, &mnCollateral)`:
  the collateral amount when the call succeeds. -/
  IsVinAssociatedWithPubkey : CTxIn → CPubKey → Option Int
  /-- The `nDoS` reported through `state.IsInvalid(nDoS)` after a rejected
  `AcceptableInputs`; `0` when the state is not invalid. -/
  rejectDoS : CTxIn → Int → Int
  /-- Function `GetInputAge`. -/
  GetInputAge : CTxIn → Int
  /-- Member `activeMasternode.pubKeyMasternode`. -/
  pubKeyMasternode : CPubKey
  /-- Function `ExtractDestination` followed by `CBitcoinAddress(address1)`, as a
  function of the script; `none` stands for `CNoDestination`. -/
  ExtractDestination : CScript → Option Nat
  /-- Function `GetMasternodePayment(nHeight, blockValue, collateral)`. -/
  GetMasternodePayment : Int → Int → Int → Int
  /-- Method `CTransaction::GetValueOut`. -/
  GetValueOut : CTransaction → Int
  /-- Method `CMasternodePayments::Sign`: the signature stored in `vchSig` when
  signing succeeds. -/
  SignWinner : CMasternodePaymentWinner → Option (List Nat)
  /-- The permutation `std::random_shuffle` applies in this call. -/
  random_shuffle : List CMasterNode → List CMasterNode
  /-- Method `darkSendSigner.SignMessage(strMessage, _, vchSig, key)`: the signature
  when signing succeeds. -/
  SignMessage : String → List Nat → Option (List Nat)
  /-- Method `CMasternodePayments::CheckSignature(winner)`: verification of
  `winner.vchSig` under the payments key over input, height and payee. -/
  CheckSignature : CMasternodePaymentWinner → Bool

/-! ## `CMasterNode` methods (`masternode.h`, `masternode.cpp`) -/

/-- Method `CMasterNode::UpdatedWithin`. -/
def UpdatedWithin (env : Env) (mn : CMasterNode) (seconds : Int) : Bool :=
  decide (env.adjustedTime - mn.lastTimeSeen < seconds)

/-- Method `CMasterNode::UpdateLastSeen(override)`. -/
def UpdateLastSeen (env : Env) (mn : CMasterNode) (override : Int) : CMasterNode :=
  if override = 0 then { mn with lastTimeSeen := env.adjustedTime }
  else { mn with lastTimeSeen := override }

/-- Method `CMasterNode::Disable`. -/
def Disable (mn : CMasterNode) : CMasterNode :=
  { mn with lastTimeSeen := 0 }

/-- Method `CMasterNode::IsEnabled`. -/
def IsEnabled (mn : CMasterNode) : Bool :=
  decide (mn.enabled = 1)

/-- Value of the output of the probe transaction built in `Check` and in the
`dsee` handler: `((collateral / COIN) - 1) * COIN`, with C++ truncating division. -/
def probeValue (env : Env) (collateral : Int) : Int :=
  (Int.tdiv collateral env.COIN - 1) * env.COIN

/-- Method `CMasterNode::Check`, returning the updated entry together with the
list of `AcceptableInputs` queries it issued (input and output value). -/
def CheckTrace (env : Env) (mn : CMasterNode) : CMasterNode × List (CTxIn × Int) :=
  if mn.enabled = 3 then (mn, [])
  else if !UpdatedWithin env mn env.MASTERNODE_REMOVAL_SECONDS then ({ mn with enabled := 4 }, [])
  else if !UpdatedWithin env mn env.MASTERNODE_EXPIRATION_SECONDS then ({ mn with enabled := 2 }, [])
  else if !mn.unitTest then
    if !env.AcceptableInputs mn.vin (probeValue env mn.collateral) then
      ({ mn with enabled := 3 }, [(mn.vin, probeValue env mn.collateral)])
    else ({ mn with enabled := 1 }, [(mn.vin, probeValue env mn.collateral)])
  else ({ mn with enabled := 1 }, [])

/-- Method `CMasterNode::Check`: the entry after the call. -/
def Check (env : Env) (mn : CMasterNode) : CMasterNode :=
  (CheckTrace env mn).1

/-! ## Block-hash lookup and scores -/

/-- Little-endian serialisation of a number on `len` bytes. -/
def leBytes : Nat → Nat → List Nat
  | 0, _ => []
  | len + 1, n => (n % 256) :: leBytes len (n / 256)

/-- The 32 bytes of a `uint256`. -/
def ser256 (x : Nat) : List Nat :=
  leBytes 32 (x % U256)

/-- The hash of a byte string as a `uint256`. -/
def hash256 (env : Env) (bytes : List Nat) : Nat :=
  env.Hash bytes % U256

/-- Lookup in `mapCacheBlockHashes`. -/
def cacheFind : Cache → Int → Option Nat
  | [], _ => none
  | (k, v) :: rest, key => if k = key then some v else cacheFind rest key

/-- Narrowing conversion of an `int64_t` argument to an `int` parameter. -/
def toInt32 (x : Int) : Int :=
  (x + 2 ^ 31) % 2 ^ 32 - 2 ^ 31

/-- The backward walk of `GetBlockHash`.  The argument list is `BlockReading`
followed by its `pprev` chain, so `BlockReading->nHeight` is the length of the
tail.  The walk returns the hash of the first visited entry for which
`n >= nBlocksAgo`, and fails when it meets height 0. -/
def GetBlockHash.walk (nBlocksAgo : Int) : Int → List CBlockIndex → Option Nat
  | _, [] => none
  | n, b :: prev =>
    if 0 < prev.length then
      if n ≥ nBlocksAgo then some b.hash
      else GetBlockHash.walk nBlocksAgo (n + 1) prev
    else none

/-- The part of `GetBlockHash` after a cache miss, for the height `h` already
substituted for 0: the tests on the tip and the backward walk. -/
def GetBlockHash.lookup (env : Env) (h : Int) : Option Nat :=
  let height : Int := (env.chain.length : Int) - 1
  if height = 0 ∨ height + 1 < h then none
  else
    let nBlocksAgo : Int := if h > 0 then (height + 1) - h else 0
    GetBlockHash.walk nBlocksAgo 0 env.chain.reverse

/-- The height `GetBlockHash` works with: `chainActive.Height()` replaces 0. -/
def GetBlockHash.key (env : Env) (nBlockHeight : Int) : Int :=
  if nBlockHeight = 0 then (env.chain.length : Int) - 1 else nBlockHeight

/-- Function `GetBlockHash(hash, nBlockHeight)`: the success flag and hash as an
`Option`, together with the cache after the call. -/
def GetBlockHash (env : Env) (cache : Cache) (nBlockHeight : Int) : Option Nat × Cache :=
  if env.chain.length = 0 then (none, cache)
  else
    match cacheFind cache (GetBlockHash.key env nBlockHeight) with
    | some v => (some v, cache)
    | none =>
      match GetBlockHash.lookup env (GetBlockHash.key env nBlockHeight) with
      | some v => (some v, (GetBlockHash.key env nBlockHeight, v) :: cache)
      | none => (none, cache)

/-- Method `CMasterNode::CalculateScore(nBlockHeight)`: the `uint256` score and
the cache after the call. -/
def CalculateScore (env : Env) (cache : Cache) (mn : CMasterNode) (nBlockHeight : Int) :
    Nat × Cache :=
  if env.chain.length = 0 then (0, cache)
  else
    let aux := (mn.vin.prevout.hash + mn.vin.prevout.n) % U256
    match GetBlockHash env cache (toInt32 nBlockHeight) with
    | (none, cache') => (0, cache')
    | (some hash, cache') =>
      let hash2 := hash256 env (ser256 hash)
      let hash3 := hash256 env (ser256 hash ++ ser256 aux)
      (if hash3 > hash2 then hash3 - hash2 else hash2 - hash3, cache')

/-! ## Recently paid masternodes and the election -/

/-- Function `IsMasternodePaidInList`. -/
def IsMasternodePaidInList (vecPaidMasternodes : List CScript) (sAddress : CScript) : Bool :=
  decide (sAddress ∈ vecPaidMasternodes)

/-- Number of blocks `GetPaidMasternodes` scans. -/
def paidScanCount (vecMasternodes : List CMasterNode) : Int :=
  min (max (vecMasternodes.length : Int) 960) 1500

/-- One iteration of the loop body of `GetPaidMasternodes` on the entry `pblockindex`. -/
def GetPaidMasternodes.step (env : Env) (paid : List CScript) (idx : CBlockIndex) :
    List CScript :=
  match idx.disk with
  | none => paid
  | some block =>
    if env.HasMasternodePayment block then
      match block.vtx.get? 1 with
      | none => paid
      | some tx =>
        if tx.vout.length = 3 then
          match tx.vout.get? 2 with
          | some out =>
            if !IsMasternodePaidInList paid out.scriptPubKey then paid ++ [out.scriptPubKey]
            else paid
          | none => paid
        else if tx.vout.length = 4 then
          match tx.vout.get? 3 with
          | some out =>
            if !IsMasternodePaidInList paid out.scriptPubKey then paid ++ [out.scriptPubKey]
            else paid
          | none => paid
        else paid
    else paid

/-- The loop of `GetPaidMasternodes`: `count` iterations starting at the entry
heading the list, each moving to `pprev`.  The source has no null test: when
iterations remain after the genesis entry (or the chain is empty and `Tip()` is
null) it reads through a null pointer, and the result is `none`. -/
def GetPaidMasternodes.loop (env : Env) :
    Nat → List CBlockIndex → List CScript → Option (List CScript)
  | 0, _, paid => some paid
  | _ + 1, [], _ => none
  | count + 1, idx :: prev, paid =>
    GetPaidMasternodes.loop env count prev (GetPaidMasternodes.step env paid idx)

/-- Function `GetPaidMasternodes`: the list returned, or `none` when the chain
has fewer than `count` entries and the loop runs past genesis. -/
def GetPaidMasternodes (env : Env) (vecMasternodes : List CMasterNode) :
    Option (List CScript) :=
  GetPaidMasternodes.loop env (paidScanCount vecMasternodes).toNat env.chain.reverse []

/-- The scan loop of `GetCurrentMasterNode` with its local variables `i`,
`score`, `winner`, threading the block-hash cache. -/
def GetCurrentMasterNode.scan (env : Env) (vecPaidMasternodes : List CScript)
    (nBlockHeight : Int) (minProtocol : Int) :
    List CMasterNode → Int → Nat → Int → Cache → Int × Cache
  | [], _, _, winner, cache => (winner, cache)
  | mn :: rest, i, score, winner, cache =>
    let mnScript := env.GetScriptForDestination mn.pubkey
    if IsMasternodePaidInList vecPaidMasternodes mnScript then
      GetCurrentMasterNode.scan env vecPaidMasternodes nBlockHeight minProtocol rest
        (i + 1) score winner cache
    else if mn.lastTimeSeen - mn.now < 24 * 60 * 60 then
      GetCurrentMasterNode.scan env vecPaidMasternodes nBlockHeight minProtocol rest
        (i + 1) score winner cache
    else
      let mn1 := Check env mn
      if mn1.protocolVersion < minProtocol then
        GetCurrentMasterNode.scan env vecPaidMasternodes nBlockHeight minProtocol rest
          i score winner cache
      else if !IsEnabled mn1 then
        GetCurrentMasterNode.scan env vecPaidMasternodes nBlockHeight minProtocol rest
          (i + 1) score winner cache
      else
        let r := CalculateScore env cache mn1 nBlockHeight
        let n2 := r.1 % U32
        if n2 > score then
          GetCurrentMasterNode.scan env vecPaidMasternodes nBlockHeight minProtocol rest
            (i + 1) n2 i r.2
        else
          GetCurrentMasterNode.scan env vecPaidMasternodes nBlockHeight minProtocol rest
            (i + 1) score winner r.2

/-- Function `GetCurrentMasterNode(nBlockHeight, minProtocol)`: the returned
index (or `-1`) and the cache after the call; `none` when the initial call of
`GetPaidMasternodes` has no result. -/
def GetCurrentMasterNode (env : Env) (vecMasternodes : List CMasterNode) (cache : Cache)
    (nBlockHeight : Int) (minProtocol : Int) : Option (Int × Cache) :=
  match GetPaidMasternodes env vecMasternodes with
  | none => none
  | some vecPaidMasternodes =>
    some (GetCurrentMasterNode.scan env vecPaidMasternodes nBlockHeight
      minProtocol vecMasternodes 0 0 (-1) cache)

/-! ## Payment ledger (`CMasternodePayments`) -/

/-- The mutable globals of `masternode.cpp` together with the members of the
object `masternodePayments`. -/
structure State where
  vecMasternodes : List CMasterNode
  vWinning : List CMasternodePaymentWinner
  mapCacheBlockHashes : Cache
  mapSeenMasternodeVotes : List (Nat × CMasternodePaymentWinner)
  enabled : Bool

/-- The state at start-up: empty containers, payments master disabled. -/
def State.init : State :=
  { vecMasternodes := [], vWinning := [], mapCacheBlockHashes := [],
    mapSeenMasternodeVotes := [], enabled := false }

/-- Default-constructed `CTxIn()`: null outpoint, empty script, maximal sequence. -/
def CTxIn.null : CTxIn :=
  { prevout := { hash := 0, n := U32 - 1 }, scriptSig := [], nSequence := U32 - 1 }

/-- Default-constructed `CMasternodePaymentWinner()`. -/
def CMasternodePaymentWinner.new : CMasternodePaymentWinner :=
  { nBlockHeight := 0, vin := CTxIn.null, payee := [], vchSig := [], score := 0 }

/-- The four bytes of an `int`. -/
def ser32 (x : Int) : List Nat :=
  leBytes 4 (x % 2 ^ 32).toNat

/-- Method `CMasternodePaymentWinner::GetHash`. -/
def CMasternodePaymentWinner.GetHash (env : Env) (w : CMasternodePaymentWinner) : Nat :=
  let n2 := hash256 env (ser32 w.nBlockHeight)
  let h := w.vin.prevout.hash % U256
  if h > n2 then h - n2 else n2 - h

/-- Method `CMasternodePayments::CalculateScore(blockHash, vin)`. -/
def CMasternodePayments.CalculateScore (env : Env) (blockHash : Nat) (vin : CTxIn) : Nat :=
  let n2 := hash256 env (ser256 blockHash)
  let n3 := hash256 env (ser256 vin.prevout.hash)
  let n4 := if n3 > n2 then n3 - n2 else n2 - n3
  n4 % U64

/-- Method `CMasternodePayments::GetBlockPayee`: the payee of the first record
with the given height. -/
def GetBlockPayee : List CMasternodePaymentWinner → Int → Option CScript
  | [], _ => none
  | w :: rest, nBlockHeight =>
    if w.nBlockHeight = nBlockHeight then some w.payee else GetBlockPayee rest nBlockHeight

/-- Method `CMasternodePayments::GetWinningMasternode`. -/
def GetWinningMasternode : List CMasternodePaymentWinner → Int → Option CTxIn
  | [], _ => none
  | w :: rest, nBlockHeight =>
    if w.nBlockHeight = nBlockHeight then some w.vin else GetWinningMasternode rest nBlockHeight

/-- Outcome of the loop of `AddWinningMasternode`. -/
structure AddScan where
  /-- The loop executed `return true`. -/
  returned : Bool
  /-- Value of the local `foundBlock`. -/
  foundBlock : Bool
  /-- The vector `vWinning` after the loop. -/
  vWinning : List CMasternodePaymentWinner

/-- The loop of `AddWinningMasternode` over `vWinning`; the `Bool` argument is
the current value of `foundBlock`. -/
def AddWinningMasternode.scan (winnerIn : CMasternodePaymentWinner) :
    List CMasternodePaymentWinner → Bool → AddScan
  | [], found => { returned := false, foundBlock := found, vWinning := [] }
  | w :: rest, found =>
    if w.nBlockHeight = winnerIn.nBlockHeight then
      if w.score < winnerIn.score then
        { returned := true, foundBlock := true,
          vWinning := { w with score := winnerIn.score, vin := winnerIn.vin,
                               payee := winnerIn.payee, vchSig := winnerIn.vchSig } :: rest }
      else
        let r := AddWinningMasternode.scan winnerIn rest true
        { r with vWinning := w :: r.vWinning }
    else
      let r := AddWinningMasternode.scan winnerIn rest found
      { r with vWinning := w :: r.vWinning }

/-- Insertion into `mapSeenMasternodeVotes` (`std::map::insert` keeps an existing key). -/
def seenInsert (seen : List (Nat × CMasternodePaymentWinner)) (k : Nat)
    (w : CMasternodePaymentWinner) : List (Nat × CMasternodePaymentWinner) :=
  if seen.any (fun p => p.1 = k) then seen else seen ++ [(k, w)]

/-- Method `CMasternodePayments::AddWinningMasternode(winnerIn)`: the returned
flag, the state after the call, and the vote as left in the reference argument
(its `score` overwritten once the block hash was found). -/
def AddWinningMasternode (env : Env) (st : State) (winnerIn : CMasternodePaymentWinner) :
    Bool × State × CMasternodePaymentWinner :=
  match GetBlockHash env st.mapCacheBlockHashes (winnerIn.nBlockHeight - 576) with
  | (none, cache) => (false, { st with mapCacheBlockHashes := cache }, winnerIn)
  | (some blockHash, cache) =>
    let win := { winnerIn with score := CMasternodePayments.CalculateScore env blockHash winnerIn.vin }
    let r := AddWinningMasternode.scan win st.vWinning false
    if r.returned then
      (true, { st with mapCacheBlockHashes := cache, vWinning := r.vWinning }, win)
    else if !r.foundBlock then
      (true, { st with mapCacheBlockHashes := cache, vWinning := st.vWinning ++ [win],
                       mapSeenMasternodeVotes :=
                         seenInsert st.mapSeenMasternodeVotes (win.GetHash env) win }, win)
    else (false, { st with mapCacheBlockHashes := cache, vWinning := r.vWinning }, win)

/-- The erase loop of `CleanPaymentList`: remove the first record older than the limit. -/
def CleanPaymentList.erase (height nLimit : Int) :
    List CMasternodePaymentWinner → List CMasternodePaymentWinner
  | [] => []
  | w :: rest =>
    if height - w.nBlockHeight > nLimit then rest
    else w :: CleanPaymentList.erase height nLimit rest

/-- Method `CMasternodePayments::CleanPaymentList`. -/
def CleanPaymentList (env : Env) (st : State) : State :=
  if env.chain.length = 0 then st
  else
    let nLimit : Int := max ((st.vecMasternodes.length : Int) * 2) 1000
    { st with vWinning := CleanPaymentList.erase ((env.chain.length : Int) - 1) nLimit st.vWinning }

/-- Requests to collaborators issued by the handlers. -/
inductive Effect where
  | Misbehaving (howmuch : Int)
  | RelayDarkSendElectionEntry (vin : CTxIn) (addr : CService) (sigTime : Int)
  | RelayDarkSendElectionEntryPing (vin : CTxIn) (sigTime : Int) (stop : Bool)
  | AddrmanAdd (addr : CService)
  | EnableHotColdMasterNode (vin : CTxIn) (addr : CService)
  | PushDseg (vin : CTxIn)
  | RelayWinner (winner : CMasternodePaymentWinner)
  | SendDarkSendElectionEntry (vin : CTxIn) (addr : CService) (sigTime : Int)
deriving DecidableEq, Repr

/-- Whether the effect sends a registry or ledger message on to peers. -/
def Effect.isRelay : Effect → Bool
  | .RelayDarkSendElectionEntry _ _ _ => true
  | .RelayDarkSendElectionEntryPing _ _ _ => true
  | .RelayWinner _ => true
  | .SendDarkSendElectionEntry _ _ _ => true
  | _ => false

/-- Whether the effect is a `Misbehaving` report for the sending peer. -/
def Effect.isMisbehaving : Effect → Bool
  | .Misbehaving _ => true
  | _ => false

/-- The loop of `ProcessBlock` collecting `vecLastPayments` from `vWinning`
iterated in reverse; the `Int` argument is the counter `c`. -/
def ProcessBlock.lastPayments (size : Int) : List CMasternodePaymentWinner → Int → List CTxIn
  | [], _ => []
  | w :: rest, c =>
    w.vin :: (if c + 1 > size then [] else ProcessBlock.lastPayments size rest (c + 1))

/-- The selection loop of `ProcessBlock` over the shuffled registry.  Entries
are visited by reference, so `Check` updates the visited ones in place. -/
def ProcessBlock.pick (env : Env) (vecLastPayments : List CTxIn) (nBlockHeight : Int) :
    List CMasterNode → CMasternodePaymentWinner → List CMasterNode × CMasternodePaymentWinner
  | [], winner => ([], winner)
  | mn :: rest, winner =>
    if vecLastPayments.any (fun vin => decide (mn.vin = vin)) then
      let r := ProcessBlock.pick env vecLastPayments nBlockHeight rest winner
      (mn :: r.1, r.2)
    else
      let mn1 := Check env mn
      if !IsEnabled mn1 then
        let r := ProcessBlock.pick env vecLastPayments nBlockHeight rest winner
        (mn1 :: r.1, r.2)
      else
        (mn1 :: rest, { winner with score := 0, nBlockHeight := nBlockHeight, vin := mn1.vin,
                                    payee := env.GetScriptForDestination mn1.pubkey })

/-- The fallback of `ProcessBlock`: when no record was filled in, take `vecMasternodes[0]`. -/
def ProcessBlock.fallback (env : Env) (nBlockHeight : Int) (vecMasternodes : List CMasterNode)
    (winner : CMasternodePaymentWinner) : CMasternodePaymentWinner :=
  match vecMasternodes with
  | [] => winner
  | mn0 :: _ =>
    if winner.nBlockHeight = 0 then
      { winner with score := 0, nBlockHeight := nBlockHeight, vin := mn0.vin,
                    payee := env.GetScriptForDestination mn0.pubkey }
    else winner

/-- Method `CMasternodePayments::ProcessBlock(nBlockHeight)`. -/
def ProcessBlock (env : Env) (st : State) (nBlockHeight : Int) : Bool × State × List Effect :=
  if !st.enabled then (false, st, [])
  else
    let vecLastPayments :=
      ProcessBlock.lastPayments (st.vecMasternodes.length : Int) st.vWinning.reverse 0
    let shuffled := env.random_shuffle st.vecMasternodes
    let r := ProcessBlock.pick env vecLastPayments nBlockHeight shuffled
      CMasternodePaymentWinner.new
    let winner := ProcessBlock.fallback env nBlockHeight r.1 r.2
    let st1 := { st with vecMasternodes := r.1 }
    match env.SignWinner winner with
    | none => (false, st1, [])
    | some vchSig =>
      let a := AddWinningMasternode env st1 { winner with vchSig := vchSig }
      if a.1 then (true, a.2.1, [Effect.RelayWinner a.2.2]) else (false, a.2.1, [])

/-! ## Payment validation -/

/-- The search loop of `IsValidMasternodePayment`: collateral and
`activeSeconds` of the first entry whose address equals the paid address, or
the initial values `(0, 0)`. -/
def IsValidMasternodePayment.find (env : Env) (mnAddress : Option Nat) :
    List CMasterNode → Int × Int
  | [] => (0, 0)
  | mn :: rest =>
    if mnAddress = env.ExtractDestination (env.GetScriptForDestination mn.pubkey) then
      (mn.collateral, mn.lastTimeSeen - mn.now)
    else IsValidMasternodePayment.find env mnAddress rest

/-- The paid script and amount read from `block.vtx[1]`. -/
def IsValidMasternodePayment.paid (tx : CTransaction) : CScript × Int :=
  if tx.vout.length = 3 then
    match tx.vout.get? 2 with
    | some out => (out.scriptPubKey, out.nValue)
    | none => ([], 0)
  else if tx.vout.length = 4 then
    match tx.vout.get? 3 with
    | some out => (out.scriptPubKey, out.nValue)
    | none => ([], 0)
  else ([], 0)

/-- Function `IsValidMasternodePayment(nBlockHeight, block)`.  The source indexes
`block.vtx[1]` and `block.vtx[0]` unconditionally; the result is `none` when
the block has no second transaction, where the source reads out of bounds, and
when the call of `GetPaidMasternodes` is reached and has no result. -/
def IsValidMasternodePayment (env : Env) (vecMasternodes : List CMasterNode)
    (nBlockHeight : Int) (block : CBlock) : Option Bool :=
  match block.vtx with
  | vtx0 :: vtx1 :: _ =>
    let p := IsValidMasternodePayment.paid vtx1
    let mnAddress := env.ExtractDestination p.1
    let f := IsValidMasternodePayment.find env mnAddress vecMasternodes
    if f.2 = 0 then some false
    else if f.2 < 24 * 60 * 60 then some false
    else
      match GetPaidMasternodes env vecMasternodes with
      | none => none
      | some vecPaidMasternodes =>
        if IsMasternodePaidInList vecPaidMasternodes p.1 then some false
        else if p.2 > env.GetMasternodePayment nBlockHeight (env.GetValueOut vtx0) f.1 then
          some false
        else some true
  | _ => none

/-! ## Gossip handlers (`ProcessMessageMasternode`) -/

/-- Payload of a `dsee` message. -/
structure DseeMsg where
  vin : CTxIn
  addr : CService
  vchSig : List Nat
  sigTime : Int
  pubkey : CPubKey
  pubkey2 : CPubKey
  count : Int
  current : Int
  lastUpdated : Int
  protocolVersion : Int
deriving DecidableEq, Repr

/-- Payload of a `dseep` message. -/
structure DseepMsg where
  vin : CTxIn
  vchSig : List Nat
  sigTime : Int
  stop : Bool
deriving DecidableEq, Repr

/-- Constant `MIN_MN_PROTO_VERSION` of `version.h`. -/
def MIN_MN_PROTO_VERSION : Int := 70000

/-- Constant `PROTOCOL_VERSION` of `version.h`. -/
def PROTOCOL_VERSION : Int := 70004

/-- A byte string as a `std::string`. -/
def bytesToString (bytes : List Nat) : String :=
  String.mk (bytes.map Char.ofNat)

/-- The message signed by a `dsee`. -/
def dseeMessage (env : Env) (m : DseeMsg) : String :=
  env.addrToString m.addr ++ toString m.sigTime ++ bytesToString m.pubkey
    ++ bytesToString m.pubkey2 ++ toString m.protocolVersion

/-- The message signed by a `dseep`: address on file, time, and the flag printed as `0`/`1`. -/
def dseepMessage (env : Env) (addr : CService) (sigTime : Int) (stop : Bool) : String :=
  env.addrToString addr ++ toString sigTime ++ (if stop then "1" else "0")

/-- Constructor `CMasterNode(newAddr, newVin, newPubkey, newSig, newNow, newPubkey2,
protocolVersionIn, newCollateral)`. -/
def CMasterNode.new (newAddr : CService) (newVin : CTxIn) (newPubkey : CPubKey)
    (newSig : List Nat) (newNow : Int) (newPubkey2 : CPubKey) (protocolVersionIn : Int)
    (newCollateral : Int) : CMasterNode :=
  { addr := newAddr, vin := newVin, lastTimeSeen := 0, pubkey := newPubkey,
    pubkey2 := newPubkey2, sig := newSig, now := newNow, lastDseep := 0,
    cacheInputAge := 0, cacheInputAgeBlock := 0, enabled := 1, unitTest := false,
    allowFreeTx := true, protocolVersion := protocolVersionIn, collateral := newCollateral,
    nLastDsq := 0 }

/-- The body of the `dsee` loop for an entry whose outpoint equals the message's:
the entry afterwards and the effects issued before the `return`. -/
def dsee.update (env : Env) (m : DseeMsg) (mn : CMasterNode) : CMasterNode × List Effect :=
  if m.count = -1 ∧ mn.pubkey = m.pubkey
      ∧ UpdatedWithin env mn env.MASTERNODE_MIN_DSEE_SECONDS = false then
    let mn1 := UpdateLastSeen env mn 0
    if mn1.now < m.sigTime then
      ({ mn1 with pubkey2 := m.pubkey2, now := m.sigTime, sig := m.vchSig,
                  protocolVersion := m.protocolVersion, addr := m.addr },
        [Effect.RelayDarkSendElectionEntry m.vin m.addr m.sigTime])
    else (mn1, [])
  else (mn, [])

/-- The search loop of the `dsee` handler over `vecMasternodes`.  `none` means
the loop ended without `return`; otherwise the registry and effects at the `return`. -/
def dsee.search (env : Env) (pfromAddr : CService) (m : DseeMsg) :
    List CMasterNode → Option (List CMasterNode × List Effect)
  | [] => none
  | mn :: rest =>
    if mn.vin.prevout = m.vin.prevout then
      some ((dsee.update env m mn).1 :: rest, (dsee.update env m mn).2)
    else if mn.addr.ip = m.addr.ip then
      some (mn :: rest, if pfromAddr.ip = m.addr.ip then [Effect.Misbehaving 20] else [])
    else
      match dsee.search env pfromAddr m rest with
      | some r => some (mn :: r.1, r.2)
      | none => none

/-- The part of the `dsee` handler after the search loop: collateral checks and insertion. -/
def dsee.insert (env : Env) (m : DseeMsg) (vecMasternodes : List CMasterNode) :
    List CMasterNode × List Effect :=
  match env.IsVinAssociatedWithPubkey m.vin m.pubkey with
  | none => (vecMasternodes, [Effect.Misbehaving 100])
  | some mnCollateral =>
    if env.AcceptableInputs m.vin (probeValue env mnCollateral) then
      if env.GetInputAge m.vin < env.MASTERNODE_MIN_CONFIRMATIONS then
        (vecMasternodes, [Effect.Misbehaving 20])
      else
        let mn := UpdateLastSeen env
          (CMasterNode.new m.addr m.vin m.pubkey m.vchSig m.sigTime m.pubkey2
            m.protocolVersion mnCollateral) m.lastUpdated
        (vecMasternodes ++ [mn],
          [Effect.AddrmanAdd m.addr]
          ++ (if m.pubkey2 = env.pubKeyMasternode ∧ m.protocolVersion = PROTOCOL_VERSION then
                [Effect.EnableHotColdMasterNode m.vin m.addr] else [])
          ++ (if m.count = -1 ∧ env.isLocal m.addr = false then
                [Effect.RelayDarkSendElectionEntry m.vin m.addr m.sigTime] else []))
    else
      (vecMasternodes,
        if env.rejectDoS m.vin (probeValue env mnCollateral) > 0 then
          [Effect.Misbehaving (env.rejectDoS m.vin (probeValue env mnCollateral))] else [])

/-- The `dsee` branch of `ProcessMessageMasternode`, for a message from the peer
at `pfromAddr`: the registry afterwards and the effects issued. -/
def ProcessMessage_dsee (env : Env) (pfromAddr : CService) (vecMasternodes : List CMasterNode)
    (m : DseeMsg) : List CMasterNode × List Effect :=
  if env.fLiteMode then (vecMasternodes, [])
  else if env.IsInitialBlockDownload then (vecMasternodes, [])
  else if m.sigTime > env.adjustedTime + 60 * 60 then (vecMasternodes, [])
  else if m.protocolVersion < MIN_MN_PROTO_VERSION then (vecMasternodes, [])
  else if (env.GetScriptForDestination m.pubkey).length ≠ 25 then
    (vecMasternodes, [Effect.Misbehaving 100])
  else if (env.GetScriptForDestination m.pubkey2).length ≠ 25 then
    (vecMasternodes, [Effect.Misbehaving 100])
  else if !env.VerifyMessage m.pubkey m.vchSig (dseeMessage env m) then
    (vecMasternodes, [Effect.Misbehaving 100])
  else
    match dsee.search env pfromAddr m vecMasternodes with
    | some r => r
    | none => dsee.insert env m vecMasternodes

/-- The body of the `dseep` loop for the entry whose outpoint equals the
message's: the entry afterwards and the effects issued before the `return`. -/
def dseep.update (env : Env) (m : DseepMsg) (mn : CMasterNode) : CMasterNode × List Effect :=
  if mn.lastDseep < m.sigTime then
    if !env.VerifyMessage mn.pubkey2 m.vchSig (dseepMessage env mn.addr m.sigTime m.stop) then
      (mn, [])
    else
      let mn1 := { mn with lastDseep := m.sigTime }
      if !UpdatedWithin env mn1 env.MASTERNODE_MIN_DSEEP_SECONDS then
        let mn2 := UpdateLastSeen env mn1 0
        let mn3 := if m.stop then Check env (Disable mn2) else mn2
        (mn3, [Effect.RelayDarkSendElectionEntryPing m.vin m.sigTime m.stop])
      else (mn1, [])
  else (mn, [])

/-- The search loop of the `dseep` handler over `vecMasternodes`: the first entry
with the message's outpoint is updated and the handler returns. -/
def dseep.search (env : Env) (m : DseepMsg) :
    List CMasterNode → Option (List CMasterNode × List Effect)
  | [] => none
  | mn :: rest =>
    if mn.vin.prevout = m.vin.prevout then
      some ((dseep.update env m mn).1 :: rest, (dseep.update env m mn).2)
    else
      match dseep.search env m rest with
      | some r => some (mn :: r.1, r.2)
      | none => none

/-- The map `askedForMasternodeListEntry`. -/
abbrev AskedFor := List (COutPoint × Int)

/-- Lookup in `askedForMasternodeListEntry`. -/
def askedFind : AskedFor → COutPoint → Option Int
  | [], _ => none
  | (k, v) :: rest, key => if k = key then some v else askedFind rest key

/-- Assignment `askedForMasternodeListEntry[key] = value`. -/
def askedSet : AskedFor → COutPoint → Int → AskedFor
  | [], key, value => [(key, value)]
  | (k, v) :: rest, key, value =>
    if k = key then (k, value) :: rest else (k, v) :: askedSet rest key value

/-- The `dseep` branch of `ProcessMessageMasternode`: the registry and the
asked-for map afterwards, and the effects issued. -/
def ProcessMessage_dseep (env : Env) (vecMasternodes : List CMasterNode) (asked : AskedFor)
    (m : DseepMsg) : List CMasterNode × AskedFor × List Effect :=
  if env.fLiteMode then (vecMasternodes, asked, [])
  else if env.IsInitialBlockDownload then (vecMasternodes, asked, [])
  else if m.sigTime > env.adjustedTime + 60 * 60 then (vecMasternodes, asked, [])
  else if m.sigTime ≤ env.adjustedTime - 60 * 60 then (vecMasternodes, asked, [])
  else
    match dseep.search env m vecMasternodes with
    | some r => (r.1, asked, r.2)
    | none =>
      match askedFind asked m.vin.prevout with
      | some t =>
        if env.time < t then (vecMasternodes, asked, [])
        else (vecMasternodes,
              askedSet asked m.vin.prevout (env.time + env.MASTERNODE_MIN_DSEEP_SECONDS),
              [Effect.PushDseg m.vin])
      | none =>
        (vecMasternodes,
          askedSet asked m.vin.prevout (env.time + env.MASTERNODE_MIN_DSEEP_SECONDS),
          [Effect.PushDseg m.vin])

/-- The registry loop of `CActiveMasternode::Dseep`: refresh `lastTimeSeen` of
every entry whose `vin` equals the agent's; the flag is the local `found`. -/
def Dseep.updateLastSeen (env : Env) (vin : CTxIn) :
    List CMasterNode → List CMasterNode × Bool
  | [] => ([], false)
  | mn :: rest =>
    let r := Dseep.updateLastSeen env vin rest
    if mn.vin = vin then (UpdateLastSeen env mn 0 :: r.1, true) else (mn :: r.1, r.2)

/-- The `mnw` branch of `ProcessMessageMasternode` for a received vote: the state
afterwards and the effects issued. -/
def ProcessMessage_mnw (env : Env) (st : State) (winner : CMasternodePaymentWinner) :
    State × List Effect :=
  if env.chain.length = 0 then (st, [])
  else if st.mapSeenMasternodeVotes.any (fun p => p.1 = winner.GetHash env) then (st, [])
  else if winner.nBlockHeight < ((env.chain.length : Int) - 1) - 10
      ∨ winner.nBlockHeight > ((env.chain.length : Int) - 1) + 20 then (st, [])
  else if winner.vin.nSequence ≠ U32 - 1 then (st, [Effect.Misbehaving 100])
  else if !env.CheckSignature winner then (st, [Effect.Misbehaving 100])
  else
    let a := AddWinningMasternode env
      { st with mapSeenMasternodeVotes :=
          seenInsert st.mapSeenMasternodeVotes (winner.GetHash env) winner } winner
    if a.1 then (a.2.1, [Effect.RelayWinner a.2.2]) else (a.2.1, [])

/-! ## Local agent (`activemasternode.cpp`) -/

/-- The message signed by `CActiveMasternode::Register`. -/
def registerMessage (env : Env) (service : CService) (sigTime : Int)
    (pubKeyCollateralAddress pubKeyMasternode : CPubKey) : String :=
  env.addrToString service ++ toString sigTime ++ bytesToString pubKeyCollateralAddress
    ++ bytesToString pubKeyMasternode ++ toString PROTOCOL_VERSION

/-- Method `CActiveMasternode::Register(vin, service, keyCollateralAddress,
pubKeyCollateralAddress, keyMasternode, pubKeyMasternode, _)`: the returned
flag, the registry afterwards and the effects issued.  The return value of
`IsVinAssociatedWithPubkey` is ignored by the source; when the call fails the
collateral it leaves unset is taken as 0. -/
def Register (env : Env) (vecMasternodes : List CMasterNode) (vin : CTxIn) (service : CService)
    (keyCollateralAddress : List Nat) (pubKeyCollateralAddress : CPubKey)
    (_keyMasternode : List Nat) (pubKeyMasternode : CPubKey) :
    Bool × List CMasterNode × List Effect :=
  let sigTime := env.adjustedTime
  let strMessage := registerMessage env service sigTime pubKeyCollateralAddress pubKeyMasternode
  match env.SignMessage strMessage keyCollateralAddress with
  | none => (false, vecMasternodes, [])
  | some vchSig =>
    if !env.VerifyMessage pubKeyCollateralAddress vchSig strMessage then
      (false, vecMasternodes, [])
    else
      let found := vecMasternodes.any (fun mn => decide (mn.vin = vin))
      let mnCollateral := (env.IsVinAssociatedWithPubkey vin pubKeyCollateralAddress).getD 0
      let mn := UpdateLastSeen env
        (CMasterNode.new service vin pubKeyCollateralAddress vchSig sigTime pubKeyMasternode
          PROTOCOL_VERSION mnCollateral) sigTime
      (true, if found then vecMasternodes else vecMasternodes ++ [mn],
        [Effect.SendDarkSendElectionEntry vin service sigTime])

/-! ## Block assembly (`wallet.cpp`) -/

/-- The class `CMasternodeEntry` as `masternodeconfig.cpp` uses it: the five
strings passed to its constructor and read back through its getters
(`strAlias` is the member behind `getAlias()`). -/
structure CMasternodeEntry where
  strAlias : String
  ip : String
  privKey : String
  txHash : String
  outputIndex : String
deriving DecidableEq, Repr

/-- The line `remove` and `create` stream to the configuration file for an entry. -/
def CMasternodeEntry.line (e : CMasternodeEntry) : String :=
  e.strAlias ++ " " ++ e.ip ++ " " ++ e.privKey ++ " " ++ e.txHash ++ " " ++ e.outputIndex

/-- The loop of `CMasternodeConfig::remove` with its locals `i` and `rIndex`
and the lines streamed to the file so far. -/
def CMasternodeConfig.remove.scan (strAlias : String) :
    List CMasternodeEntry → Int → Int → List String → Int × List String
  | [], _, rIndex, written => (rIndex, written)
  | e :: rest, i, rIndex, written =>
    if e.strAlias ≠ strAlias then
      CMasternodeConfig.remove.scan strAlias rest (i + 1) rIndex (written ++ [e.line])
    else
      CMasternodeConfig.remove.scan strAlias rest (i + 1) (i + 1) written

/-- Method `CMasternodeConfig::remove(alias)`: the lines written to the
configuration file, and the returned flag with the entries afterwards.  The
second component is `none` when the source calls `entries.erase` on
`entries.begin() + entries.size()`, the end iterator, which is undefined. -/
def CMasternodeConfig.remove (entries : List CMasternodeEntry) (strAlias : String) :
    List String × Option (Bool × List CMasternodeEntry) :=
  let r := CMasternodeConfig.remove.scan strAlias entries 0 (-1) []
  (r.2,
    if r.1 ≠ -1 then
      if r.1 < (entries.length : Int) then some (true, entries.eraseIdx r.1.toNat)
      else none
    else some (false, entries))

/-! ## Stopping the local agent (`activemasternode.cpp`) -/

/-- The status codes of `darksend.h` used by the local agent; the header is not
among the sources, so the values are parameters. -/
structure StatusCodes where
  MASTERNODE_IS_CAPABLE : Int
  MASTERNODE_NOT_CAPABLE : Int
  MASTERNODE_STOPPED : Int
  MASTERNODE_REMOTELY_ENABLED : Int

/-- The members of `CActiveMasternode` read and written when the agent stops;
the text of `notCapableReason` is not kept. -/
structure CActiveMasternode where
  status : Int
  vin : CTxIn
  service : CService
deriving DecidableEq, Repr

/-- Requests the local agent issues when it stops. -/
inductive AgentEffect where
  | UnlockCoin (prevout : COutPoint)
  | SendDarkSendElectionEntryPing (vin : CTxIn) (sigTime : Int) (stop : Bool)
deriving DecidableEq, Repr

/-- Method `CActiveMasternode::Dseep(vin, service, keyMasternode,
pubKeyMasternode, retErrorMessage, stop)`: the returned flag, the agent and the
registry afterwards, and the effects issued. -/
def Dseep (env : Env) (codes : StatusCodes) (act : CActiveMasternode)
    (vecMasternodes : List CMasterNode) (vin : CTxIn) (service : CService)
    (keyMasternode : List Nat) (pubKeyMasternode : CPubKey) (stop : Bool) :
    Bool × CActiveMasternode × List CMasterNode × List AgentEffect :=
  let masterNodeSignatureTime := env.adjustedTime
  let strMessage := dseepMessage env service masterNodeSignatureTime stop
  match env.SignMessage strMessage keyMasternode with
  | none => (false, act, vecMasternodes, [])
  | some vchMasterNodeSignature =>
    if !env.VerifyMessage pubKeyMasternode vchMasterNodeSignature strMessage then
      (false, act, vecMasternodes, [])
    else
      let r := Dseep.updateLastSeen env vin vecMasternodes
      if !r.2 then
        (false, { act with status := codes.MASTERNODE_NOT_CAPABLE }, r.1, [])
      else
        (true, act, r.1,
          [AgentEffect.SendDarkSendElectionEntryPing vin masterNodeSignatureTime stop])

/-- Method `CActiveMasternode::StopMasterNode(vin, service, keyMasternode,
pubKeyMasternode, errorMessage)`: stop of any masternode. -/
def StopMasterNode.any (env : Env) (codes : StatusCodes) (act : CActiveMasternode)
    (vecMasternodes : List CMasterNode) (vin : CTxIn) (service : CService)
    (keyMasternode : List Nat) (pubKeyMasternode : CPubKey) :
    Bool × CActiveMasternode × List CMasterNode × List AgentEffect :=
  let r := Dseep env codes act vecMasternodes vin service keyMasternode pubKeyMasternode true
  (r.1, r.2.1, r.2.2.1, AgentEffect.UnlockCoin vin.prevout :: r.2.2.2)

/-- The liveness state `Check` computes for an entry that is not in state 3. -/
def checkTarget (env : Env) (mn : CMasterNode) : Int :=
  if env.adjustedTime - mn.lastTimeSeen ≥ env.MASTERNODE_REMOVAL_SECONDS then 4
  else if env.adjustedTime - mn.lastTimeSeen ≥ env.MASTERNODE_EXPIRATION_SECONDS then 2
  else if mn.unitTest = false ∧ env.AcceptableInputs mn.vin (probeValue env mn.collateral) = false
    then 3
  else 1

/-! ## Ledger invariant and reachability -/

/-- No two retained records share a block height. -/
def UniqueHeights (vWinning : List CMasternodePaymentWinner) : Prop :=
  (vWinning.map (fun w => w.nBlockHeight)).Nodup

instance (vWinning : List CMasternodePaymentWinner) : Decidable (UniqueHeights vWinning) := by
  unfold UniqueHeights; infer_instance

/-- States reachable from a state with an empty ledger by `AddWinningMasternode`,
`ProcessBlock` and `CleanPaymentList` (each under any environment), interleaved
with any operation that leaves `vWinning` alone. -/
inductive LedgerReachable : State → Prop where
  | empty (st : State) (h : st.vWinning = []) : LedgerReachable st
  | add (env : Env) (st : State) (vote : CMasternodePaymentWinner) (h : LedgerReachable st) :
      LedgerReachable (AddWinningMasternode env st vote).2.1
  | processBlock (env : Env) (st : State) (nBlockHeight : Int) (h : LedgerReachable st) :
      LedgerReachable (ProcessBlock env st nBlockHeight).2.1
  | clean (env : Env) (st : State) (h : LedgerReachable st) :
      LedgerReachable (CleanPaymentList env st)
  | other (st st1 : State) (h : LedgerReachable st) (hl : st1.vWinning = st.vWinning) :
      LedgerReachable st1

/-! ## Sequences of registry operations -/

/-- Apply a function to the entry at a position of the registry. -/
def modifyAt (f : CMasterNode → CMasterNode) : Nat → List CMasterNode → List CMasterNode
  | _, [] => []
  | 0, mn :: rest => f mn :: rest
  | i + 1, mn :: rest => mn :: modifyAt f i rest

/-- Operations on the registry, each with the environment (clock included) it
runs in: `Check` on the entry at a position (`GetMasternodeScores` and
`ProcessBlock` call it on the entries by reference), handling of a received
`dseep`, the refresh loop of the local `CActiveMasternode::Dseep` for the
agent's `vin`, and handling of a `dsee` received from the peer at `pfromAddr`. -/
inductive RegistryOp where
  | check (env : Env) (i : Nat)
  | dseep (env : Env) (m : DseepMsg)
  | localDseep (env : Env) (vin : CTxIn)
  | dsee (env : Env) (pfromAddr : CService) (m : DseeMsg)

/-- The environment an operation runs in. -/
def RegistryOp.env : RegistryOp → Env
  | .check env _ => env
  | .dseep env _ => env
  | .localDseep env _ => env
  | .dsee env _ _ => env

/-- The registry after an operation.  The registry a `dseep` leaves does not
depend on the asked-for map, which is taken empty. -/
def RegistryOp.apply : RegistryOp → List CMasterNode → List CMasterNode
  | .check env i, reg => modifyAt (Check env) i reg
  | .dseep env m, reg => (ProcessMessage_dseep env reg [] m).1
  | .localDseep env vin, reg => (Dseep.updateLastSeen env vin reg).1
  | .dsee env pfromAddr m, reg => (ProcessMessage_dsee env pfromAddr reg m).1

/-- The liveness state of the entry at a position. -/
def enabledAt (reg : List CMasterNode) (i : Nat) : Option Int :=
  reg[i]?.map (fun mn => mn.enabled)

/-- The registry has an entry at position `i` and it satisfies `P`. -/
def HoldsAt (P : CMasterNode → Prop) (reg : List CMasterNode) (i : Nat) : Prop :=
  ∃ mn, reg[i]? = some mn ∧ P mn

/-- Every change an operation can make to one existing entry keeps `P`. -/
def RegistryOp.Preserves (P : CMasterNode → Prop) : RegistryOp → Prop
  | .check env _ => ∀ mn, P mn → P (Check env mn)
  | .dseep env m => ∀ mn, P mn → P (dseep.update env m mn).1
  | .localDseep env _ => ∀ mn, P mn → P (UpdateLastSeen env mn 0)
  | .dsee env _ m => ∀ mn, P mn → P (dsee.update env m mn).1

/-- The tie-break score `AddWinningMasternode` computes for a vote in a state:
`CalculateScore` of the hash found for `nBlockHeight - 576`, if the lookup succeeds. -/
def voteScore (env : Env) (st : State) (vote : CMasternodePaymentWinner) : Option Nat :=
  (GetBlockHash env st.mapCacheBlockHashes (vote.nBlockHeight - 576)).1.map
    (fun blockHash => CMasternodePayments.CalculateScore env blockHash vote.vin)

/-- The ledger `after` is `before` with winner, payee, signature and score of one
record overwritten by those of `win`; that record has the height of `win`, a
strictly lower score, and is the first such record. -/
def ReplacesLowerRecord (win : CMasternodePaymentWinner)
    (before after : List CMasternodePaymentWinner) : Prop :=
  ∃ pre w post, before = pre ++ w :: post
    ∧ (∀ x ∈ pre, x.nBlockHeight = win.nBlockHeight → win.score ≤ x.score)
    ∧ w.nBlockHeight = win.nBlockHeight ∧ w.score < win.score
    ∧ after = pre ++ { w with score := win.score, vin := win.vin, payee := win.payee,
                              vchSig := win.vchSig } :: post

/-- The vote `v` occurs in `votes`, no vote has a larger score, and every vote
before that occurrence has a strictly smaller score. -/
def IsFirstMaxVote (S : CMasternodePaymentWinner → Nat) (votes : List CMasternodePaymentWinner)
    (v : CMasternodePaymentWinner) : Prop :=
  ∃ k : Nat, votes[k]? = some v
    ∧ (∀ (j : Nat) (v1 : CMasternodePaymentWinner), votes[j]? = some v1 → S v1 ≤ S v)
    ∧ (∀ (j : Nat) (v1 : CMasternodePaymentWinner), j < k → votes[j]? = some v1 → S v1 < S v)

/-- The state after passing a sequence of votes to `AddWinningMasternode` in order. -/
def ingestVotes (env : Env) : State → List CMasternodePaymentWinner → State
  | st, [] => st
  | st, vote :: rest => ingestVotes env (AddWinningMasternode env st vote).2.1 rest

/-- The score `CalculateScore` derives from a block-hash lookup result. -/
def scoreFromHash (env : Env) (blockHash : Option Nat) (mn : CMasterNode) : Nat :=
  match blockHash with
  | none => 0
  | some hash =>
    let aux := (mn.vin.prevout.hash + mn.vin.prevout.n) % U256
    let hash2 := hash256 env (ser256 hash)
    let hash3 := hash256 env (ser256 hash ++ ser256 aux)
    if hash3 > hash2 then hash3 - hash2 else hash2 - hash3

/-- The comparable score of an entry: the low-order 32 bits of `CalculateScore`. -/
def scoreWith (env : Env) (blockHash : Option Nat) (mn : CMasterNode) : Nat :=
  scoreFromHash env blockHash mn % U32

/-- The first two filters of the election: payout script not recently paid and
`lastTimeSeen - now` of at least 24 hours. -/
def passesFilters (env : Env) (paid : List CScript) (mn : CMasterNode) : Bool :=
  !IsMasternodePaidInList paid (env.GetScriptForDestination mn.pubkey)
    && decide (24 * 60 * 60 ≤ mn.lastTimeSeen - mn.now)

/-- Eligibility in the election: both filters pass, the protocol version is at
least `minProtocol`, and the entry is enabled after `Check`. -/
def eligible (env : Env) (paid : List CScript) (minProtocol : Int) (mn : CMasterNode) : Bool :=
  passesFilters env paid mn && decide (minProtocol ≤ mn.protocolVersion)
    && IsEnabled (Check env mn)

/-- Entries on which the scan takes the `continue` that does not advance `i`:
both filters pass and the protocol version is below `minProtocol`. -/
def skipsWithoutCount (env : Env) (paid : List CScript) (minProtocol : Int)
    (mn : CMasterNode) : Bool :=
  passesFilters env paid mn && decide (mn.protocolVersion < minProtocol)

/-- The scan of `GetCurrentMasterNode` with the block-hash lookup result fixed. -/
def electWith (env : Env) (paid : List CScript) (blockHash : Option Nat) (minProtocol : Int) :
    List CMasterNode → Int → Nat → Int → Int
  | [], _, _, winner => winner
  | mn :: rest, i, score, winner =>
    if skipsWithoutCount env paid minProtocol mn then
      electWith env paid blockHash minProtocol rest i score winner
    else if eligible env paid minProtocol mn ∧ score < scoreWith env blockHash mn then
      electWith env paid blockHash minProtocol rest (i + 1) (scoreWith env blockHash mn) i
    else electWith env paid blockHash minProtocol rest (i + 1) score winner

/-- Entry `k` of the registry is eligible, no eligible entry has a larger score,
and every eligible entry before it has a strictly smaller score: the eligible
entry with the largest score, the earliest one among ties. -/
def IsElectionWinner (E : CMasterNode → Bool) (S : CMasterNode → Nat)
    (reg : List CMasterNode) (k : Nat) : Prop :=
  ∃ m, reg[k]? = some m ∧ E m = true
    ∧ (∀ (j : Nat) (m1 : CMasterNode), reg[j]? = some m1 → E m1 = true → S m1 ≤ S m)
    ∧ (∀ (j : Nat) (m1 : CMasterNode), j < k → reg[j]? = some m1 → E m1 = true → S m1 < S m)

/-! ## Vocabulary for the registry, window and pruning claims -/

/-- No two entries of the registry have the same collateral outpoint
(transaction id and output index). -/
def UniquePrevouts (reg : List CMasterNode) : Prop :=
  (reg.map (fun mn => mn.vin.prevout)).Nodup

instance (reg : List CMasterNode) : Decidable (UniquePrevouts reg) := by
  unfold UniquePrevouts; infer_instance

/-- Registries reachable from the empty registry by `dsee` handling, `dseep`
handling and `CActiveMasternode::Register`, each under any environment. -/
inductive RegistryReachable : List CMasterNode → Prop where
  | empty : RegistryReachable []
  | dsee (env : Env) (pfromAddr : CService) (reg : List CMasterNode) (m : DseeMsg)
      (h : RegistryReachable reg) : RegistryReachable (ProcessMessage_dsee env pfromAddr reg m).1
  | dseep (env : Env) (reg : List CMasterNode) (asked : AskedFor) (m : DseepMsg)
      (h : RegistryReachable reg) : RegistryReachable (ProcessMessage_dseep env reg asked m).1
  | register (env : Env) (reg : List CMasterNode) (vin : CTxIn) (service : CService)
      (keyCollateralAddress : List Nat) (pubKeyCollateralAddress : CPubKey)
      (keyMasternode : List Nat) (pubKeyMasternode : CPubKey) (h : RegistryReachable reg) :
      RegistryReachable (Register env reg vin service keyCollateralAddress
        pubKeyCollateralAddress keyMasternode pubKeyMasternode).2.1

/-- Whether the operation is the handling of a `dseep` with the `stop` flag. -/
def RegistryOp.isStopPing : RegistryOp → Bool
  | .dseep _ m => m.stop
  | _ => false

/-- Whether the operation is the refresh loop of the local `CActiveMasternode::Dseep`. -/
def RegistryOp.isLocalDseep : RegistryOp → Bool
  | .localDseep _ _ => true
  | _ => false

/-- A block index entry carries a masternode payment as far as
`GetPaidMasternodes` can tell: the block is read back from disk and
`HasMasternodePayment()` holds. -/
def carriesPayment (env : Env) (idx : CBlockIndex) : Bool :=
  match idx.disk with
  | some block => env.HasMasternodePayment block
  | none => false

/-- The script the loop body of `GetPaidMasternodes` reads from a block: the
last output of `vtx[1]` when that transaction has 3 or 4 outputs. -/
def paidScriptOf (block : CBlock) : Option CScript :=
  match block.vtx.get? 1 with
  | none => none
  | some tx =>
    if tx.vout.length = 3 then (tx.vout.get? 2).map (fun out => out.scriptPubKey)
    else if tx.vout.length = 4 then (tx.vout.get? 3).map (fun out => out.scriptPubKey)
    else none

/-- The retention test of `CleanPaymentList` on a record:
`chainActive.Height() - nBlockHeight > nLimit`. -/
def expiredRecord (env : Env) (st : State) (w : CMasternodePaymentWinner) : Bool :=
  decide (((env.chain.length : Int) - 1) - w.nBlockHeight
    > max ((st.vecMasternodes.length : Int) * 2) 1000)

/-- Pairs of a chain and a block-hash cache reachable from an empty cache by
`GetBlockHash` calls (with any argument) and by appending blocks to the chain. -/
inductive CacheReachable : List CBlockIndex → Cache → Prop where
  | empty (chain : List CBlockIndex) : CacheReachable chain []
  | lookup (env : Env) (cache : Cache) (nBlockHeight : Int)
      (h : CacheReachable env.chain cache) :
      CacheReachable env.chain (GetBlockHash env cache nBlockHeight).2
  | grow (chain more : List CBlockIndex) (cache : Cache) (h : CacheReachable chain cache) :
      CacheReachable (chain ++ more) cache

/-- Every cached key is negative, or positive with the hash the lookup finds on
the current chain. -/
def CacheSound (chain : List CBlockIndex) (cache : Cache) : Prop :=
  ∀ (env : Env) (k : Int) (v : Nat), env.chain = chain → cacheFind cache k = some v →
    k < 0 ∨ (0 < k ∧ GetBlockHash.lookup env k = some v)

/-- The local `winner` of `ProcessBlock(nBlockHeight)` as it is passed to `Sign`:
the record after the selection loop and the fallback. -/
def ProcessBlock.record (env : Env) (st : State) (nBlockHeight : Int) :
    CMasternodePaymentWinner :=
  let vecLastPayments :=
    ProcessBlock.lastPayments (st.vecMasternodes.length : Int) st.vWinning.reverse 0
  let r := ProcessBlock.pick env vecLastPayments nBlockHeight
    (env.random_shuffle st.vecMasternodes) CMasternodePaymentWinner.new
  ProcessBlock.fallback env nBlockHeight r.1 r.2

/-- No two entries of the registry have the same network address. -/
def UniqueAddrs (reg : List CMasterNode) : Prop :=
  (reg.map (fun mn => mn.addr.ip)).Nodup

instance (reg : List CMasterNode) : Decidable (UniqueAddrs reg) := by
  unfold UniqueAddrs; infer_instance

/-! ## Sample environment and entries used to instantiate the theorems -/

/-- A block index entry with hash 0 whose block cannot be read back. -/
def demoBlock : CBlockIndex :=
  { hash := 0, disk := none }

/-- A chain of 1000 entries (tip height 999). -/
def demoChain : List CBlockIndex :=
  List.replicate 1000 demoBlock

/-- A stand-in for the hash: byte 32 of a longer input, byte 0 of a shorter one. -/
def demoHash (bytes : List Nat) : Nat :=
  if 32 < bytes.length then bytes.getD 32 0 else bytes.headD 0

/-- A sample environment: clock at 1700000000, every signature and collateral
accepted, scripts equal to key bytes, expiry constants 4200 s and 3900 s. -/
def demoEnv : Env :=
  { adjustedTime := 1700000000
    chain := demoChain
    Hash := demoHash
    GetScriptForDestination := fun pk => pk
    AcceptableInputs := fun _ _ => true
    HasMasternodePayment := fun _ => false
    COIN := 100000000
    MASTERNODE_REMOVAL_SECONDS := 4200
    MASTERNODE_EXPIRATION_SECONDS := 3900
    MASTERNODE_MIN_DSEEP_SECONDS := 1800
    MASTERNODE_MIN_DSEE_SECONDS := 300
    MASTERNODE_MIN_CONFIRMATIONS := 15
    time := 1700000000
    fLiteMode := false
    IsInitialBlockDownload := false
    VerifyMessage := fun _ _ _ => true
    addrToString := fun _ => ""
    isLocal := fun _ => false
    IsVinAssociatedWithPubkey := fun _ _ => some 250000000000000
    rejectDoS := fun _ _ => 0
    GetInputAge := fun _ => 100
    pubKeyMasternode := []
    ExtractDestination := fun script => script.head?
    GetMasternodePayment := fun _ blockValue _ => blockValue / 2
    GetValueOut := fun tx => (tx.vout.map (fun out => out.nValue)).sum
    SignWinner := fun _ => some []
    random_shuffle := fun l => l
    SignMessage := fun _ _ => some []
    CheckSignature := fun _ => true }

/-- A registry entry seen at the sample clock time and announced `age` seconds
before, with collateral transaction id `txid`, key byte `key` and the given
protocol version. -/
def demoNode (txid key : Nat) (age protocolVersion : Int) : CMasterNode :=
  { addr := { ip := key, port := 9999 }
    vin := { prevout := { hash := txid, n := 0 }, scriptSig := [], nSequence := U32 - 1 }
    lastTimeSeen := 1700000000
    pubkey := [key]
    pubkey2 := [key + 100]
    sig := []
    now := 1700000000 - age
    lastDseep := 0
    cacheInputAge := 0
    cacheInputAgeBlock := 0
    enabled := 1
    unitTest := false
    allowFreeTx := true
    protocolVersion := protocolVersion
    collateral := 250000000000000
    nLastDsq := 0 }

/-- Two entries whose scores at height 1000 of the sample chain are 100 and 250. -/
def demoRegistry : List CMasterNode :=
  [demoNode 100 1 100000 70004, demoNode 250 2 100000 70004]

/-- A vote for height 500 naming the collateral transaction `txid`, payee `[txid]`. -/
def demoVote (txid : Nat) : CMasternodePaymentWinner :=
  { nBlockHeight := 500
    vin := { prevout := { hash := txid, n := 0 }, scriptSig := [], nSequence := U32 - 1 }
    payee := [txid]
    vchSig := []
    score := 0 }

/-- A state whose ledger holds one record, for height 500 with score 50. -/
def demoLedgerState : State :=
  { State.init with vWinning := [{ demoVote 50 with score := 50 }] }

/-- A coinstake transaction with three outputs, the third paying `amount` to `script`. -/
def demoCoinstake (script : CScript) (amount : Int) : CTransaction :=
  { vout := [{ nValue := 0, scriptPubKey := [] }, { nValue := 700, scriptPubKey := [9] },
             { nValue := amount, scriptPubKey := script }] }

/-- A coinbase transaction of value 1000. -/
def demoCoinbase : CTransaction :=
  { vout := [{ nValue := 1000, scriptPubKey := [] }] }

/-- A `dseep` for the collateral transaction `txid`, signed at the sample clock time. -/
def demoPing (txid : Nat) (stop : Bool) : DseepMsg :=
  { vin := { prevout := { hash := txid, n := 0 }, scriptSig := [], nSequence := U32 - 1 }
    vchSig := []
    sigTime := 1700000000
    stop := stop }

/-- An entry in state 1 last seen 2000 seconds before the sample clock time. -/
def demoIdleNode : CMasterNode :=
  { demoNode 100 1 100000 70004 with lastTimeSeen := 1700000000 - 2000 }

/-- A `dsee` for a new collateral, timestamped `age` seconds before the sample
clock time, with `count = -1` and `lastUpdated = 0`. -/
def demoAnnounce (age : Int) : DseeMsg :=
  { vin := { prevout := { hash := 100, n := 0 }, scriptSig := [], nSequence := U32 - 1 }
    addr := { ip := 5, port := 9999 }
    vchSig := []
    sigTime := 1700000000 - age
    pubkey := List.replicate 25 7
    pubkey2 := List.replicate 25 8
    count := -1
    current := -1
    lastUpdated := 0
    protocolVersion := 70004 }

/-- The address of the peer the sample messages come from. -/
def demoPeer : CService :=
  { ip := 6, port := 9999 }

/-- The sample environment with a one-block chain in which no signature verifies. -/
def demoBadSigEnv : Env :=
  { demoEnv with chain := [demoBlock], VerifyMessage := fun _ _ _ => false,
                 CheckSignature := fun _ => false }

/-- The input `GetMasterNodeVin` builds for the outpoint `(txid, 0)`: empty
`scriptSig`, maximal `nSequence`. -/
def demoVin (txid : Nat) : CTxIn :=
  { prevout := { hash := txid, n := 0 }, scriptSig := [], nSequence := U32 - 1 }

/-- A `dsee` for the outpoint `(100, 0)` whose input carries `nSequence = 0`. -/
def demoAnnounceSeq0 : DseeMsg :=
  { demoAnnounce 100000 with vin := { demoVin 100 with nSequence := 0 } }

/-- A `dsee` for a new collateral whose `lastUpdated` lies 1000 s ahead of the
sample clock time. -/
def demoAnnounceAhead : DseeMsg :=
  { demoAnnounce 100000 with lastUpdated := 1700001000 }

/-- A block index entry whose block pays 400 to the script `[1]`. -/
def demoPayingBlock : CBlockIndex :=
  { hash := 0, disk := some { vtx := [demoCoinbase, demoCoinstake [1] 400] } }

/-- The sample environment with a chain that has `demoPayingBlock` at height
`below`, with `above` entries on top of it, and in which every block read back
has a masternode payment. -/
def demoPaidEnv (below above : Nat) : Env :=
  { demoEnv with
    chain := List.replicate below demoBlock ++ demoPayingBlock :: List.replicate above demoBlock
    HasMasternodePayment := fun _ => true }

/-- A ledger record for the given height. -/
def demoRecord (height : Int) : CMasternodePaymentWinner :=
  { demoVote 50 with nBlockHeight := height }

/-- The sample environment with a chain of 3000 entries (tip height 2999). -/
def demoLongEnv : Env :=
  { demoEnv with chain := List.replicate 3000 demoBlock }

/-- A block index entry with the given hash whose block cannot be read back. -/
def demoHashBlock (hash : Nat) : CBlockIndex :=
  { hash := hash, disk := none }

/-- The sample environment with the given chain. -/
def demoChainEnv (chain : List CBlockIndex) : Env :=
  { demoEnv with chain := chain }

/-- A ledger record for the given height naming the collateral transaction `txid`. -/
def demoPaidRecord (txid : Nat) (height : Int) : CMasternodePaymentWinner :=
  { demoVote txid with nBlockHeight := height }

/-- A state with payments enabled, the two sample entries registered, and a
ledger whose records, oldest first, name the collateral transactions 100, 300
and 400. -/
def demoCycleState : State :=
  { State.init with
    enabled := true
    vecMasternodes := demoRegistry
    vWinning := [demoPaidRecord 100 997, demoPaidRecord 300 998, demoPaidRecord 400 999] }

/-- The sample environment with a shuffle that reverses the registry. -/
def demoReverseEnv : Env :=
  { demoEnv with random_shuffle := List.reverse }

/-- A state with payments enabled and two registered entries whose collateral is
marked spent (state 3). -/
def demoSpentState : State :=
  { State.init with
    enabled := true
    vecMasternodes := [{ demoNode 100 1 100000 70004 with enabled := 3 },
                       { demoNode 250 2 100000 70004 with enabled := 3 }] }

/-- A vote for height 5 naming the collateral transaction `txid` with the given payee. -/
def demoVoteAt5 (txid : Nat) (payee : CScript) : CMasternodePaymentWinner :=
  { demoVote txid with nBlockHeight := 5, payee := payee }

/-- The sample environment 1000 s after the sample clock time. -/
def demoLaterEnv : Env :=
  { demoEnv with adjustedTime := 1700001000, time := 1700001000 }

/-- A `dsee` for the collateral `(txid, 0)` announcing the address `ip`,
timestamped `age` seconds before the sample clock time. -/
def demoAnnounceFor (txid ip : Nat) (age : Int) : DseeMsg :=
  { demoAnnounce age with vin := demoVin txid, addr := { ip := ip, port := 9999 } }

/-- The registry after two announces, for the collaterals 100 and 250 at the
addresses 5 and 8, and a later announce that moves collateral 100 to address 8. -/
def demoMovedRegistry : List CMasterNode :=
  (ProcessMessage_dsee demoLaterEnv demoPeer
    (ProcessMessage_dsee demoEnv demoPeer
      (ProcessMessage_dsee demoEnv demoPeer [] (demoAnnounceFor 100 5 100000)).1
      (demoAnnounceFor 250 8 100000)).1
    (demoAnnounceFor 100 8 50000)).1

/-- A configuration entry with the given alias. -/
def demoEntry (strAlias : String) : CMasternodeEntry :=
  { strAlias := strAlias, ip := "10.0.0.1:9999", privKey := "k", txHash := "t", outputIndex := "0" }

/-! # Verified properties -/

theorem CheckTrace_spent (env : Env) (mn : CMasterNode) (h : mn.enabled = 3) :
    CheckTrace env mn = (mn, []) := by
  simp [CheckTrace, h]

theorem CheckTrace_fst (env : Env) (mn : CMasterNode) (h : mn.enabled ≠ 3) :
    (CheckTrace env mn).1 = { mn with enabled := checkTarget env mn } := by
  unfold CheckTrace checkTarget UpdatedWithin
  by_cases h1 : env.adjustedTime - mn.lastTimeSeen < env.MASTERNODE_REMOVAL_SECONDS
  · by_cases h2 : env.adjustedTime - mn.lastTimeSeen < env.MASTERNODE_EXPIRATION_SECONDS
    · cases hu : mn.unitTest <;>
        cases ha : env.AcceptableInputs mn.vin (probeValue env mn.collateral) <;>
        simp [h, h1, h2, hu, ha, not_le.mpr h1, not_le.mpr h2]
    · simp [h, h1, h2, not_le.mpr h1, not_lt.mp h2]
  · simp [h, h1, not_lt.mp h1]

theorem Check_eq (env : Env) (mn : CMasterNode) :
    Check env mn = { mn with enabled := (Check env mn).enabled } := by
  unfold Check
  by_cases h : mn.enabled = 3
  · rw [CheckTrace_spent env mn h]
  · rw [CheckTrace_fst env mn h]

theorem scan_heights (win : CMasternodePaymentWinner) (l : List CMasternodePaymentWinner) :
    ∀ found, (AddWinningMasternode.scan win l found).vWinning.map (fun w => w.nBlockHeight)
      = l.map (fun w => w.nBlockHeight) := by
  induction l with
  | nil => intro found; simp [AddWinningMasternode.scan]
  | cons w rest ih =>
    intro found
    unfold AddWinningMasternode.scan
    by_cases h1 : w.nBlockHeight = win.nBlockHeight
    · by_cases h2 : w.score < win.score
      · simp [h1, h2]
      · simp [h1, h2, ih]
    · simp [h1, ih]

theorem scan_notReturned (win : CMasternodePaymentWinner) (l : List CMasternodePaymentWinner) :
    ∀ found, (AddWinningMasternode.scan win l found).returned = false →
      (AddWinningMasternode.scan win l found).vWinning = l := by
  induction l with
  | nil => intro found _; simp [AddWinningMasternode.scan]
  | cons w rest ih =>
    intro found
    unfold AddWinningMasternode.scan
    by_cases h1 : w.nBlockHeight = win.nBlockHeight
    · by_cases h2 : w.score < win.score
      · simp [h1, h2]
      · simp only [h1, h2, if_true, if_false]; intro h; rw [ih true h]
    · simp only [h1, if_false]; intro h; rw [ih found h]

theorem scan_notFound (win : CMasternodePaymentWinner) (l : List CMasternodePaymentWinner) :
    ∀ found, (AddWinningMasternode.scan win l found).foundBlock = false →
      found = false ∧ ∀ w ∈ l, w.nBlockHeight ≠ win.nBlockHeight := by
  induction l with
  | nil => intro found h; simpa [AddWinningMasternode.scan] using h
  | cons w rest ih =>
    intro found
    unfold AddWinningMasternode.scan
    by_cases h1 : w.nBlockHeight = win.nBlockHeight
    · by_cases h2 : w.score < win.score
      · simp [h1, h2]
      · simp only [h1, h2, if_true, if_false]; intro h
        exact absurd (ih true h).1 (by simp)
    · simp only [h1, if_false]; intro h
      refine ⟨(ih found h).1, ?_⟩
      intro x hx
      rcases List.mem_cons.mp hx with rfl | hx
      · exact h1
      · exact (ih found h).2 x hx

/-- The ledger after `AddWinningMasternode`: either the heights are those of the
ledger before, or one record with the vote's height was appended to a ledger
that had none for it. -/
theorem AddWinningMasternode_heights (env : Env) (st : State) (vote : CMasternodePaymentWinner) :
    (AddWinningMasternode env st vote).2.1.vWinning.map (fun w => w.nBlockHeight)
        = st.vWinning.map (fun w => w.nBlockHeight)
    ∨ ((AddWinningMasternode env st vote).2.1.vWinning.map (fun w => w.nBlockHeight)
          = st.vWinning.map (fun w => w.nBlockHeight) ++ [vote.nBlockHeight]
        ∧ ∀ w ∈ st.vWinning, w.nBlockHeight ≠ vote.nBlockHeight) := by
  unfold AddWinningMasternode
  rcases hg : GetBlockHash env st.mapCacheBlockHashes (vote.nBlockHeight - 576) with ⟨_ | bh, cache⟩
  · left; simp
  · simp only []
    split_ifs with h1 h2
    · left; simp [scan_heights]
    · right
      refine ⟨by simp, ?_⟩
      have h2' : (AddWinningMasternode.scan
          { vote with score := CMasternodePayments.CalculateScore env bh vote.vin }
          st.vWinning false).foundBlock = false := by simpa using h2
      exact (scan_notFound _ _ _ h2').2
    · left; simp [scan_heights]

theorem AddWinningMasternode_unique (env : Env) (st : State) (vote : CMasternodePaymentWinner)
    (h : UniqueHeights st.vWinning) :
    UniqueHeights (AddWinningMasternode env st vote).2.1.vWinning := by
  unfold UniqueHeights at *
  rcases AddWinningMasternode_heights env st vote with h1 | ⟨h1, h2⟩
  · rw [h1]; exact h
  · rw [h1]
    refine List.Nodup.append h (List.nodup_singleton _) ?_
    intro x hx hx1
    simp only [List.mem_singleton] at hx1
    subst hx1
    obtain ⟨w, hw, hwx⟩ := List.mem_map.mp hx
    exact h2 w hw hwx

theorem erase_sublist (height nLimit : Int) (l : List CMasternodePaymentWinner) :
    (CleanPaymentList.erase height nLimit l).Sublist l := by
  induction l with
  | nil => simp [CleanPaymentList.erase]
  | cons w rest ih =>
    unfold CleanPaymentList.erase
    split_ifs
    · exact List.sublist_cons_self w rest
    · exact ih.cons_cons w

theorem CleanPaymentList_unique (env : Env) (st : State) (h : UniqueHeights st.vWinning) :
    UniqueHeights (CleanPaymentList env st).vWinning := by
  unfold CleanPaymentList
  split_ifs
  · exact h
  · exact List.Nodup.sublist ((erase_sublist _ _ _).map _) h

theorem ProcessBlock_unique (env : Env) (st : State) (nBlockHeight : Int)
    (h : UniqueHeights st.vWinning) :
    UniqueHeights (ProcessBlock env st nBlockHeight).2.1.vWinning := by
  unfold ProcessBlock
  split_ifs
  · exact h
  · simp only []
    split
    · exact h
    · split_ifs
      · exact AddWinningMasternode_unique _ _ _ h
      · exact AddWinningMasternode_unique _ _ _ h

/-- C2: if no two retained records share a block height, the same holds after
`AddWinningMasternode` on any vote; hence it holds in every state reachable from
an empty ledger through `AddWinningMasternode`, `ProcessBlock` and
`CleanPaymentList`. -/
theorem C2_one_record_per_height :
    (∀ (env : Env) (st : State) (vote : CMasternodePaymentWinner),
      UniqueHeights st.vWinning →
        UniqueHeights (AddWinningMasternode env st vote).2.1.vWinning)
    ∧ (∀ st : State, LedgerReachable st → UniqueHeights st.vWinning) := by
  refine ⟨AddWinningMasternode_unique, ?_⟩
  intro st hst
  induction hst with
  | empty st h => simp [UniqueHeights, h]
  | add env st vote _ ih => exact AddWinningMasternode_unique env st vote ih
  | processBlock env st nBlockHeight _ ih => exact ProcessBlock_unique env st nBlockHeight ih
  | clean env st _ ih => exact CleanPaymentList_unique env st ih
  | other st st1 _ hl ih => rw [hl]; exact ih

/-! ## The election scan -/

theorem cacheFind_cons_self (cache : Cache) (k : Int) (v : Nat) :
    cacheFind ((k, v) :: cache) k = some v := by
  simp [cacheFind]

/-- A lookup repeated on the cache left by the same lookup gives the same answer
and leaves that cache as it is. -/
theorem GetBlockHash_idem (env : Env) (cache : Cache) (k : Int) :
    GetBlockHash env (GetBlockHash env cache k).2 k = GetBlockHash env cache k := by
  unfold GetBlockHash
  by_cases h0 : env.chain.length = 0
  · simp [h0]
  · simp only [h0, if_false]
    cases hc : cacheFind cache (GetBlockHash.key env k) with
    | some v => simp [hc]
    | none =>
      cases hw : GetBlockHash.lookup env (GetBlockHash.key env k) with
      | none => simp [hc, hw]
      | some v => simp [cacheFind_cons_self]

theorem GetBlockHash_empty (env : Env) (cache : Cache) (k : Int) (h : env.chain.length = 0) :
    GetBlockHash env cache k = (none, cache) := by
  simp [GetBlockHash, h]

theorem CalculateScore_fst (env : Env) (cache : Cache) (mn : CMasterNode) (h : Int) :
    (CalculateScore env cache mn h).1
      = scoreFromHash env (GetBlockHash env cache (toInt32 h)).1 mn := by
  unfold CalculateScore
  by_cases h0 : env.chain.length = 0
  · simp [h0, GetBlockHash_empty, scoreFromHash]
  · simp only [h0, if_false]
    rcases hg : GetBlockHash env cache (toInt32 h) with ⟨_ | v, c⟩ <;> simp [scoreFromHash]

theorem CalculateScore_snd (env : Env) (cache : Cache) (mn : CMasterNode) (h : Int) :
    (CalculateScore env cache mn h).2 = (GetBlockHash env cache (toInt32 h)).2 := by
  unfold CalculateScore
  by_cases h0 : env.chain.length = 0
  · simp [h0, GetBlockHash_empty]
  · simp only [h0, if_false]
    rcases hg : GetBlockHash env cache (toInt32 h) with ⟨_ | v, c⟩ <;> simp

theorem scoreFromHash_Check (env envc : Env) (bh : Option Nat) (mn : CMasterNode) :
    scoreFromHash env bh (Check envc mn) = scoreFromHash env bh mn := by
  rw [Check_eq envc mn]
  cases bh <;> rfl

theorem Check_protocolVersion (env : Env) (mn : CMasterNode) :
    (Check env mn).protocolVersion = mn.protocolVersion := by
  rw [Check_eq env mn]

/-- The scan of `GetCurrentMasterNode` returns what `electWith` computes from
the lookup result on the initial cache. -/
theorem scan_eq_electWith (env : Env) (paid : List CScript) (h minProtocol : Int)
    (c0 : Cache) (l : List CMasterNode) :
    ∀ (i : Int) (score : Nat) (winner : Int) (cache : Cache),
      (GetBlockHash env cache (toInt32 h)).1 = (GetBlockHash env c0 (toInt32 h)).1 →
      (GetCurrentMasterNode.scan env paid h minProtocol l i score winner cache).1
        = electWith env paid (GetBlockHash env c0 (toInt32 h)).1 minProtocol l i score winner := by
  induction l with
  | nil => intro i score winner cache _; rfl
  | cons mn rest ih =>
    intro i score winner cache hst
    unfold GetCurrentMasterNode.scan electWith
    have e : (24 * 60 * 60 : Int) = 86400 := by norm_num
    simp only [skipsWithoutCount, eligible, passesFilters, e]
    by_cases hp : IsMasternodePaidInList paid (env.GetScriptForDestination mn.pubkey) = true
    · simp [hp, ih _ _ _ _ hst]
    · have hp' : IsMasternodePaidInList paid (env.GetScriptForDestination mn.pubkey) = false := by
        simpa using hp
      by_cases ha : mn.lastTimeSeen - mn.now < 86400
      · have ha' : ¬ (86400 ≤ mn.lastTimeSeen - mn.now) := not_le.mpr ha
        simp [hp', ha, ha', ih _ _ _ _ hst]
      · have ha' : 86400 ≤ mn.lastTimeSeen - mn.now := not_lt.mp ha
        by_cases hv : mn.protocolVersion < minProtocol
        · simp [hp', ha, ha', hv, Check_protocolVersion, ih _ _ _ _ hst]
        · have hv' : minProtocol ≤ mn.protocolVersion := not_lt.mp hv
          by_cases he : IsEnabled (Check env mn) = true
          · have hsc : (CalculateScore env cache (Check env mn) h).1 % U32
                = scoreWith env (GetBlockHash env c0 (toInt32 h)).1 mn := by
              rw [CalculateScore_fst, hst, scoreFromHash_Check]; rfl
            have hst' : (GetBlockHash env (CalculateScore env cache (Check env mn) h).2
                (toInt32 h)).1 = (GetBlockHash env c0 (toInt32 h)).1 := by
              rw [CalculateScore_snd, GetBlockHash_idem, hst]
            by_cases hgt : score < scoreWith env (GetBlockHash env c0 (toInt32 h)).1 mn
            · simp [hp', ha, hv, ha', hv', he, Check_protocolVersion, hsc, hgt,
                ih _ _ _ _ hst']
            · simp [hp', ha, hv, ha', hv', he, Check_protocolVersion, hsc, hgt,
                ih _ _ _ _ hst']
          · have he' : IsEnabled (Check env mn) = false := by simpa using he
            simp [hp', ha, ha', hv, hv', he', Check_protocolVersion, ih _ _ _ _ hst]

/-- The index `GetCurrentMasterNode` returns, when `GetPaidMasternodes` returns
the list `paid`, is the result of the scan with the block-hash lookup fixed. -/
theorem GetCurrentMasterNode_eq_electWith (env : Env) (reg : List CMasterNode) (cache : Cache)
    (h minProtocol : Int) (paid : List CScript) (hp : GetPaidMasternodes env reg = some paid) :
    (GetCurrentMasterNode env reg cache h minProtocol).map Prod.fst
      = some (electWith env paid (GetBlockHash env cache (toInt32 h)).1
          minProtocol reg 0 0 (-1)) := by
  unfold GetCurrentMasterNode
  rw [hp]
  simp only [Option.map_some']
  exact congrArg some (scan_eq_electWith env _ h minProtocol cache reg 0 0 (-1) cache rfl)

theorem GetCurrentMasterNode_inv (env : Env) (reg : List CMasterNode) (cache : Cache)
    (h minProtocol : Int) (w : Int)
    (hw : (GetCurrentMasterNode env reg cache h minProtocol).map Prod.fst = some w) :
    ∃ paid, GetPaidMasternodes env reg = some paid
      ∧ w = electWith env paid (GetBlockHash env cache (toInt32 h)).1
          minProtocol reg 0 0 (-1) := by
  cases hp : GetPaidMasternodes env reg with
  | none =>
    unfold GetCurrentMasterNode at hw
    rw [hp] at hw
    simp at hw
  | some paid =>
    rw [GetCurrentMasterNode_eq_electWith env reg cache h minProtocol paid hp] at hw
    exact ⟨paid, rfl, (Option.some.inj hw).symm⟩

/-- What `electWith` returns when no entry takes the uncounted `continue`:
either the incoming `winner`, no eligible entry beating the incoming `score`,
or the offset index of the earliest eligible entry of largest score. -/
theorem electWith_spec (env : Env) (paid : List CScript) (bh : Option Nat) (mp : Int)
    (l : List CMasterNode)
    (hns : ∀ mn ∈ l, skipsWithoutCount env paid mp mn = false) :
    ∀ (i : Int) (score : Nat) (winner : Int),
      (electWith env paid bh mp l i score winner = winner
        ∧ ∀ mn ∈ l, eligible env paid mp mn = true → scoreWith env bh mn ≤ score)
      ∨ ∃ k : Nat, electWith env paid bh mp l i score winner = i + (k : Int)
          ∧ (∀ m, l[k]? = some m → score < scoreWith env bh m)
          ∧ IsElectionWinner (eligible env paid mp) (scoreWith env bh) l k := by
  induction l with
  | nil => intro i score winner; left; simp [electWith]
  | cons mn rest ih =>
    intro i score winner
    have hns' : ∀ m ∈ rest, skipsWithoutCount env paid mp m = false :=
      fun m hm => hns m (List.mem_cons_of_mem _ hm)
    have hmn : skipsWithoutCount env paid mp mn = false := hns mn (List.mem_cons_self _ _)
    unfold electWith
    simp only [hmn, Bool.false_eq_true, if_false]
    by_cases hc : eligible env paid mp mn = true ∧ score < scoreWith env bh mn
    · simp only [hc, and_self, if_true]
      rcases ih hns' (i + 1) (scoreWith env bh mn) i with ⟨h1, h2⟩ | ⟨k, h1, h2, m, hm, hE, hall, hbefore⟩
      · right
        refine ⟨0, by simp [h1], ?_, mn, by simp, hc.1, ?_, ?_⟩
        · intro m hm; simp at hm; subst hm; exact hc.2
        · intro j m1 hj hE1
          cases j with
          | zero => simp at hj; subst hj; exact le_refl _
          | succ j => exact h2 m1 (List.getElem?_mem (by simpa using hj : rest[j]? = some m1)) hE1
        · intro j m1 hj; omega
      · right
        have hlt : scoreWith env bh mn < scoreWith env bh m := h2 m hm
        refine ⟨k + 1, by rw [h1]; push_cast; ring, ?_, m, by simpa using hm, hE, ?_, ?_⟩
        · intro m2 hm2
          have : m2 = m := by
            have h3 : rest[k]? = some m2 := by simpa using hm2
            rw [hm] at h3; exact (Option.some.inj h3).symm
          subst this; exact lt_trans hc.2 hlt
        · intro j m1 hj hE1
          cases j with
          | zero => simp at hj; subst hj; exact le_of_lt hlt
          | succ j => exact hall j m1 (by simpa using hj) hE1
        · intro j m1 hjk hj hE1
          cases j with
          | zero => simp at hj; subst hj; exact hlt
          | succ j => exact hbefore j m1 (by omega) (by simpa using hj) hE1
    · simp only [hc, if_false]
      have hmn_le : eligible env paid mp mn = true → scoreWith env bh mn ≤ score := by
        intro hE; by_contra hlt; exact hc ⟨hE, not_le.mp hlt⟩
      rcases ih hns' (i + 1) score winner with ⟨h1, h2⟩ | ⟨k, h1, h2, m, hm, hE, hall, hbefore⟩
      · left
        refine ⟨h1, ?_⟩
        intro x hx hE
        rcases List.mem_cons.mp hx with rfl | hx
        · exact hmn_le hE
        · exact h2 x hx hE
      · right
        have hlt : score < scoreWith env bh m := h2 m hm
        refine ⟨k + 1, by rw [h1]; push_cast; ring, ?_, m, by simpa using hm, hE, ?_, ?_⟩
        · intro m2 hm2
          have : m2 = m := by
            have h3 : rest[k]? = some m2 := by simpa using hm2
            rw [hm] at h3; exact (Option.some.inj h3).symm
          subst this; exact hlt
        · intro j m1 hj hE1
          cases j with
          | zero => simp at hj; subst hj; exact le_trans (hmn_le hE1) (le_of_lt hlt)
          | succ j => exact hall j m1 (by simpa using hj) hE1
        · intro j m1 hjk hj hE1
          cases j with
          | zero => simp at hj; subst hj; exact lt_of_le_of_lt (hmn_le hE1) hlt
          | succ j => exact hbefore j m1 (by omega) (by simpa using hj) hE1

theorem GetPaidMasternodes_step_noDisk (env : Env) (paid : List CScript) (idx : CBlockIndex)
    (h : idx.disk = none) : GetPaidMasternodes.step env paid idx = paid := by
  simp [GetPaidMasternodes.step, h]

/-- The loop of `GetPaidMasternodes` has a result exactly when the chain holds
`count` entries from the tip, and then it has visited those and no other. -/
theorem GetPaidMasternodes_loop_eq (env : Env) (count : Nat) :
    ∀ (l : List CBlockIndex) (paid : List CScript),
      GetPaidMasternodes.loop env count l paid
        = if count ≤ l.length then
            some ((l.take count).foldl (GetPaidMasternodes.step env) paid)
          else none := by
  induction count with
  | zero => intro l paid; simp [GetPaidMasternodes.loop]
  | succ n ih =>
    intro l paid
    cases l with
    | nil => simp [GetPaidMasternodes.loop]
    | cons b rest =>
      simp only [GetPaidMasternodes.loop, List.take_succ_cons, List.foldl_cons,
        List.length_cons, Nat.add_le_add_iff_right]
      exact ih rest _

/-- The result of `GetPaidMasternodes`: the fold of the loop body over the
first `count` entries from the tip, on a chain that has that many. -/
theorem GetPaidMasternodes_eq (env : Env) (reg : List CMasterNode) :
    GetPaidMasternodes env reg
      = if (paidScanCount reg).toNat ≤ env.chain.length then
          some ((env.chain.reverse.take (paidScanCount reg).toNat).foldl
            (GetPaidMasternodes.step env) [])
        else none := by
  unfold GetPaidMasternodes
  rw [GetPaidMasternodes_loop_eq, List.length_reverse]

theorem GetPaidMasternodes_loop_noDisk (env : Env) (count : Nat) (l : List CBlockIndex) :
    ∀ paid, (∀ b ∈ l, b.disk = none) → count ≤ l.length →
      GetPaidMasternodes.loop env count l paid = some paid := by
  induction count generalizing l with
  | zero => intro paid _ _; simp [GetPaidMasternodes.loop]
  | succ n ih =>
    intro paid hl hlen
    cases l with
    | nil => simp at hlen
    | cons b rest =>
      simp only [GetPaidMasternodes.loop]
      rw [GetPaidMasternodes_step_noDisk env paid b (hl b (List.mem_cons_self _ _))]
      exact ih rest paid (fun x hx => hl x (List.mem_cons_of_mem _ hx))
        (by simpa using hlen)

/-- On a chain of at least `count` blocks none of which can be read back
nothing counts as recently paid. -/
theorem GetPaidMasternodes_noDisk (env : Env) (reg : List CMasterNode)
    (h : ∀ b ∈ env.chain, b.disk = none)
    (hlen : (paidScanCount reg).toNat ≤ env.chain.length) :
    GetPaidMasternodes env reg = some [] := by
  unfold GetPaidMasternodes
  exact GetPaidMasternodes_loop_noDisk env _ _ [] (fun b hb => h b (List.mem_reverse.mp hb))
    (by rw [List.length_reverse]; exact hlen)

theorem demoEnv_chain_length : demoEnv.chain.length = 1000 := by
  show (List.replicate 1000 demoBlock).length = 1000
  exact List.length_replicate _ _

/-- On the sample chain of 1000 unreadable blocks the scan of a registry of at
most 1000 entries returns the empty list. -/
theorem demoEnv_paid (reg : List CMasterNode) (hreg : reg.length ≤ 1000) :
    GetPaidMasternodes demoEnv reg = some [] := by
  apply GetPaidMasternodes_noDisk
  · intro b hb
    have hb1 : b ∈ List.replicate 1000 demoBlock := hb
    rw [(List.mem_replicate.mp hb1).2]
    rfl
  · rw [demoEnv_chain_length]
    unfold paidScanCount
    omega

theorem demoEnv_chain_reverse :
    demoEnv.chain.reverse = demoBlock :: demoBlock :: List.replicate 998 demoBlock := by
  show (List.replicate 1000 demoBlock).reverse = _
  rw [List.reverse_replicate]
  rfl

theorem walk_zero (b p : CBlockIndex) (rest : List CBlockIndex) :
    GetBlockHash.walk 0 0 (b :: p :: rest) = some b.hash := by
  simp [GetBlockHash.walk]

theorem demoEnv_lookup : GetBlockHash.lookup demoEnv 1000 = some 0 := by
  unfold GetBlockHash.lookup
  rw [demoEnv_chain_length, demoEnv_chain_reverse]
  norm_num
  exact walk_zero _ _ _

/-- In the sample environment the lookup for height 1000 on an empty cache
finds the tip hash 0 and stores it. -/
theorem demoEnv_blockHash : GetBlockHash demoEnv [] 1000 = (some 0, [(1000, 0)]) := by
  have hk : GetBlockHash.key demoEnv 1000 = 1000 := by simp [GetBlockHash.key]
  unfold GetBlockHash
  rw [hk, demoEnv_chain_length, demoEnv_lookup]
  simp [cacheFind]

theorem toInt32_1000 : toInt32 1000 = 1000 := by decide

theorem skipsWithoutCount_false (env : Env) (paid : List CScript) (mp : Int) (mn : CMasterNode)
    (h : passesFilters env paid mn = true → mp ≤ mn.protocolVersion) :
    skipsWithoutCount env paid mp mn = false := by
  unfold skipsWithoutCount
  cases hp : passesFilters env paid mn with
  | false => rfl
  | true => simpa using h hp

/-- Scenario 1 of the specification: with eligible entries of score 100 and 250
the election at height 1000 returns the index of the second. -/
theorem GetCurrentMasterNode_scenario1 :
    (GetCurrentMasterNode demoEnv demoRegistry [] 1000 0).map Prod.fst = some 1 := by
  rw [GetCurrentMasterNode_eq_electWith demoEnv demoRegistry [] 1000 0 []
    (demoEnv_paid _ (by decide)), toInt32_1000, demoEnv_blockHash]
  decide

/-- The `continue` taken for a protocol version below `minProtocol` does not
advance the index: with an outdated entry at index 0 and the only eligible
entry at index 1, `GetCurrentMasterNode` returns 0. -/
theorem GetCurrentMasterNode_index_drift :
    eligible demoEnv [] 70000 (demoNode 100 1 100000 60000) = false
    ∧ eligible demoEnv [] 70000 (demoNode 250 2 100000 70004) = true
    ∧ (GetCurrentMasterNode demoEnv
        [demoNode 100 1 100000 60000, demoNode 250 2 100000 70004] [] 1000 70000).map Prod.fst
        = some 0 := by
  refine ⟨by decide, by decide, ?_⟩
  rw [GetCurrentMasterNode_eq_electWith demoEnv _ [] 1000 70000 []
    (demoEnv_paid _ (by decide)), toInt32_1000, demoEnv_blockHash]
  decide

/-- In the sample environment the lookup made for a vote at height 500 asks for
height `-76`, finds the tip hash 0 and stores it under that key. -/
theorem demoEnv_blockHash_500 : GetBlockHash demoEnv [] (500 - 576) = (some 0, [(-76, 0)]) := by
  have hk : GetBlockHash.key demoEnv (500 - 576) = -76 := by simp [GetBlockHash.key]
  have hl : GetBlockHash.lookup demoEnv (-76) = some 0 := by
    unfold GetBlockHash.lookup
    rw [demoEnv_chain_length, demoEnv_chain_reverse]
    norm_num
    exact walk_zero _ _ _
  unfold GetBlockHash
  rw [hk, demoEnv_chain_length, hl]
  simp [cacheFind]

/-! ## Replacement of a retained record -/

theorem scan_all_ge (win : CMasternodePaymentWinner) (l : List CMasternodePaymentWinner) :
    ∀ found, (∀ w ∈ l, w.nBlockHeight = win.nBlockHeight → win.score ≤ w.score) →
      (AddWinningMasternode.scan win l found).returned = false := by
  induction l with
  | nil => intro found _; simp [AddWinningMasternode.scan]
  | cons w rest ih =>
    intro found h
    have hrest : ∀ x ∈ rest, x.nBlockHeight = win.nBlockHeight → win.score ≤ x.score :=
      fun x hx => h x (List.mem_cons_of_mem _ hx)
    unfold AddWinningMasternode.scan
    by_cases h1 : w.nBlockHeight = win.nBlockHeight
    · have h2 : ¬ w.score < win.score := not_lt.mpr (h w (List.mem_cons_self _ _) h1)
      simp only [h1, h2, if_true, if_false]
      exact ih true hrest
    · simp only [h1, if_false]
      exact ih found hrest

theorem scan_foundBlock (win : CMasternodePaymentWinner) (l : List CMasternodePaymentWinner) :
    ∀ found, (found = true ∨ ∃ w ∈ l, w.nBlockHeight = win.nBlockHeight) →
      (AddWinningMasternode.scan win l found).foundBlock = true := by
  induction l with
  | nil =>
    intro found h
    rcases h with h | ⟨w, hw, _⟩
    · simp [AddWinningMasternode.scan, h]
    · simp at hw
  | cons w rest ih =>
    intro found h
    unfold AddWinningMasternode.scan
    by_cases h1 : w.nBlockHeight = win.nBlockHeight
    · by_cases h2 : w.score < win.score
      · simp [h1, h2]
      · simp only [h1, h2, if_true, if_false]
        exact ih true (Or.inl rfl)
    · simp only [h1, if_false]
      apply ih found
      rcases h with h | ⟨x, hx, hxh⟩
      · exact Or.inl h
      · rcases List.mem_cons.mp hx with rfl | hx
        · exact absurd hxh h1
        · exact Or.inr ⟨x, hx, hxh⟩

theorem scan_returned (win : CMasternodePaymentWinner) (l : List CMasternodePaymentWinner) :
    ∀ found, (AddWinningMasternode.scan win l found).returned = true →
      ReplacesLowerRecord win l (AddWinningMasternode.scan win l found).vWinning := by
  induction l with
  | nil => intro found h; simp [AddWinningMasternode.scan] at h
  | cons w rest ih =>
    intro found
    unfold AddWinningMasternode.scan
    by_cases h1 : w.nBlockHeight = win.nBlockHeight
    · by_cases h2 : w.score < win.score
      · intro _
        rw [if_pos h1, if_pos h2]
        exact ⟨[], w, rest, rfl, by simp, h1, h2, rfl⟩
      · simp only [h1, h2, if_true, if_false]
        intro h
        obtain ⟨pre, x, post, e1, e2, e3, e4, e5⟩ := ih true h
        refine ⟨w :: pre, x, post, by rw [e1]; rfl, ?_, e3, e4, by rw [e5]; rfl⟩
        intro y hy hyh
        rcases List.mem_cons.mp hy with rfl | hy
        · exact not_lt.mp h2
        · exact e2 y hy hyh
    · simp only [h1, if_false]
      intro h
      obtain ⟨pre, x, post, e1, e2, e3, e4, e5⟩ := ih found h
      refine ⟨w :: pre, x, post, by rw [e1]; rfl, ?_, e3, e4, by rw [e5]; rfl⟩
      intro y hy hyh
      rcases List.mem_cons.mp hy with rfl | hy
      · exact absurd hyh h1
      · exact e2 y hy hyh

/-- C4: when the ledger already retains a record for the vote's height,
`AddWinningMasternode` returns true only by overwriting winner, payee,
signature and score of a retained record of that height whose score is strictly
lower than the vote's computed score; when the computed score is lower than or
equal to the score of the retained records of that height it returns false; and
whenever it returns false the ledger and the seen-votes map are unchanged. -/
theorem C4_replace_only_if_greater (env : Env) (st : State) (vote : CMasternodePaymentWinner)
    (hrec : ∃ w ∈ st.vWinning, w.nBlockHeight = vote.nBlockHeight) :
    ((AddWinningMasternode env st vote).1 = true →
      ∃ s, voteScore env st vote = some s
        ∧ ReplacesLowerRecord { vote with score := s } st.vWinning
            (AddWinningMasternode env st vote).2.1.vWinning)
    ∧ ((∀ s, voteScore env st vote = some s →
          ∀ w ∈ st.vWinning, w.nBlockHeight = vote.nBlockHeight → s ≤ w.score) →
        (AddWinningMasternode env st vote).1 = false)
    ∧ ((AddWinningMasternode env st vote).1 = false →
        (AddWinningMasternode env st vote).2.1.vWinning = st.vWinning
        ∧ (AddWinningMasternode env st vote).2.1.mapSeenMasternodeVotes
            = st.mapSeenMasternodeVotes) := by
  unfold voteScore AddWinningMasternode
  rcases hg : GetBlockHash env st.mapCacheBlockHashes (vote.nBlockHeight - 576) with ⟨_ | bh, cache⟩
  · simp
  · have hfound := scan_foundBlock
      { vote with score := CMasternodePayments.CalculateScore env bh vote.vin } st.vWinning false
      (Or.inr hrec)
    simp only [Option.map_some, Option.some.injEq, hfound, Bool.not_true, Bool.false_eq_true,
      if_false]
    cases hr : (AddWinningMasternode.scan
        { vote with score := CMasternodePayments.CalculateScore env bh vote.vin }
        st.vWinning false).returned with
    | true =>
      simp only [if_true, forall_const, true_and]
      refine ⟨⟨_, rfl, ?_⟩, ?_, ?_⟩
      · exact scan_returned _ _ _ hr
      · intro hall
        have := scan_all_ge
          { vote with score := CMasternodePayments.CalculateScore env bh vote.vin }
          st.vWinning false (fun w hw hh => hall _ rfl w hw hh)
        rw [hr] at this
        exact absurd this (by simp)
      · intro hfalse; exact absurd hfalse (by simp)
    | false =>
      simp only [Bool.false_eq_true, if_false, false_implies, true_and, implies_true]
      intro _
      exact ⟨scan_notReturned _ _ _ hr, trivial⟩

/-- C4 (instance): a vote scoring 40 against a retained record scoring 50 leaves
the sample ledger unchanged. -/
theorem C4_replace_only_if_greater_witness :
    (∃ w ∈ demoLedgerState.vWinning, w.nBlockHeight = (demoVote 40).nBlockHeight)
    ∧ (AddWinningMasternode demoEnv demoLedgerState (demoVote 40)).2.1.vWinning
        = demoLedgerState.vWinning :=
  have hyp : ∃ w ∈ demoLedgerState.vWinning, w.nBlockHeight = (demoVote 40).nBlockHeight :=
    ⟨{ demoVote 50 with score := 50 }, List.mem_singleton.mpr rfl, rfl⟩
  have hle : ∀ s, voteScore demoEnv demoLedgerState (demoVote 40) = some s →
      ∀ w ∈ demoLedgerState.vWinning, w.nBlockHeight = (demoVote 40).nBlockHeight →
        s ≤ w.score := by
    intro s hs w hw _
    have hlook := demoEnv_blockHash_500
    have hs1 : some (CMasternodePayments.CalculateScore demoEnv 0 (demoVote 40).vin) = some s := by
      have h0 := hs
      unfold voteScore at h0
      rw [show demoLedgerState.mapCacheBlockHashes = [] from rfl,
        show (demoVote 40).nBlockHeight = 500 from rfl, hlook] at h0
      exact h0
    have hs2 : s = 40 := by
      rw [← Option.some.inj hs1]; decide
    have hw1 : w = { demoVote 50 with score := 50 } := List.mem_singleton.mp hw
    rw [hs2, hw1]
    decide
  ⟨hyp, ((C4_replace_only_if_greater demoEnv demoLedgerState (demoVote 40) hyp).2.2
    ((C4_replace_only_if_greater demoEnv demoLedgerState (demoVote 40) hyp).2.1 hle)).1⟩

/-! ## Votes for one height -/

theorem scan_no_match (win : CMasternodePaymentWinner) (l : List CMasternodePaymentWinner) :
    ∀ found, (∀ w ∈ l, w.nBlockHeight ≠ win.nBlockHeight) →
      (AddWinningMasternode.scan win l found).returned = false
      ∧ (AddWinningMasternode.scan win l found).foundBlock = found := by
  induction l with
  | nil => intro found _; simp [AddWinningMasternode.scan]
  | cons w rest ih =>
    intro found h
    unfold AddWinningMasternode.scan
    rw [if_neg (h w (List.mem_cons_self _ _))]
    exact ih found (fun x hx => h x (List.mem_cons_of_mem _ hx))

theorem scan_cons_ne (win w : CMasternodePaymentWinner) (rest : List CMasternodePaymentWinner)
    (found : Bool) (h : w.nBlockHeight ≠ win.nBlockHeight) :
    AddWinningMasternode.scan win (w :: rest) found
      = { returned := (AddWinningMasternode.scan win rest found).returned,
          foundBlock := (AddWinningMasternode.scan win rest found).foundBlock,
          vWinning := w :: (AddWinningMasternode.scan win rest found).vWinning } := by
  simp [AddWinningMasternode.scan, h]

theorem scan_append (win : CMasternodePaymentWinner)
    (base l2 : List CMasternodePaymentWinner) :
    ∀ found, (∀ w ∈ base, w.nBlockHeight ≠ win.nBlockHeight) →
      (AddWinningMasternode.scan win (base ++ l2) found).returned
          = (AddWinningMasternode.scan win l2 found).returned
      ∧ (AddWinningMasternode.scan win (base ++ l2) found).foundBlock
          = (AddWinningMasternode.scan win l2 found).foundBlock
      ∧ (AddWinningMasternode.scan win (base ++ l2) found).vWinning
          = base ++ (AddWinningMasternode.scan win l2 found).vWinning := by
  induction base with
  | nil => intro found _; simp
  | cons w rest ih =>
    intro found h
    have hw : w.nBlockHeight ≠ win.nBlockHeight := h w (List.mem_cons_self _ _)
    have := ih found (fun x hx => h x (List.mem_cons_of_mem _ hx))
    rw [List.cons_append, scan_cons_ne _ _ _ _ hw]
    refine ⟨this.1, this.2.1, ?_⟩
    show w :: (AddWinningMasternode.scan win (rest ++ l2) found).vWinning = _
    rw [this.2.2]
    rfl

theorem AddWinningMasternode_cache (env : Env) (st : State) (vote : CMasternodePaymentWinner) :
    (AddWinningMasternode env st vote).2.1.mapCacheBlockHashes
      = (GetBlockHash env st.mapCacheBlockHashes (vote.nBlockHeight - 576)).2 := by
  unfold AddWinningMasternode
  rcases hg : GetBlockHash env st.mapCacheBlockHashes (vote.nBlockHeight - 576) with ⟨_ | bh, cache⟩
  · rfl
  · simp only []
    split_ifs <;> rfl

/-- The lookup a vote triggers gives the same answer after the vote was ingested. -/
theorem AddWinningMasternode_lookup_stable (env : Env) (st : State)
    (vote : CMasternodePaymentWinner) :
    (GetBlockHash env (AddWinningMasternode env st vote).2.1.mapCacheBlockHashes
        (vote.nBlockHeight - 576)).1
      = (GetBlockHash env st.mapCacheBlockHashes (vote.nBlockHeight - 576)).1 := by
  rw [AddWinningMasternode_cache, GetBlockHash_idem]

/-- The first vote for a height without record is appended with its computed score. -/
theorem AddWinningMasternode_first (env : Env) (st : State) (vote : CMasternodePaymentWinner)
    (bh : Nat)
    (hbh : (GetBlockHash env st.mapCacheBlockHashes (vote.nBlockHeight - 576)).1 = some bh)
    (hnone : ∀ w ∈ st.vWinning, w.nBlockHeight ≠ vote.nBlockHeight) :
    (AddWinningMasternode env st vote).2.1.vWinning
      = st.vWinning ++ [{ vote with score := CMasternodePayments.CalculateScore env bh vote.vin }] := by
  unfold AddWinningMasternode
  rcases hg : GetBlockHash env st.mapCacheBlockHashes (vote.nBlockHeight - 576) with ⟨_ | b, cache⟩
  · rw [hg] at hbh; simp at hbh
  · rw [hg] at hbh
    have hb : b = bh := Option.some.inj hbh
    subst hb
    have hs := scan_no_match
      { vote with score := CMasternodePayments.CalculateScore env b vote.vin } st.vWinning false
      hnone
    simp [hs.1, hs.2]

/-- A later vote for the height of the last record, the only one of that height. -/
theorem AddWinningMasternode_next (env : Env) (st : State) (vote : CMasternodePaymentWinner)
    (bh : Nat) (base : List CMasternodePaymentWinner) (r : CMasternodePaymentWinner)
    (hbh : (GetBlockHash env st.mapCacheBlockHashes (vote.nBlockHeight - 576)).1 = some bh)
    (hbase : ∀ w ∈ base, w.nBlockHeight ≠ vote.nBlockHeight)
    (hr : r.nBlockHeight = vote.nBlockHeight)
    (hst : st.vWinning = base ++ [r]) :
    (AddWinningMasternode env st vote).2.1.vWinning
      = base ++ [if r.score < CMasternodePayments.CalculateScore env bh vote.vin then
                  { vote with score := CMasternodePayments.CalculateScore env bh vote.vin }
                 else r] := by
  unfold AddWinningMasternode
  rcases hg : GetBlockHash env st.mapCacheBlockHashes (vote.nBlockHeight - 576) with ⟨_ | b, cache⟩
  · rw [hg] at hbh; simp at hbh
  · rw [hg] at hbh
    have hb : b = bh := Option.some.inj hbh
    subst hb
    have ha := scan_append
      { vote with score := CMasternodePayments.CalculateScore env b vote.vin } base [r] false
      hbase
    simp only [hst]
    by_cases hlt : r.score < CMasternodePayments.CalculateScore env b vote.vin
    · have h1 : (AddWinningMasternode.scan
          { vote with score := CMasternodePayments.CalculateScore env b vote.vin } [r] false)
          = { returned := true, foundBlock := true,
              vWinning := [{ vote with score := CMasternodePayments.CalculateScore env b vote.vin }] } := by
        simp [AddWinningMasternode.scan, hr, hlt]
      rw [h1] at ha
      simp [ha.1, ha.2.2, hlt]
    · have h1 : (AddWinningMasternode.scan
          { vote with score := CMasternodePayments.CalculateScore env b vote.vin } [r] false)
          = { returned := false, foundBlock := true, vWinning := [r] } := by
        simp [AddWinningMasternode.scan, hr, hlt]
      rw [h1] at ha
      simp [ha.1, ha.2.1, ha.2.2, hlt]

theorem GetBlockPayee_append (base : List CMasternodePaymentWinner)
    (r : CMasternodePaymentWinner) (h : Int)
    (hbase : ∀ w ∈ base, w.nBlockHeight ≠ h) (hr : r.nBlockHeight = h) :
    GetBlockPayee (base ++ [r]) h = some r.payee := by
  induction base with
  | nil => simp [GetBlockPayee, hr]
  | cons w rest ih =>
    rw [List.cons_append]
    unfold GetBlockPayee
    rw [if_neg (hbase w (List.mem_cons_self _ _))]
    exact ih (fun x hx => hbase x (List.mem_cons_of_mem _ hx))

theorem firstMax_cons_lt (S : CMasternodePaymentWinner → Nat)
    (v u v1 : CMasternodePaymentWinner) (rest : List CMasternodePaymentWinner)
    (hlt : S v < S u) (h : IsFirstMaxVote S (u :: rest) v1) :
    IsFirstMaxVote S (v :: u :: rest) v1 := by
  obtain ⟨k, hk, hall, hbefore⟩ := h
  have hu : S u ≤ S v1 := hall 0 u (by simp)
  refine ⟨k + 1, by simpa using hk, ?_, ?_⟩
  · intro j x hj
    cases j with
    | zero => simp at hj; subst hj; omega
    | succ j => exact hall j x (by simpa using hj)
  · intro j x hjk hj
    cases j with
    | zero => simp at hj; subst hj; omega
    | succ j => exact hbefore j x (by omega) (by simpa using hj)

theorem firstMax_cons_ge (S : CMasternodePaymentWinner → Nat)
    (v u v1 : CMasternodePaymentWinner) (rest : List CMasternodePaymentWinner)
    (hge : S u ≤ S v) (h : IsFirstMaxVote S (v :: rest) v1) :
    IsFirstMaxVote S (v :: u :: rest) v1 := by
  obtain ⟨k, hk, hall, hbefore⟩ := h
  have hv : S v ≤ S v1 := hall 0 v (by simp)
  cases k with
  | zero =>
    refine ⟨0, by simpa using hk, ?_, ?_⟩
    · intro j x hj
      cases j with
      | zero => exact hall 0 x (by simpa using hj)
      | succ j =>
        cases j with
        | zero => simp at hj; subst hj; omega
        | succ j => exact hall (j + 1) x (by simpa using hj)
    · intro j x hjk; omega
  | succ k =>
    have hv1 : S v < S v1 := hbefore 0 v (by omega) (by simp)
    refine ⟨k + 2, by simpa using hk, ?_, ?_⟩
    · intro j x hj
      cases j with
      | zero => exact hall 0 x (by simpa using hj)
      | succ j =>
        cases j with
        | zero => simp at hj; subst hj; omega
        | succ j => exact hall (j + 1) x (by simpa using hj)
    · intro j x hjk hj
      cases j with
      | zero => exact hbefore 0 x (by omega) (by simpa using hj)
      | succ j =>
        cases j with
        | zero => simp at hj; subst hj; omega
        | succ j => exact hbefore (j + 1) x (by omega) (by simpa using hj)

/-- Ingesting further votes for the height of the last record, the only one of
that height, leaves in its place the record of the first vote of largest score
among the vote already retained and the further ones. -/
theorem ingestVotes_rest (env : Env) (bh : Nat) (h : Int)
    (base : List CMasternodePaymentWinner) (hbase : ∀ w ∈ base, w.nBlockHeight ≠ h) :
    ∀ (rest : List CMasternodePaymentWinner) (st : State) (v : CMasternodePaymentWinner),
      (∀ u ∈ rest, u.nBlockHeight = h) → v.nBlockHeight = h →
      (GetBlockHash env st.mapCacheBlockHashes (h - 576)).1 = some bh →
      st.vWinning = base ++ [{ v with score := CMasternodePayments.CalculateScore env bh v.vin }] →
      ∃ v1, IsFirstMaxVote (fun x => CMasternodePayments.CalculateScore env bh x.vin) (v :: rest) v1
        ∧ v1.nBlockHeight = h
        ∧ (ingestVotes env st rest).vWinning
            = base ++ [{ v1 with score := CMasternodePayments.CalculateScore env bh v1.vin }] := by
  intro rest
  induction rest with
  | nil =>
    intro st v _ hv _ hst
    refine ⟨v, ⟨0, by simp, ?_, ?_⟩, hv, hst⟩
    · intro j x hj
      cases j with
      | zero => simp at hj; subst hj; exact le_refl _
      | succ j => simp at hj
    · intro j x hj; omega
  | cons u rest ih =>
    intro st v hrest hv hbh hst
    have hu : u.nBlockHeight = h := hrest u (List.mem_cons_self _ _)
    have hrest1 : ∀ x ∈ rest, x.nBlockHeight = h :=
      fun x hx => hrest x (List.mem_cons_of_mem _ hx)
    have hbh1 : (GetBlockHash env st.mapCacheBlockHashes (u.nBlockHeight - 576)).1 = some bh := by
      rw [hu]; exact hbh
    have hstable : (GetBlockHash env (AddWinningMasternode env st u).2.1.mapCacheBlockHashes
        (h - 576)).1 = some bh := by
      have := AddWinningMasternode_lookup_stable env st u
      rw [hu] at this
      rw [this]; exact hbh
    have hnext := AddWinningMasternode_next env st u bh base
      { v with score := CMasternodePayments.CalculateScore env bh v.vin } hbh1
      (by rw [hu]; exact hbase) (by rw [hu]; exact hv) hst
    unfold ingestVotes
    by_cases hlt : CMasternodePayments.CalculateScore env bh v.vin
        < CMasternodePayments.CalculateScore env bh u.vin
    · rw [if_pos hlt] at hnext
      obtain ⟨v1, hmax, hv1, hfin⟩ := ih (AddWinningMasternode env st u).2.1 u hrest1 hu hstable hnext
      exact ⟨v1, firstMax_cons_lt _ v u v1 rest hlt hmax, hv1, hfin⟩
    · rw [if_neg hlt] at hnext
      obtain ⟨v1, hmax, hv1, hfin⟩ := ih (AddWinningMasternode env st u).2.1 v hrest1 hv hstable hnext
      exact ⟨v1, firstMax_cons_ge _ v u v1 rest (not_lt.mp hlt) hmax, hv1, hfin⟩

/-- C3: let the lookup for height `h - 576` succeed with hash `blockHash` and let
the ledger hold no record for `h`.  After passing any non-empty sequence of
votes for `h` to `AddWinningMasternode`, the ledger is the initial one followed
by one record for `h`: that of the earliest vote whose computed score is the
maximum over the sequence, carrying that score; `GetBlockPayee(h)` returns the
payee of that vote. -/
theorem C3_retained_vote_is_first_max (env : Env) (st : State)
    (votes : List CMasternodePaymentWinner) (h : Int) (blockHash : Nat)
    (hne : votes ≠ [])
    (hvotes : ∀ v ∈ votes, v.nBlockHeight = h)
    (hnone : ∀ w ∈ st.vWinning, w.nBlockHeight ≠ h)
    (hlookup : (GetBlockHash env st.mapCacheBlockHashes (h - 576)).1 = some blockHash) :
    ∃ v, IsFirstMaxVote (fun x => CMasternodePayments.CalculateScore env blockHash x.vin) votes v
      ∧ (ingestVotes env st votes).vWinning
          = st.vWinning
            ++ [{ v with score := CMasternodePayments.CalculateScore env blockHash v.vin }]
      ∧ GetBlockPayee (ingestVotes env st votes).vWinning h = some v.payee := by
  cases votes with
  | nil => exact absurd rfl hne
  | cons v0 rest =>
    have hv0 : v0.nBlockHeight = h := hvotes v0 (List.mem_cons_self _ _)
    have hrest : ∀ x ∈ rest, x.nBlockHeight = h :=
      fun x hx => hvotes x (List.mem_cons_of_mem _ hx)
    have hbh0 : (GetBlockHash env st.mapCacheBlockHashes (v0.nBlockHeight - 576)).1
        = some blockHash := by rw [hv0]; exact hlookup
    have hfirst := AddWinningMasternode_first env st v0 blockHash hbh0
      (by rw [hv0]; exact hnone)
    have hstable : (GetBlockHash env (AddWinningMasternode env st v0).2.1.mapCacheBlockHashes
        (h - 576)).1 = some blockHash := by
      have := AddWinningMasternode_lookup_stable env st v0
      rw [hv0] at this
      rw [this]; exact hlookup
    obtain ⟨v1, hmax, hv1, hfin⟩ := ingestVotes_rest env blockHash h st.vWinning hnone rest
      (AddWinningMasternode env st v0).2.1 v0 hrest hv0 hstable hfirst
    refine ⟨v1, hmax, hfin, ?_⟩
    show GetBlockPayee (ingestVotes env (AddWinningMasternode env st v0).2.1 rest).vWinning h = _
    rw [hfin]
    exact GetBlockPayee_append st.vWinning _ h hnone hv1

/-- C3 (instance): votes scoring 40 and 90 for height 500 on the empty ledger. -/
theorem C3_retained_vote_is_first_max_witness :
    ([demoVote 40, demoVote 90] ≠ []
      ∧ (∀ v ∈ [demoVote 40, demoVote 90], v.nBlockHeight = 500)
      ∧ (∀ w ∈ State.init.vWinning, w.nBlockHeight ≠ 500)
      ∧ (GetBlockHash demoEnv State.init.mapCacheBlockHashes (500 - 576)).1 = some 0)
    ∧ ∃ v, IsFirstMaxVote (fun x => CMasternodePayments.CalculateScore demoEnv 0 x.vin)
          [demoVote 40, demoVote 90] v
        ∧ (ingestVotes demoEnv State.init [demoVote 40, demoVote 90]).vWinning
            = State.init.vWinning
              ++ [{ v with score := CMasternodePayments.CalculateScore demoEnv 0 v.vin }]
        ∧ GetBlockPayee (ingestVotes demoEnv State.init [demoVote 40, demoVote 90]).vWinning 500
            = some v.payee :=
  have h1 : [demoVote 40, demoVote 90] ≠ [] := by simp
  have h2 : ∀ v ∈ [demoVote 40, demoVote 90], v.nBlockHeight = 500 := by
    intro v hv
    simp only [List.mem_cons, List.mem_singleton, List.not_mem_nil, or_false] at hv
    rcases hv with rfl | rfl <;> rfl
  have h3 : ∀ w ∈ State.init.vWinning, w.nBlockHeight ≠ 500 := by
    intro w hw
    simp [State.init] at hw
  have h4 : (GetBlockHash demoEnv State.init.mapCacheBlockHashes (500 - 576)).1 = some 0 := by
    show (GetBlockHash demoEnv [] (500 - 576)).1 = some 0
    rw [demoEnv_blockHash_500]
  ⟨⟨h1, h2, h3, h4⟩,
    C3_retained_vote_is_first_max demoEnv State.init [demoVote 40, demoVote 90] 500 0 h1 h2 h3 h4⟩

/-- Scenario 3 of the specification: a vote for height 500 scoring 40, then one
scoring 90; `GetBlockPayee(500)` returns the payee of the second. -/
theorem GetBlockPayee_scenario3 :
    CMasternodePayments.CalculateScore demoEnv 0 (demoVote 40).vin = 40
    ∧ CMasternodePayments.CalculateScore demoEnv 0 (demoVote 90).vin = 90
    ∧ GetBlockPayee (ingestVotes demoEnv State.init [demoVote 40, demoVote 90]).vWinning 500
        = some (demoVote 90).payee := by
  refine ⟨by decide, by decide, ?_⟩
  have hfirst := AddWinningMasternode_first demoEnv State.init (demoVote 40) 0
    (by show (GetBlockHash demoEnv [] (500 - 576)).1 = some 0; rw [demoEnv_blockHash_500])
    (by intro w hw; simp [State.init] at hw)
  have hstable := AddWinningMasternode_lookup_stable demoEnv State.init (demoVote 40)
  have hnext := AddWinningMasternode_next demoEnv
    (AddWinningMasternode demoEnv State.init (demoVote 40)).2.1 (demoVote 90) 0 []
    { demoVote 40 with score := CMasternodePayments.CalculateScore demoEnv 0 (demoVote 40).vin }
    (by
      show (GetBlockHash demoEnv _ (500 - 576)).1 = some 0
      have e : (demoVote 40).nBlockHeight - 576 = 500 - 576 := rfl
      rw [e] at hstable
      rw [hstable]
      show (GetBlockHash demoEnv [] (500 - 576)).1 = some 0
      rw [demoEnv_blockHash_500])
    (by intro w hw; simp at hw) rfl
    (by rw [hfirst]; rfl)
  simp only [ingestVotes]
  rw [hnext]
  decide

/-! ## The winner is not recently paid -/

theorem eligible_not_paid (env : Env) (paid : List CScript) (mp : Int) (mn : CMasterNode)
    (h : eligible env paid mp mn = true) :
    env.GetScriptForDestination mn.pubkey ∉ paid := by
  unfold eligible passesFilters IsMasternodePaidInList at h
  simp only [Bool.and_eq_true, Bool.not_eq_true', decide_eq_false_iff_not] at h
  exact h.1.1.1

/-- C9: if every registry entry has `protocolVersion >= minProtocol` and
`GetCurrentMasterNode` returns an index `w >= 0`, then `w` is an index of the
registry and the payout script derived from the `pubkey` of entry `w` is not in
the list returned by `GetPaidMasternodes`. -/
theorem C9_winner_not_recently_paid (env : Env) (reg : List CMasterNode) (cache : Cache)
    (h minProtocol : Int) (w : Int)
    (hproto : ∀ mn ∈ reg, minProtocol ≤ mn.protocolVersion)
    (hr : (GetCurrentMasterNode env reg cache h minProtocol).map Prod.fst = some w)
    (hw : 0 ≤ w) :
    ∃ (mn : CMasterNode) (paid : List CScript), reg[w.toNat]? = some mn
      ∧ GetPaidMasternodes env reg = some paid
      ∧ env.GetScriptForDestination mn.pubkey ∉ paid := by
  obtain ⟨paid, hp, hwe⟩ := GetCurrentMasterNode_inv env reg cache h minProtocol w hr
  have hskip : ∀ mn ∈ reg, skipsWithoutCount env paid minProtocol mn = false :=
    fun mn hmn => skipsWithoutCount_false _ _ _ _ (fun _ => hproto mn hmn)
  rcases electWith_spec env paid
      (GetBlockHash env cache (toInt32 h)).1 minProtocol reg hskip 0 0 (-1) with
    ⟨h1, _⟩ | ⟨k, h1, _, m, hm, hE, _, _⟩
  · rw [hwe, h1] at hw; omega
  · refine ⟨m, paid, ?_, hp, eligible_not_paid _ _ _ _ hE⟩
    rw [hwe, h1]
    simpa using hm

/-- C9 (instance): the winner of the sample registry at height 1000. -/
theorem C9_winner_not_recently_paid_witness :
    ((∀ mn ∈ demoRegistry, (0 : Int) ≤ mn.protocolVersion)
      ∧ (GetCurrentMasterNode demoEnv demoRegistry [] 1000 0).map Prod.fst = some 1)
    ∧ ∃ (mn : CMasterNode) (paid : List CScript), demoRegistry[(1 : Int).toNat]? = some mn
        ∧ GetPaidMasternodes demoEnv demoRegistry = some paid
        ∧ demoEnv.GetScriptForDestination mn.pubkey ∉ paid :=
  have h1 : ∀ mn ∈ demoRegistry, (0 : Int) ≤ mn.protocolVersion := by decide
  ⟨⟨h1, GetCurrentMasterNode_scenario1⟩,
    C9_winner_not_recently_paid demoEnv demoRegistry [] 1000 0 1 h1
      GetCurrentMasterNode_scenario1 (by decide)⟩

/-! ## Payment validation -/

/-- A block whose transaction vector is shorter than two lies outside the
defined behaviour of `IsValidMasternodePayment`: the model yields no result. -/
theorem IsValidMasternodePayment_short (env : Env) (reg : List CMasterNode) (nBlockHeight : Int)
    (vtx0 : CTransaction) :
    IsValidMasternodePayment env reg nBlockHeight { vtx := [] } = none
    ∧ IsValidMasternodePayment env reg nBlockHeight { vtx := [vtx0] } = none := by
  constructor <;> rfl

/-- Scenario 4 of the specification: a payment to an entry announced one hour
before it was last seen is rejected, while the same payment to an entry
announced 100000 seconds before is accepted. -/
theorem IsValidMasternodePayment_scenario4 :
    IsValidMasternodePayment demoEnv [demoNode 100 1 3600 70004] 1000
        { vtx := [demoCoinbase, demoCoinstake [1] 400] } = some false
    ∧ IsValidMasternodePayment demoEnv [demoNode 100 1 100000 70004] 1000
        { vtx := [demoCoinbase, demoCoinstake [1] 400] } = some true := by
  unfold IsValidMasternodePayment
  constructor
  · decide
  · simp only [demoEnv_paid [demoNode 100 1 100000 70004] (by decide)]
    decide

/-! ## Properties of an entry kept by registry operations -/

theorem enabledAt_cons_zero (mn : CMasterNode) (rest : List CMasterNode) :
    enabledAt (mn :: rest) 0 = some mn.enabled := by
  simp [enabledAt]

theorem enabledAt_cons_succ (mn : CMasterNode) (rest : List CMasterNode) (i : Nat) :
    enabledAt (mn :: rest) (i + 1) = enabledAt rest i := by
  simp [enabledAt]

theorem holdsAt_cons_zero (P : CMasterNode → Prop) (mn : CMasterNode)
    (rest : List CMasterNode) : HoldsAt P (mn :: rest) 0 ↔ P mn := by
  simp [HoldsAt]

theorem holdsAt_cons_succ (P : CMasterNode → Prop) (mn : CMasterNode)
    (rest : List CMasterNode) (i : Nat) :
    HoldsAt P (mn :: rest) (i + 1) ↔ HoldsAt P rest i := by
  simp [HoldsAt]

theorem holdsAt_append (P : CMasterNode → Prop) (reg more : List CMasterNode) (i : Nat)
    (h : HoldsAt P reg i) : HoldsAt P (reg ++ more) i := by
  obtain ⟨mn, hmn, hP⟩ := h
  refine ⟨mn, ?_, hP⟩
  have hi : i < reg.length := by
    by_contra hlt
    rw [List.getElem?_eq_none (not_lt.mp hlt)] at hmn
    simp at hmn
  rw [List.getElem?_append_left hi]
  exact hmn

theorem modifyAt_holdsAt (P : CMasterNode → Prop) (f : CMasterNode → CMasterNode)
    (hf : ∀ mn, P mn → P (f mn)) (reg : List CMasterNode) :
    ∀ (j i : Nat), HoldsAt P reg i → HoldsAt P (modifyAt f j reg) i := by
  induction reg with
  | nil => intro j i h; simpa [modifyAt] using h
  | cons mn rest ih =>
    intro j i h
    cases j with
    | zero =>
      cases i with
      | zero =>
        simp only [modifyAt, holdsAt_cons_zero] at h ⊢
        exact hf mn h
      | succ i => simpa [modifyAt, holdsAt_cons_succ] using h
    | succ j =>
      cases i with
      | zero => simpa [modifyAt, holdsAt_cons_zero] using h
      | succ i =>
        simp only [modifyAt, holdsAt_cons_succ] at h ⊢
        exact ih j i h

/-- The loop body of the `dseep` handler, case by case. -/
theorem dseep_update_eq (env : Env) (m : DseepMsg) (mn : CMasterNode) :
    dseep.update env m mn =
      if mn.lastDseep < m.sigTime
          ∧ env.VerifyMessage mn.pubkey2 m.vchSig (dseepMessage env mn.addr m.sigTime m.stop) = true
      then
        if env.adjustedTime - mn.lastTimeSeen < env.MASTERNODE_MIN_DSEEP_SECONDS then
          ({ mn with lastDseep := m.sigTime }, [])
        else if m.stop = true then
          (Check env { mn with lastDseep := m.sigTime, lastTimeSeen := 0 },
            [Effect.RelayDarkSendElectionEntryPing m.vin m.sigTime m.stop])
        else
          ({ mn with lastDseep := m.sigTime, lastTimeSeen := env.adjustedTime },
            [Effect.RelayDarkSendElectionEntryPing m.vin m.sigTime m.stop])
      else (mn, []) := by
  unfold dseep.update UpdatedWithin UpdateLastSeen Disable
  by_cases h1 : mn.lastDseep < m.sigTime
  · by_cases h2 : env.VerifyMessage mn.pubkey2 m.vchSig
        (dseepMessage env mn.addr m.sigTime m.stop) = true
    · by_cases h3 : env.adjustedTime - mn.lastTimeSeen < env.MASTERNODE_MIN_DSEEP_SECONDS
      · simp [h1, h2, h3]
      · cases hs : m.stop
        · rw [hs] at h2; simp [h1, h2, h3]
        · rw [hs] at h2; simp [h1, h2, h3]
    · simp [h1, h2]
  · simp [h1]

/-- The loop body of the `dsee` handler for an existing entry, case by case. -/
theorem dsee_update_eq (env : Env) (m : DseeMsg) (mn : CMasterNode) :
    (dsee.update env m mn).1 = mn
    ∨ (dsee.update env m mn).1 = { mn with lastTimeSeen := env.adjustedTime }
    ∨ (mn.now < m.sigTime
        ∧ (dsee.update env m mn).1
            = { mn with lastTimeSeen := env.adjustedTime, pubkey2 := m.pubkey2, now := m.sigTime,
                        sig := m.vchSig, protocolVersion := m.protocolVersion, addr := m.addr }) := by
  unfold dsee.update UpdateLastSeen
  by_cases h1 : m.count = -1 ∧ mn.pubkey = m.pubkey
      ∧ UpdatedWithin env mn env.MASTERNODE_MIN_DSEE_SECONDS = false
  · rw [if_pos h1]
    simp only [if_true]
    by_cases h2 : mn.now < m.sigTime
    · right; right
      exact ⟨h2, by rw [if_pos h2]⟩
    · right; left
      rw [if_neg h2]
  · left
    rw [if_neg h1]

theorem dseep_search_holdsAt (P : CMasterNode → Prop) (env : Env) (m : DseepMsg)
    (hP : ∀ mn, P mn → P (dseep.update env m mn).1) (reg : List CMasterNode) :
    ∀ r, dseep.search env m reg = some r → ∀ i, HoldsAt P reg i → HoldsAt P r.1 i := by
  induction reg with
  | nil => intro r h; simp [dseep.search] at h
  | cons mn rest ih =>
    intro r h i hi
    unfold dseep.search at h
    by_cases hp : mn.vin.prevout = m.vin.prevout
    · rw [if_pos hp] at h
      rw [← Option.some.inj h]
      cases i with
      | zero =>
        simp only [holdsAt_cons_zero] at hi ⊢
        exact hP mn hi
      | succ i => simpa [holdsAt_cons_succ] using hi
    · rw [if_neg hp] at h
      cases hs : dseep.search env m rest with
      | none => rw [hs] at h; simp at h
      | some r1 =>
        rw [hs] at h
        rw [← Option.some.inj h]
        cases i with
        | zero => simpa [holdsAt_cons_zero] using hi
        | succ i =>
          simp only [holdsAt_cons_succ] at hi ⊢
          exact ih r1 hs i hi

theorem ProcessMessage_dseep_holdsAt (P : CMasterNode → Prop) (env : Env)
    (reg : List CMasterNode) (asked : AskedFor) (m : DseepMsg)
    (hP : ∀ mn, P mn → P (dseep.update env m mn).1) (i : Nat) (hi : HoldsAt P reg i) :
    HoldsAt P (ProcessMessage_dseep env reg asked m).1 i := by
  unfold ProcessMessage_dseep
  split_ifs
  · exact hi
  · exact hi
  · exact hi
  · exact hi
  · cases hs : dseep.search env m reg with
    | some r => exact dseep_search_holdsAt P env m hP reg r hs i hi
    | none =>
      simp only []
      cases askedFind asked m.vin.prevout with
      | none => exact hi
      | some t => simp only []; split_ifs <;> exact hi

theorem dsee_search_holdsAt (P : CMasterNode → Prop) (env : Env) (pfromAddr : CService)
    (m : DseeMsg) (hP : ∀ mn, P mn → P (dsee.update env m mn).1) (reg : List CMasterNode) :
    ∀ r, dsee.search env pfromAddr m reg = some r → ∀ i, HoldsAt P reg i → HoldsAt P r.1 i := by
  induction reg with
  | nil => intro r h; simp [dsee.search] at h
  | cons mn rest ih =>
    intro r h i hi
    unfold dsee.search at h
    by_cases h1 : mn.vin.prevout = m.vin.prevout
    · rw [if_pos h1] at h
      rw [← Option.some.inj h]
      cases i with
      | zero =>
        simp only [holdsAt_cons_zero] at hi ⊢
        exact hP mn hi
      | succ i => simpa [holdsAt_cons_succ] using hi
    · rw [if_neg h1] at h
      by_cases h2 : mn.addr.ip = m.addr.ip
      · rw [if_pos h2] at h
        rw [← Option.some.inj h]
        exact hi
      · rw [if_neg h2] at h
        cases hs : dsee.search env pfromAddr m rest with
        | none => rw [hs] at h; simp at h
        | some r1 =>
          rw [hs] at h
          rw [← Option.some.inj h]
          cases i with
          | zero => simpa [holdsAt_cons_zero] using hi
          | succ i =>
            simp only [holdsAt_cons_succ] at hi ⊢
            exact ih r1 hs i hi

theorem dsee_insert_cases (env : Env) (m : DseeMsg) (reg : List CMasterNode) :
    (dsee.insert env m reg).1 = reg
    ∨ ∃ mnCollateral, (dsee.insert env m reg).1
        = reg ++ [UpdateLastSeen env
            (CMasterNode.new m.addr m.vin m.pubkey m.vchSig m.sigTime m.pubkey2
              m.protocolVersion mnCollateral) m.lastUpdated] := by
  unfold dsee.insert
  cases env.IsVinAssociatedWithPubkey m.vin m.pubkey with
  | none => left; rfl
  | some c =>
    simp only []
    by_cases h1 : env.AcceptableInputs m.vin (probeValue env c) = true
    · rw [if_pos h1]
      by_cases h2 : env.GetInputAge m.vin < env.MASTERNODE_MIN_CONFIRMATIONS
      · rw [if_pos h2]; left; rfl
      · rw [if_neg h2]; right; exact ⟨c, rfl⟩
    · rw [if_neg h1]; left; rfl

theorem ProcessMessage_dsee_holdsAt (P : CMasterNode → Prop) (env : Env)
    (pfromAddr : CService) (reg : List CMasterNode) (m : DseeMsg)
    (hP : ∀ mn, P mn → P (dsee.update env m mn).1) (i : Nat) (hi : HoldsAt P reg i) :
    HoldsAt P (ProcessMessage_dsee env pfromAddr reg m).1 i := by
  unfold ProcessMessage_dsee
  split_ifs
  · exact hi
  · exact hi
  · exact hi
  · exact hi
  · exact hi
  · exact hi
  · exact hi
  · cases hs : dsee.search env pfromAddr m reg with
    | some r => exact dsee_search_holdsAt P env pfromAddr m hP reg r hs i hi
    | none =>
      simp only []
      rcases dsee_insert_cases env m reg with h | ⟨c, h⟩
      · rw [h]; exact hi
      · rw [h]; exact holdsAt_append P reg _ i hi

theorem Dseep_updateLastSeen_holdsAt (P : CMasterNode → Prop) (env : Env) (vin : CTxIn)
    (hP : ∀ mn, P mn → P (UpdateLastSeen env mn 0)) (reg : List CMasterNode) :
    ∀ i, HoldsAt P reg i → HoldsAt P (Dseep.updateLastSeen env vin reg).1 i := by
  induction reg with
  | nil => intro i h; simpa [Dseep.updateLastSeen] using h
  | cons mn rest ih =>
    intro i h
    unfold Dseep.updateLastSeen
    by_cases hv : mn.vin = vin
    · simp only [hv, if_true]
      cases i with
      | zero =>
        simp only [holdsAt_cons_zero] at h ⊢
        exact hP mn h
      | succ i =>
        simp only [holdsAt_cons_succ] at h ⊢
        exact ih i h
    · simp only [hv, if_false]
      cases i with
      | zero => simpa [holdsAt_cons_zero] using h
      | succ i =>
        simp only [holdsAt_cons_succ] at h ⊢
        exact ih i h

/-- An operation that keeps `P` on every entry it changes keeps `P` at every position. -/
theorem RegistryOp_apply_holdsAt (P : CMasterNode → Prop) (op : RegistryOp)
    (hop : op.Preserves P) (reg : List CMasterNode) (i : Nat) (hi : HoldsAt P reg i) :
    HoldsAt P (op.apply reg) i := by
  cases op with
  | check env j => exact modifyAt_holdsAt P (Check env) hop reg j i hi
  | dseep env m => exact ProcessMessage_dseep_holdsAt P env reg [] m hop i hi
  | localDseep env vin => exact Dseep_updateLastSeen_holdsAt P env vin hop reg i hi
  | dsee env pfromAddr m => exact ProcessMessage_dsee_holdsAt P env pfromAddr reg m hop i hi

theorem dsee_search_length (env : Env) (pfromAddr : CService) (m : DseeMsg)
    (reg : List CMasterNode) :
    ∀ r, dsee.search env pfromAddr m reg = some r → r.1.length = reg.length := by
  induction reg with
  | nil => intro r h; simp [dsee.search] at h
  | cons mn rest ih =>
    intro r h
    unfold dsee.search at h
    by_cases h1 : mn.vin.prevout = m.vin.prevout
    · rw [if_pos h1] at h
      rw [← Option.some.inj h]; rfl
    · rw [if_neg h1] at h
      by_cases h2 : mn.addr.ip = m.addr.ip
      · rw [if_pos h2] at h
        rw [← Option.some.inj h]
      · rw [if_neg h2] at h
        cases hs : dsee.search env pfromAddr m rest with
        | none => rw [hs] at h; simp at h
        | some r1 =>
          rw [hs] at h
          rw [← Option.some.inj h]
          simp [ih r1 hs]

theorem modifyAt_getElem? (f : CMasterNode → CMasterNode) (reg : List CMasterNode) :
    ∀ (i j : Nat), (modifyAt f i reg)[j]? = if j = i then reg[j]?.map f else reg[j]? := by
  induction reg with
  | nil => intro i j; simp [modifyAt]
  | cons mn rest ih =>
    intro i j
    cases i with
    | zero =>
      cases j with
      | zero => simp [modifyAt]
      | succ j => simp [modifyAt]
    | succ i =>
      cases j with
      | zero => simp [modifyAt]
      | succ j => simp [modifyAt, ih i j]

theorem modifyAt_length (f : CMasterNode → CMasterNode) (reg : List CMasterNode) :
    ∀ i, (modifyAt f i reg).length = reg.length := by
  induction reg with
  | nil => intro i; simp [modifyAt]
  | cons mn rest ih =>
    intro i
    cases i with
    | zero => simp [modifyAt]
    | succ i => simp [modifyAt, ih i]

/-- The `dseep` loop on a registry whose first entry with the message's outpoint
is at position `i`: that entry is passed through the loop body, the others stay. -/
theorem dseep_search_first (env : Env) (m : DseepMsg) (reg : List CMasterNode) :
    ∀ (i : Nat) (mn : CMasterNode), reg[i]? = some mn →
      (∀ (j : Nat) (x : CMasterNode), j < i → reg[j]? = some x →
        x.vin.prevout ≠ m.vin.prevout) →
      mn.vin.prevout = m.vin.prevout →
      dseep.search env m reg
        = some (modifyAt (fun x => (dseep.update env m x).1) i reg, (dseep.update env m mn).2) := by
  induction reg with
  | nil => intro i mn h; simp at h
  | cons x rest ih =>
    intro i mn hi hfirst hprev
    unfold dseep.search
    cases i with
    | zero =>
      have hx : x = mn := by simpa using hi
      subst hx
      rw [if_pos hprev]
      rfl
    | succ i =>
      have hx : x.vin.prevout ≠ m.vin.prevout := hfirst 0 x (by omega) (by simp)
      rw [if_neg hx]
      rw [ih i mn (by simpa using hi)
        (fun j y hj hy => hfirst (j + 1) y (by omega) (by simpa using hy)) hprev]
      rfl

/-- C14: a `dsee` whose timestamp is more than 3600 s ahead of the adjusted time,
or whose protocol version is below `MIN_MN_PROTO_VERSION`, or for which the
script derived from `pubkey` or from `pubkey2` does not have length 25, or whose
signature does not verify under `pubkey` over the announce message, leaves the
registry unchanged and issues no relay. -/
theorem C14_invalid_announce_rejected (env : Env) (pfromAddr : CService)
    (reg : List CMasterNode) (m : DseeMsg)
    (hbad : m.sigTime > env.adjustedTime + 60 * 60
      ∨ m.protocolVersion < MIN_MN_PROTO_VERSION
      ∨ (env.GetScriptForDestination m.pubkey).length ≠ 25
      ∨ (env.GetScriptForDestination m.pubkey2).length ≠ 25
      ∨ env.VerifyMessage m.pubkey m.vchSig (dseeMessage env m) = false) :
    (ProcessMessage_dsee env pfromAddr reg m).1 = reg
    ∧ ∀ e ∈ (ProcessMessage_dsee env pfromAddr reg m).2, e.isRelay = false := by
  unfold ProcessMessage_dsee
  by_cases h1 : env.fLiteMode = true
  · simp [h1]
  rw [if_neg h1]
  by_cases h2 : env.IsInitialBlockDownload = true
  · simp [h2]
  rw [if_neg h2]
  by_cases h3 : m.sigTime > env.adjustedTime + 60 * 60
  · rw [if_pos h3]; simp
  rw [if_neg h3]
  by_cases h4 : m.protocolVersion < MIN_MN_PROTO_VERSION
  · rw [if_pos h4]; simp
  rw [if_neg h4]
  by_cases h5 : (env.GetScriptForDestination m.pubkey).length ≠ 25
  · rw [if_pos h5]; simp [Effect.isRelay]
  rw [if_neg h5]
  by_cases h6 : (env.GetScriptForDestination m.pubkey2).length ≠ 25
  · rw [if_pos h6]; simp [Effect.isRelay]
  rw [if_neg h6]
  have h7 : env.VerifyMessage m.pubkey m.vchSig (dseeMessage env m) = false := by
    rcases hbad with h | h | h | h | h
    · exact absurd h h3
    · exact absurd h h4
    · exact absurd h h5
    · exact absurd h h6
    · exact h
  simp [h7, Effect.isRelay]

/-- C14 (instance): an announce timestamped 4000 s ahead of the sample clock. -/
theorem C14_invalid_announce_rejected_witness :
    (ProcessMessage_dsee demoEnv demoPeer demoRegistry (demoAnnounce (-4000))).1 = demoRegistry
    ∧ ∀ e ∈ (ProcessMessage_dsee demoEnv demoPeer demoRegistry (demoAnnounce (-4000))).2,
        e.isRelay = false :=
  C14_invalid_announce_rejected demoEnv demoPeer demoRegistry (demoAnnounce (-4000))
    (Or.inl (by decide))

/-- A `dseep` that fails one of the checks against the first entry with its
outpoint leaves registry and asked-for map as they are and issues no effect. -/
theorem ProcessMessage_dseep_rejected (e : Env) (r : List CMasterNode) (a : AskedFor)
    (m : DseepMsg) (i : Nat) (x : CMasterNode)
    (hx : r[i]? = some x)
    (hf : ∀ (j : Nat) (y : CMasterNode), j < i → r[j]? = some y →
      y.vin.prevout ≠ m.vin.prevout)
    (hp : x.vin.prevout = m.vin.prevout)
    (hbad : m.sigTime > e.adjustedTime + 60 * 60
      ∨ m.sigTime ≤ e.adjustedTime - 60 * 60
      ∨ ¬ x.lastDseep < m.sigTime
      ∨ e.VerifyMessage x.pubkey2 m.vchSig (dseepMessage e x.addr m.sigTime m.stop) = false) :
    ProcessMessage_dseep e r a m = (r, a, []) := by
  unfold ProcessMessage_dseep
  by_cases h1 : e.fLiteMode = true
  · simp [h1]
  rw [if_neg h1]
  by_cases h2 : e.IsInitialBlockDownload = true
  · simp [h2]
  rw [if_neg h2]
  by_cases h3 : m.sigTime > e.adjustedTime + 60 * 60
  · rw [if_pos h3]
  rw [if_neg h3]
  by_cases h4 : m.sigTime ≤ e.adjustedTime - 60 * 60
  · rw [if_pos h4]
  rw [if_neg h4]
  rw [dseep_search_first e m r i x hx hf hp]
  have hupd : dseep.update e m x = (x, []) := by
    rw [dseep_update_eq]
    rcases hbad with h | h | h | h
    · exact absurd h h3
    · exact absurd h h4
    · rw [if_neg (fun hc => h hc.1)]
    · rw [if_neg (fun hc => by rw [h] at hc; exact absurd hc.2 (by simp))]
  simp only [hupd]
  have hsame : modifyAt (fun y => (dseep.update e m y).1) i r = r := by
    apply List.ext_getElem?
    intro j
    rw [modifyAt_getElem?]
    by_cases hj : j = i
    · subst hj
      rw [if_pos rfl, hx]
      simp [hupd]
    · rw [if_neg hj]
  rw [hsame]

/-- C15: let the first registry entry with a ping's outpoint be `mn`.  If the
ping's timestamp is more than 3600 s ahead of the adjusted time, or 3600 s or
more behind it, or not newer than `mn.lastDseep`, or its signature does not
verify under `mn.pubkey2` over address, timestamp and flag, the handler leaves
registry and asked-for map as they are and issues no effect.  If instead the
ping is accepted, handling the same ping again, in any environment, leaves the
registry it produced as it is and issues no effect. -/
theorem C15_rejected_ping_no_effect (env : Env) (reg : List CMasterNode) (asked : AskedFor)
    (m : DseepMsg) (i : Nat) (mn : CMasterNode)
    (hi : reg[i]? = some mn)
    (hfirst : ∀ (j : Nat) (x : CMasterNode), j < i → reg[j]? = some x →
      x.vin.prevout ≠ m.vin.prevout)
    (hprev : mn.vin.prevout = m.vin.prevout) :
    ((m.sigTime > env.adjustedTime + 60 * 60
        ∨ m.sigTime ≤ env.adjustedTime - 60 * 60
        ∨ ¬ mn.lastDseep < m.sigTime
        ∨ env.VerifyMessage mn.pubkey2 m.vchSig
            (dseepMessage env mn.addr m.sigTime m.stop) = false) →
      ProcessMessage_dseep env reg asked m = (reg, asked, []))
    ∧ ((env.fLiteMode = false ∧ env.IsInitialBlockDownload = false
        ∧ m.sigTime ≤ env.adjustedTime + 60 * 60
        ∧ env.adjustedTime - 60 * 60 < m.sigTime
        ∧ mn.lastDseep < m.sigTime
        ∧ env.VerifyMessage mn.pubkey2 m.vchSig
            (dseepMessage env mn.addr m.sigTime m.stop) = true) →
      ∀ (env2 : Env) (asked2 : AskedFor),
        ProcessMessage_dseep env2 (ProcessMessage_dseep env reg asked m).1 asked2 m
          = ((ProcessMessage_dseep env reg asked m).1, asked2, [])) := by
  have hsearch := dseep_search_first env m reg i mn hi hfirst hprev
  refine ⟨ProcessMessage_dseep_rejected env reg asked m i mn hi hfirst hprev, ?_⟩
  rintro ⟨hl, hibd, hfut, hpast, hnew, hsig⟩ env2 asked2
  have hres : (ProcessMessage_dseep env reg asked m).1
      = modifyAt (fun x => (dseep.update env m x).1) i reg := by
    unfold ProcessMessage_dseep
    rw [if_neg (by simp [hl]), if_neg (by simp [hibd]), if_neg (not_lt.mpr hfut),
      if_neg (not_le.mpr hpast), hsearch]
  have hlast : (dseep.update env m mn).1.lastDseep = m.sigTime
      ∧ (dseep.update env m mn).1.vin = mn.vin := by
    rw [dseep_update_eq, if_pos ⟨hnew, hsig⟩]
    split_ifs
    · exact ⟨rfl, rfl⟩
    · rw [Check_eq]; exact ⟨rfl, rfl⟩
    · exact ⟨rfl, rfl⟩
  rw [hres]
  apply ProcessMessage_dseep_rejected env2 _ asked2 m i (dseep.update env m mn).1
  · rw [modifyAt_getElem?, if_pos rfl, hi]; rfl
  · intro j y hj hy
    rw [modifyAt_getElem?, if_neg (by omega)] at hy
    exact hfirst j y hj hy
  · rw [hlast.2]; exact hprev
  · right; right; left
    rw [hlast.1]; exact lt_irrefl _

/-- C15 (instance): a ping for the second sample entry is accepted at the
sample clock time; the same ping handled again changes nothing. -/
theorem C15_rejected_ping_no_effect_witness :
    ProcessMessage_dseep demoEnv
        (ProcessMessage_dseep demoEnv demoRegistry [] (demoPing 250 false)).1 []
        (demoPing 250 false)
      = ((ProcessMessage_dseep demoEnv demoRegistry [] (demoPing 250 false)).1, [], []) :=
  (C15_rejected_ping_no_effect demoEnv demoRegistry [] (demoPing 250 false) 1
    (demoNode 250 2 100000 70004) rfl
    (fun j x hj hx => by
      have h0 : j = 0 := by omega
      subst h0
      have hx0 : demoNode 100 1 100000 70004 = x := by simpa [demoRegistry] using hx
      subst hx0
      decide)
    rfl).2 ⟨rfl, rfl, by decide, by decide, by decide, rfl⟩ demoEnv []

/-! ## A stale announce for a registered collateral -/

theorem dsee_search_first (env : Env) (pfromAddr : CService) (m : DseeMsg)
    (reg : List CMasterNode) :
    ∀ (i : Nat) (mn : CMasterNode), reg[i]? = some mn →
      (∀ (j : Nat) (x : CMasterNode), j < i → reg[j]? = some x →
        x.vin.prevout ≠ m.vin.prevout) →
      mn.vin.prevout = m.vin.prevout →
      dsee.search env pfromAddr m reg
          = some (reg, if pfromAddr.ip = m.addr.ip then [Effect.Misbehaving 20] else [])
      ∨ dsee.search env pfromAddr m reg
          = some (modifyAt (fun x => (dsee.update env m x).1) i reg, (dsee.update env m mn).2) := by
  induction reg with
  | nil => intro i mn h; simp at h
  | cons x rest ih =>
    intro i mn hi hfirst hprev
    cases i with
    | zero =>
      have hx : x = mn := by simpa using hi
      subst hx
      right
      unfold dsee.search
      rw [if_pos hprev]
      rfl
    | succ i =>
      have hx : x.vin.prevout ≠ m.vin.prevout := hfirst 0 x (by omega) (by simp)
      unfold dsee.search
      rw [if_neg hx]
      by_cases hip : x.addr.ip = m.addr.ip
      · left
        rw [if_pos hip]
      · rw [if_neg hip]
        rcases ih i mn (by simpa using hi)
          (fun j y hj hy => hfirst (j + 1) y (by omega) (by simpa using hy)) hprev with h | h
        · left; rw [h]
        · right; rw [h]; rfl

/-- The loop body of the `dsee` handler for a message not newer than the entry:
the entry is kept, or only its `lastTimeSeen` is refreshed, and nothing is relayed. -/
theorem dsee_update_stale (env : Env) (m : DseeMsg) (mn : CMasterNode)
    (hstale : m.sigTime ≤ mn.now) :
    dsee.update env m mn = (mn, [])
    ∨ dsee.update env m mn = ({ mn with lastTimeSeen := env.adjustedTime }, []) := by
  unfold dsee.update UpdateLastSeen
  by_cases h1 : m.count = -1 ∧ mn.pubkey = m.pubkey
      ∧ UpdatedWithin env mn env.MASTERNODE_MIN_DSEE_SECONDS = false
  · rw [if_pos h1]
    simp only [if_true]
    right
    rw [if_neg (not_lt.mpr hstale)]
  · left
    rw [if_neg h1]

/-- C16: let `mn`, at index `i`, be the first registry entry with the outpoint
of a `dsee` (with `count = -1` or any other count) whose timestamp is not newer
than `mn.now`.  The handler issues no relay, keeps the registry's length, and
every entry of the registry afterwards is the entry before, except that the
entry at `i` may carry the current adjusted time as `lastTimeSeen`. -/
theorem C16_stale_announce_frame (env : Env) (pfromAddr : CService) (reg : List CMasterNode)
    (m : DseeMsg) (i : Nat) (mn : CMasterNode)
    (hi : reg[i]? = some mn)
    (hfirst : ∀ (j : Nat) (x : CMasterNode), j < i → reg[j]? = some x →
      x.vin.prevout ≠ m.vin.prevout)
    (hprev : mn.vin.prevout = m.vin.prevout)
    (hstale : m.sigTime ≤ mn.now) :
    (∀ e ∈ (ProcessMessage_dsee env pfromAddr reg m).2, e.isRelay = false)
    ∧ (ProcessMessage_dsee env pfromAddr reg m).1.length = reg.length
    ∧ ((ProcessMessage_dsee env pfromAddr reg m).1 = reg
      ∨ (ProcessMessage_dsee env pfromAddr reg m).1
          = modifyAt (fun x => { x with lastTimeSeen := env.adjustedTime }) i reg) := by
  have key : ((ProcessMessage_dsee env pfromAddr reg m).1 = reg
        ∨ (ProcessMessage_dsee env pfromAddr reg m).1
            = modifyAt (fun x => { x with lastTimeSeen := env.adjustedTime }) i reg)
      ∧ ∀ e ∈ (ProcessMessage_dsee env pfromAddr reg m).2, e.isRelay = false := by
    unfold ProcessMessage_dsee
    split_ifs
    all_goals try exact ⟨Or.inl rfl, by simp [Effect.isRelay]⟩
    rcases dsee_search_first env pfromAddr m reg i mn hi hfirst hprev with h | h
    · rw [h]
      refine ⟨Or.inl rfl, ?_⟩
      intro e he
      simp only [] at he
      split_ifs at he
      · simp only [List.mem_singleton] at he; subst he; rfl
      · simp at he
    · rw [h]
      rcases dsee_update_stale env m mn hstale with hu | hu
      · refine ⟨Or.inl ?_, by simp [hu]⟩
        apply List.ext_getElem?
        intro j
        simp only []
        rw [modifyAt_getElem?]
        by_cases hj : j = i
        · subst hj
          rw [if_pos rfl, hi]
          simp [hu]
        · rw [if_neg hj]
      · refine ⟨Or.inr ?_, by simp [hu]⟩
        apply List.ext_getElem?
        intro j
        simp only []
        rw [modifyAt_getElem?, modifyAt_getElem?]
        by_cases hj : j = i
        · subst hj
          rw [if_pos rfl, hi]
          simp [hu]
        · rw [if_neg hj, if_neg hj]
  refine ⟨key.2, ?_, key.1⟩
  rcases key.1 with h | h
  · rw [h]
  · rw [h, modifyAt_length]

/-- C16 (instance): an announce for the first sample entry, timestamped like the
entry, arriving when the entry was last seen 2000 s ago. -/
theorem C16_stale_announce_frame_witness :
    (∀ e ∈ (ProcessMessage_dsee demoEnv demoPeer [demoIdleNode]
        { demoAnnounce 100000 with pubkey := [1] }).2, e.isRelay = false)
    ∧ (ProcessMessage_dsee demoEnv demoPeer [demoIdleNode]
        { demoAnnounce 100000 with pubkey := [1] }).1.length = [demoIdleNode].length
    ∧ ((ProcessMessage_dsee demoEnv demoPeer [demoIdleNode]
          { demoAnnounce 100000 with pubkey := [1] }).1 = [demoIdleNode]
      ∨ (ProcessMessage_dsee demoEnv demoPeer [demoIdleNode]
          { demoAnnounce 100000 with pubkey := [1] }).1
          = modifyAt (fun x => { x with lastTimeSeen := demoEnv.adjustedTime }) 0
              [demoIdleNode]) :=
  C16_stale_announce_frame demoEnv demoPeer [demoIdleNode]
    { demoAnnounce 100000 with pubkey := [1] } 0 demoIdleNode rfl
    (fun j _ hj _ => absurd hj (Nat.not_lt_zero j)) rfl (by decide)

/-! ## Reports to peer scoring on a bad signature -/

/-- C17 (divergence): a `dsee` that passes the timestamp, version and script
checks and whose signature does not verify is answered with `Misbehaving 100`,
and so is a `mnw` vote that is new, in range, has the maximal `nSequence` and
fails `CheckSignature`; but a `dseep` whose signature does not verify under the
`pubkey2` of the first entry with its outpoint issues no effect at all: the
registry and the asked-for map stay as they are and nothing is reported. -/
theorem C17_dseep_bad_signature_unreported (env : Env) (pfromAddr : CService)
    (reg : List CMasterNode) (announce : DseeMsg) (st : State)
    (winner : CMasternodePaymentWinner) (asked : AskedFor) (ping : DseepMsg)
    (i : Nat) (mn : CMasterNode) :
    (env.fLiteMode = false → env.IsInitialBlockDownload = false →
      announce.sigTime ≤ env.adjustedTime + 60 * 60 →
      MIN_MN_PROTO_VERSION ≤ announce.protocolVersion →
      (env.GetScriptForDestination announce.pubkey).length = 25 →
      (env.GetScriptForDestination announce.pubkey2).length = 25 →
      env.VerifyMessage announce.pubkey announce.vchSig (dseeMessage env announce) = false →
      ProcessMessage_dsee env pfromAddr reg announce = (reg, [Effect.Misbehaving 100]))
    ∧ (env.chain.length ≠ 0 →
      st.mapSeenMasternodeVotes.any (fun p => p.1 = winner.GetHash env) = false →
      ((env.chain.length : Int) - 1) - 10 ≤ winner.nBlockHeight →
      winner.nBlockHeight ≤ ((env.chain.length : Int) - 1) + 20 →
      winner.vin.nSequence = U32 - 1 →
      env.CheckSignature winner = false →
      ProcessMessage_mnw env st winner = (st, [Effect.Misbehaving 100]))
    ∧ (reg[i]? = some mn →
      (∀ (j : Nat) (x : CMasterNode), j < i → reg[j]? = some x →
        x.vin.prevout ≠ ping.vin.prevout) →
      mn.vin.prevout = ping.vin.prevout →
      env.VerifyMessage mn.pubkey2 ping.vchSig
        (dseepMessage env mn.addr ping.sigTime ping.stop) = false →
      ProcessMessage_dseep env reg asked ping = (reg, asked, [])
      ∧ ∀ e ∈ (ProcessMessage_dseep env reg asked ping).2.2, e.isMisbehaving = false) := by
  refine ⟨?_, ?_, ?_⟩
  · intro h1 h2 h3 h4 h5 h6 h7
    unfold ProcessMessage_dsee
    rw [if_neg (by simp [h1]), if_neg (by simp [h2]), if_neg (not_lt.mpr h3),
      if_neg (not_lt.mpr h4), if_neg (by simp [h5]), if_neg (by simp [h6]),
      if_pos (by simp [h7])]
  · intro h1 h2 h3 h4 h5 h6
    unfold ProcessMessage_mnw
    rw [if_neg h1, if_neg (by simp [h2]), if_neg (by omega), if_neg (by simp [h5]),
      if_pos (by simp [h6])]
  · intro hi hfirst hprev hsig
    have h := ProcessMessage_dseep_rejected env reg asked ping i mn hi hfirst hprev
      (Or.inr (Or.inr (Or.inr hsig)))
    refine ⟨h, ?_⟩
    rw [h]
    intro e he
    simp at he

/-- C17 (failing input): in an environment where no signature verifies, an
announce and a vote are reported with `Misbehaving 100`, and a ping for the
first sample entry is dropped with no effect. -/
theorem C17_dseep_bad_signature_unreported_witness :
    ProcessMessage_dsee demoBadSigEnv demoPeer demoRegistry (demoAnnounce 0)
        = (demoRegistry, [Effect.Misbehaving 100])
    ∧ ProcessMessage_mnw demoBadSigEnv State.init { demoVote 50 with nBlockHeight := 5 }
        = (State.init, [Effect.Misbehaving 100])
    ∧ ProcessMessage_dseep demoBadSigEnv demoRegistry [] (demoPing 100 false)
        = (demoRegistry, [], []) :=
  have h := C17_dseep_bad_signature_unreported demoBadSigEnv demoPeer demoRegistry
    (demoAnnounce 0) State.init { demoVote 50 with nBlockHeight := 5 } []
    (demoPing 100 false) 0 (demoNode 100 1 100000 70004)
  ⟨h.1 rfl rfl (by decide) (by decide) (by decide) (by decide) rfl,
    h.2.1 (by decide) rfl (by decide) (by decide) rfl rfl,
    (h.2.2 rfl (fun j _ hj _ => absurd hj (Nat.not_lt_zero j)) rfl rfl).1⟩

/-! ## Payment validation and the expected payee -/

theorem dseep_update_vin (env : Env) (m : DseepMsg) (mn : CMasterNode) :
    (dseep.update env m mn).1.vin = mn.vin := by
  rw [dseep_update_eq]
  split_ifs
  · rfl
  · rw [Check_eq]
  · rfl
  · rfl

theorem dsee_update_vin (env : Env) (m : DseeMsg) (mn : CMasterNode) :
    (dsee.update env m mn).1.vin = mn.vin := by
  rcases dsee_update_eq env m mn with e | e | ⟨_, e⟩ <;> rw [e]

theorem dseep_search_prevouts (env : Env) (m : DseepMsg) (reg : List CMasterNode) :
    ∀ r, dseep.search env m reg = some r →
      r.1.map (fun mn => mn.vin.prevout) = reg.map (fun mn => mn.vin.prevout) := by
  induction reg with
  | nil => intro r h; simp [dseep.search] at h
  | cons mn rest ih =>
    intro r h
    unfold dseep.search at h
    by_cases h1 : mn.vin.prevout = m.vin.prevout
    · rw [if_pos h1] at h
      rw [← Option.some.inj h]
      simp [dseep_update_vin]
    · rw [if_neg h1] at h
      cases hs : dseep.search env m rest with
      | none => rw [hs] at h; simp at h
      | some r1 =>
        rw [hs] at h
        rw [← Option.some.inj h]
        simp [ih r1 hs]

theorem dsee_search_prevouts (env : Env) (pfromAddr : CService) (m : DseeMsg)
    (reg : List CMasterNode) :
    ∀ r, dsee.search env pfromAddr m reg = some r →
      r.1.map (fun mn => mn.vin.prevout) = reg.map (fun mn => mn.vin.prevout) := by
  induction reg with
  | nil => intro r h; simp [dsee.search] at h
  | cons mn rest ih =>
    intro r h
    unfold dsee.search at h
    by_cases h1 : mn.vin.prevout = m.vin.prevout
    · rw [if_pos h1] at h
      rw [← Option.some.inj h]
      simp [dsee_update_vin]
    · rw [if_neg h1] at h
      by_cases h2 : mn.addr.ip = m.addr.ip
      · rw [if_pos h2] at h
        rw [← Option.some.inj h]
      · rw [if_neg h2] at h
        cases hs : dsee.search env pfromAddr m rest with
        | none => rw [hs] at h; simp at h
        | some r1 =>
          rw [hs] at h
          rw [← Option.some.inj h]
          simp [ih r1 hs]

/-- When the search loop of the `dsee` handler ends without `return`, no entry
has the message's outpoint. -/
theorem dsee_search_none (env : Env) (pfromAddr : CService) (m : DseeMsg)
    (reg : List CMasterNode) :
    dsee.search env pfromAddr m reg = none → ∀ mn ∈ reg, mn.vin.prevout ≠ m.vin.prevout := by
  induction reg with
  | nil => intro _ mn hmn; simp at hmn
  | cons x rest ih =>
    intro h mn hmn
    unfold dsee.search at h
    by_cases h1 : x.vin.prevout = m.vin.prevout
    · rw [if_pos h1] at h; simp at h
    · rw [if_neg h1] at h
      by_cases h2 : x.addr.ip = m.addr.ip
      · rw [if_pos h2] at h; simp at h
      · rw [if_neg h2] at h
        cases hs : dsee.search env pfromAddr m rest with
        | some r1 => rw [hs] at h; simp at h
        | none =>
          rcases List.mem_cons.mp hmn with rfl | hmem
          · exact h1
          · exact ih hs mn hmem

/-- The `dsee` handler keeps the collateral outpoints of the registry distinct. -/
theorem ProcessMessage_dsee_uniquePrevouts (env : Env) (pfromAddr : CService)
    (reg : List CMasterNode) (m : DseeMsg) (h : UniquePrevouts reg) :
    UniquePrevouts (ProcessMessage_dsee env pfromAddr reg m).1 := by
  unfold ProcessMessage_dsee
  split_ifs
  all_goals try exact h
  cases hs : dsee.search env pfromAddr m reg with
  | some r =>
    simp only []
    unfold UniquePrevouts at h ⊢
    rw [dsee_search_prevouts env pfromAddr m reg r hs]
    exact h
  | none =>
    simp only []
    rcases dsee_insert_cases env m reg with e | ⟨c, e⟩
    · rw [e]; exact h
    · rw [e]
      unfold UniquePrevouts at h ⊢
      rw [List.map_append, List.nodup_append]
      refine ⟨h, by simp, ?_⟩
      intro a ha hb
      have hvin : (UpdateLastSeen env (CMasterNode.new m.addr m.vin m.pubkey m.vchSig m.sigTime
          m.pubkey2 m.protocolVersion c) m.lastUpdated).vin = m.vin := by
        unfold UpdateLastSeen; split_ifs <;> rfl
      simp only [List.map_cons, List.map_nil, List.mem_singleton, hvin] at hb
      obtain ⟨mn, hmn, hmn2⟩ := List.mem_map.mp ha
      exact dsee_search_none env pfromAddr m reg hs mn hmn (by rw [hmn2, hb])

/-- The `dseep` handler keeps the collateral outpoints of the registry distinct. -/
theorem ProcessMessage_dseep_uniquePrevouts (env : Env) (reg : List CMasterNode)
    (asked : AskedFor) (m : DseepMsg) (h : UniquePrevouts reg) :
    UniquePrevouts (ProcessMessage_dseep env reg asked m).1 := by
  unfold ProcessMessage_dseep
  split_ifs
  all_goals try exact h
  cases hs : dseep.search env m reg with
  | some r =>
    simp only []
    unfold UniquePrevouts at h ⊢
    rw [dseep_search_prevouts env m reg r hs]
    exact h
  | none =>
    simp only []
    cases askedFind asked m.vin.prevout with
    | none => exact h
    | some t =>
      simp only []
      split_ifs <;> exact h

/-- C12 (divergence): the `dsee` and `dseep` handlers keep the collateral
outpoints of the registry distinct, but `CActiveMasternode::Register` does not:
after a `dsee` for the outpoint `(100, 0)` whose input has `nSequence = 0`,
`Register` for the same outpoint with the input `GetMasterNodeVin` builds finds
no entry with an equal `vin` and appends a second entry for the outpoint.  So a
registry with two entries for one outpoint is reachable from the empty one. -/
theorem C12_register_duplicates_outpoint :
    (∀ (env : Env) (pfromAddr : CService) (reg : List CMasterNode) (m : DseeMsg),
      UniquePrevouts reg → UniquePrevouts (ProcessMessage_dsee env pfromAddr reg m).1)
    ∧ (∀ (env : Env) (reg : List CMasterNode) (asked : AskedFor) (m : DseepMsg),
      UniquePrevouts reg → UniquePrevouts (ProcessMessage_dseep env reg asked m).1)
    ∧ ((Register demoEnv (ProcessMessage_dsee demoEnv demoPeer [] demoAnnounceSeq0).1
          (demoVin 100) demoAnnounceSeq0.addr [] demoAnnounceSeq0.pubkey []
          demoAnnounceSeq0.pubkey2).2.1.map (fun mn => mn.vin.prevout)
        = [{ hash := 100, n := 0 }, { hash := 100, n := 0 }])
    ∧ ∃ reg, RegistryReachable reg ∧ ¬ UniquePrevouts reg := by
  refine ⟨ProcessMessage_dsee_uniquePrevouts, ProcessMessage_dseep_uniquePrevouts,
    by decide, ?_⟩
  refine ⟨_, RegistryReachable.register demoEnv _ (demoVin 100) demoAnnounceSeq0.addr []
    demoAnnounceSeq0.pubkey [] demoAnnounceSeq0.pubkey2
    (RegistryReachable.dsee demoEnv demoPeer [] demoAnnounceSeq0 RegistryReachable.empty), ?_⟩
  decide

/-! ## Movement of `lastTimeSeen` -/

/-- The `dsee` loop body keeps `lastTimeSeen` or sets it to the adjusted time,
the latter only for an entry not seen within `MASTERNODE_MIN_DSEE_SECONDS`. -/
theorem dsee_update_lastTimeSeen (env : Env) (m : DseeMsg) (mn : CMasterNode) :
    (dsee.update env m mn).1.lastTimeSeen = mn.lastTimeSeen
    ∨ ((dsee.update env m mn).1.lastTimeSeen = env.adjustedTime
        ∧ env.MASTERNODE_MIN_DSEE_SECONDS ≤ env.adjustedTime - mn.lastTimeSeen) := by
  unfold dsee.update UpdateLastSeen
  by_cases h1 : m.count = -1 ∧ mn.pubkey = m.pubkey
      ∧ UpdatedWithin env mn env.MASTERNODE_MIN_DSEE_SECONDS = false
  · rw [if_pos h1]
    simp only [if_true]
    right
    have h2 := h1.2.2
    unfold UpdatedWithin at h2
    have h3 : env.MASTERNODE_MIN_DSEE_SECONDS ≤ env.adjustedTime - mn.lastTimeSeen := by
      simpa using h2
    refine ⟨?_, h3⟩
    split_ifs <;> rfl
  · left
    rw [if_neg h1]

/-- An operation keeps an entry's `lastTimeSeen` at or above a level `L` it had
reached, or at 0 after a `dseep` with the `stop` flag, when the rate limits are
not negative and the local refresh runs at a clock time of at least `L`. -/
theorem RegistryOp_preserves_lastSeen (op : RegistryOp) (L : Int)
    (hmin : 0 ≤ op.env.MASTERNODE_MIN_DSEEP_SECONDS ∧ 0 ≤ op.env.MASTERNODE_MIN_DSEE_SECONDS)
    (hclock : op.isLocalDseep = true → L ≤ op.env.adjustedTime) :
    op.Preserves (fun x => L ≤ x.lastTimeSeen ∨ (op.isStopPing = true ∧ x.lastTimeSeen = 0)) := by
  cases op with
  | check env j =>
    intro x hx
    rw [Check_eq]
    exact hx
  | dseep env m =>
    intro x hx
    have hm : 0 ≤ env.MASTERNODE_MIN_DSEEP_SECONDS := hmin.1
    rw [dseep_update_eq]
    split_ifs with h1 h2 h3
    · exact hx
    · right
      refine ⟨h3, ?_⟩
      rw [Check_eq]
    · rcases hx with hx | hx
      · left
        show L ≤ env.adjustedTime
        omega
      · exact absurd hx.1 h3
    · exact hx
  | localDseep env vin =>
    intro x _
    left
    unfold UpdateLastSeen
    simp only [if_true]
    exact hclock rfl
  | dsee env pfromAddr m =>
    intro x hx
    have hm : 0 ≤ env.MASTERNODE_MIN_DSEE_SECONDS := hmin.2
    rcases hx with hx | hx
    · left
      rcases dsee_update_lastTimeSeen env m x with e | ⟨e, hlim⟩
      · rw [e]; exact hx
      · rw [e]; omega
    · exact absurd hx.1 (by simp [RegistryOp.isStopPing])

/-- C13 (amended): with rate limits `MASTERNODE_MIN_DSEEP_SECONDS` and
`MASTERNODE_MIN_DSEE_SECONDS` not negative, each registry operation (`dsee`
handling, `dseep` handling, the local `Dseep` refresh, `Check`) leaves the
`lastTimeSeen` of every entry at or above its previous value, except that a
`dseep` with the `stop` flag may reset it to 0, provided that for the local
`Dseep` refresh the previous value is not ahead of the clock time. -/
theorem C13_last_seen_forward (op : RegistryOp) (reg : List CMasterNode) (i : Nat)
    (mn : CMasterNode) (hi : reg[i]? = some mn)
    (hmin : 0 ≤ op.env.MASTERNODE_MIN_DSEEP_SECONDS ∧ 0 ≤ op.env.MASTERNODE_MIN_DSEE_SECONDS)
    (hclock : op.isLocalDseep = true → mn.lastTimeSeen ≤ op.env.adjustedTime) :
    ∃ mn1, (op.apply reg)[i]? = some mn1
      ∧ (mn.lastTimeSeen ≤ mn1.lastTimeSeen
        ∨ (op.isStopPing = true ∧ mn1.lastTimeSeen = 0)) :=
  RegistryOp_apply_holdsAt _ op (RegistryOp_preserves_lastSeen op mn.lastTimeSeen hmin hclock)
    reg i ⟨mn, hi, Or.inl (le_refl _)⟩

/-- C13 (instance): the local refresh at the sample clock time of an entry last
seen 2000 s before. -/
theorem C13_last_seen_forward_witness :
    ∃ mn1, ((RegistryOp.localDseep demoEnv (demoVin 100)).apply [demoIdleNode])[0]? = some mn1
      ∧ (demoIdleNode.lastTimeSeen ≤ mn1.lastTimeSeen
        ∨ ((RegistryOp.localDseep demoEnv (demoVin 100)).isStopPing = true
            ∧ mn1.lastTimeSeen = 0)) :=
  C13_last_seen_forward (RegistryOp.localDseep demoEnv (demoVin 100)) [demoIdleNode] 0
    demoIdleNode rfl (by decide) (fun _ => by decide)

/-- C13 (counterexample): a `dsee` processed at clock time 1700000000 inserts an
entry with `lastTimeSeen = 1700001000`, the `lastUpdated` it carries; the local
`Dseep` refresh at the same clock time lowers it to 1700000000. -/
theorem C13_counterexample :
    (ProcessMessage_dsee demoEnv demoPeer [] demoAnnounceAhead).1.map
        (fun mn => mn.lastTimeSeen) = [1700001000]
    ∧ ((RegistryOp.localDseep demoEnv (demoVin 100)).apply
        (ProcessMessage_dsee demoEnv demoPeer [] demoAnnounceAhead).1).map
        (fun mn => mn.lastTimeSeen) = [1700000000] := by
  constructor <;> decide

/-! ## The window of `GetPaidMasternodes` -/

theorem step_not_carrying (env : Env) (paid : List CScript) (idx : CBlockIndex)
    (h : carriesPayment env idx = false) : GetPaidMasternodes.step env paid idx = paid := by
  unfold carriesPayment at h
  unfold GetPaidMasternodes.step
  cases hd : idx.disk with
  | none => rfl
  | some block =>
    rw [hd] at h
    simp only [] at h ⊢
    rw [if_neg (by simp [h])]

theorem step_carrying (env : Env) (paid : List CScript) (idx : CBlockIndex) (block : CBlock)
    (s : CScript) (hd : idx.disk = some block) (hp : env.HasMasternodePayment block = true)
    (hs : paidScriptOf block = some s) :
    GetPaidMasternodes.step env paid idx = if s ∈ paid then paid else paid ++ [s] := by
  unfold paidScriptOf at hs
  unfold GetPaidMasternodes.step
  rw [hd]
  simp only []
  rw [if_pos hp]
  cases hv : block.vtx.get? 1 with
  | none => rw [hv] at hs; simp at hs
  | some tx =>
    rw [hv] at hs
    simp only [] at hs ⊢
    by_cases h3 : tx.vout.length = 3
    · rw [if_pos h3] at hs ⊢
      cases ho : tx.vout.get? 2 with
      | none => rw [ho] at hs; simp at hs
      | some out =>
        rw [ho] at hs
        simp only [Option.map_some', Option.some.injEq] at hs
        simp only [IsMasternodePaidInList, hs]
        by_cases hin : s ∈ paid <;> simp [hin]
    · rw [if_neg h3] at hs ⊢
      by_cases h4 : tx.vout.length = 4
      · rw [if_pos h4] at hs ⊢
        cases ho : tx.vout.get? 3 with
        | none => rw [ho] at hs; simp at hs
        | some out =>
          rw [ho] at hs
          simp only [Option.map_some', Option.some.injEq] at hs
          simp only [IsMasternodePaidInList, hs]
          by_cases hin : s ∈ paid <;> simp [hin]
      · rw [if_neg h4] at hs; simp at hs

theorem foldl_not_carrying (env : Env) (l : List CBlockIndex) :
    ∀ paid, (∀ b ∈ l, carriesPayment env b = false) →
      l.foldl (GetPaidMasternodes.step env) paid = paid := by
  induction l with
  | nil => intro paid _; rfl
  | cons b rest ih =>
    intro paid h
    rw [List.foldl_cons, step_not_carrying env paid b (h b (List.mem_cons_self _ _))]
    exact ih paid (fun x hx => h x (List.mem_cons_of_mem _ hx))

/-- On a chain of at least `count` blocks with a single paying block,
`pre.length` blocks below the tip, `GetPaidMasternodes` returns that block's
script when the block lies among the `count` blocks scanned, and nothing
otherwise. -/
theorem GetPaidMasternodes_single (env : Env) (reg : List CMasterNode)
    (pre post : List CBlockIndex) (idx : CBlockIndex) (block : CBlock) (s : CScript)
    (hlen : (paidScanCount reg).toNat ≤ env.chain.length)
    (hchain : env.chain.reverse = pre ++ idx :: post)
    (hdisk : idx.disk = some block) (hpay : env.HasMasternodePayment block = true)
    (hs : paidScriptOf block = some s)
    (hpre : ∀ b ∈ pre, carriesPayment env b = false)
    (hpost : ∀ b ∈ post, carriesPayment env b = false) :
    GetPaidMasternodes env reg
      = some (if pre.length < (paidScanCount reg).toNat then [s] else []) := by
  rw [GetPaidMasternodes_eq, if_pos hlen, hchain, List.take_append_eq_append_take,
    List.foldl_append]
  rw [foldl_not_carrying env _ [] (fun b hb => hpre b (List.mem_of_mem_take hb))]
  by_cases hw : pre.length < (paidScanCount reg).toNat
  · rw [if_pos hw]
    obtain ⟨k, hk⟩ : ∃ k, (paidScanCount reg).toNat - pre.length = k + 1 :=
      ⟨(paidScanCount reg).toNat - pre.length - 1, by omega⟩
    rw [hk, List.take_succ_cons, List.foldl_cons, step_carrying env [] idx block s hdisk hpay hs]
    simp only [List.not_mem_nil, if_false, List.nil_append]
    rw [foldl_not_carrying env _ [s] (fun b hb => hpost b (List.mem_of_mem_take hb))]
  · rw [if_neg hw]
    have hz : (paidScanCount reg).toNat - pre.length = 0 := by omega
    rw [hz]
    rfl

/-- C18 (amended): for a chain of at least `count` blocks in which exactly one
block carries a masternode payment, `GetPaidMasternodes()` returns the
one-element list with that block's payee script provided the block can be read
back, its `vtx[1]` has 3 or 4 outputs, and it lies among the `count` blocks
scanned back from the tip, where `count` is the registry size clamped to
960..1500. -/
theorem C18_single_payment_in_window (env : Env) (reg : List CMasterNode)
    (pre post : List CBlockIndex) (idx : CBlockIndex) (block : CBlock) (s : CScript)
    (hlen : (paidScanCount reg).toNat ≤ env.chain.length)
    (hchain : env.chain.reverse = pre ++ idx :: post)
    (hwin : pre.length < (paidScanCount reg).toNat)
    (hdisk : idx.disk = some block) (hpay : env.HasMasternodePayment block = true)
    (hs : paidScriptOf block = some s)
    (hpre : ∀ b ∈ pre, carriesPayment env b = false)
    (hpost : ∀ b ∈ post, carriesPayment env b = false) :
    GetPaidMasternodes env reg = some [s] := by
  rw [GetPaidMasternodes_single env reg pre post idx block s hlen hchain hdisk hpay hs hpre
    hpost, if_pos hwin]

theorem demoPaidEnv_chain_reverse (below above : Nat) :
    (demoPaidEnv below above).chain.reverse
      = List.replicate above demoBlock ++ demoPayingBlock :: List.replicate below demoBlock := by
  show (List.replicate below demoBlock ++ demoPayingBlock :: List.replicate above demoBlock).reverse
    = _
  rw [List.reverse_append, List.reverse_cons, List.reverse_replicate, List.reverse_replicate,
    List.append_assoc]
  rfl

theorem demoPaidEnv_replicate (below above n : Nat) :
    ∀ b ∈ List.replicate n demoBlock, carriesPayment (demoPaidEnv below above) b = false := by
  intro b hb
  rw [(List.mem_replicate.mp hb).2]
  rfl

theorem demoPaidEnv_chain_length (below above : Nat) :
    (demoPaidEnv below above).chain.length = below + above + 1 := by
  rw [← List.length_reverse, demoPaidEnv_chain_reverse, List.length_append, List.length_cons,
    List.length_replicate, List.length_replicate]
  omega

/-- C18 (instance): a chain of 1000 blocks whose only paying block, at height
989, pays the script `[1]`. -/
theorem C18_single_payment_in_window_witness :
    GetPaidMasternodes (demoPaidEnv 989 10) demoRegistry = some [[1]] :=
  C18_single_payment_in_window (demoPaidEnv 989 10) demoRegistry
    (List.replicate 10 demoBlock) (List.replicate 989 demoBlock) demoPayingBlock
    { vtx := [demoCoinbase, demoCoinstake [1] 400] } [1]
    (by rw [demoPaidEnv_chain_length]; decide)
    (demoPaidEnv_chain_reverse 989 10) (by decide) rfl rfl rfl
    (demoPaidEnv_replicate 989 10 10) (demoPaidEnv_replicate 989 10 989)

/-- C18 (counterexample): on a chain of 1000 blocks whose only paying block is
the one at height 10, paying the script `[1]`, `GetPaidMasternodes()` scans the
960 blocks below the tip and returns the empty list. -/
theorem C18_counterexample :
    (demoPaidEnv 10 989).chain
        = List.replicate 10 demoBlock ++ demoPayingBlock :: List.replicate 989 demoBlock
    ∧ carriesPayment (demoPaidEnv 10 989) demoBlock = false
    ∧ carriesPayment (demoPaidEnv 10 989) demoPayingBlock = true
    ∧ demoPayingBlock.disk.bind paidScriptOf = some [1]
    ∧ GetPaidMasternodes (demoPaidEnv 10 989) demoRegistry = some [] := by
  refine ⟨rfl, rfl, rfl, rfl, ?_⟩
  rw [GetPaidMasternodes_single (demoPaidEnv 10 989) demoRegistry
    (List.replicate 989 demoBlock) (List.replicate 10 demoBlock) demoPayingBlock
    { vtx := [demoCoinbase, demoCoinstake [1] 400] } [1]
    (by rw [demoPaidEnv_chain_length]; decide)
    (demoPaidEnv_chain_reverse 10 989) rfl rfl rfl
    (demoPaidEnv_replicate 10 989 989) (demoPaidEnv_replicate 10 989 10)]
  rw [List.length_replicate]
  decide

/-- C19 (amended): on a chain of at least `count` blocks `GetPaidMasternodes`
returns the result of scanning the first `count` blocks from the tip, and on a
shorter chain it has no result, where `count` is the registry size clamped to
the range 960..1500: it is at least 960 and at most 1500, and it is at least
the registry size when that size is at most 1500. -/
theorem C19_scan_window (env : Env) (reg : List CMasterNode) :
    GetPaidMasternodes env reg
      = (if (paidScanCount reg).toNat ≤ env.chain.length then
          some ((env.chain.reverse.take (paidScanCount reg).toNat).foldl
            (GetPaidMasternodes.step env) [])
        else none)
    ∧ 960 ≤ paidScanCount reg ∧ paidScanCount reg ≤ 1500
    ∧ (reg.length ≤ 1500 → (reg.length : Int) ≤ paidScanCount reg) := by
  refine ⟨?_, ?_, ?_, ?_⟩
  · exact GetPaidMasternodes_eq env reg
  · unfold paidScanCount; omega
  · unfold paidScanCount; omega
  · intro h; unfold paidScanCount; omega

/-- C19 (counterexample): for a registry of 1501 entries the scan covers 1500
blocks, fewer than the registry size. -/
theorem C19_counterexample :
    (List.replicate 1501 (demoNode 100 1 100000 70004)).length = 1501
    ∧ paidScanCount (List.replicate 1501 (demoNode 100 1 100000 70004)) = 1500 := by
  refine ⟨List.length_replicate _ _, ?_⟩
  unfold paidScanCount
  rw [List.length_replicate]
  decide

/-! ## Pruning of the ledger -/

theorem erase_eq_eraseP (height nLimit : Int) (l : List CMasternodePaymentWinner) :
    CleanPaymentList.erase height nLimit l
      = l.eraseP (fun w => decide (height - w.nBlockHeight > nLimit)) := by
  induction l with
  | nil => rfl
  | cons w rest ih =>
    unfold CleanPaymentList.erase
    by_cases h : height - w.nBlockHeight > nLimit
    · rw [if_pos h, List.eraseP_cons_of_pos (by simpa using h)]
    · rw [if_neg h, List.eraseP_cons_of_neg (by simpa using h), ih]

theorem countP_eraseP_self (p : CMasternodePaymentWinner → Bool)
    (l : List CMasternodePaymentWinner) :
    (l.eraseP p).countP p = l.countP p - 1 := by
  induction l with
  | nil => rfl
  | cons w rest ih =>
    by_cases h : p w = true
    · rw [List.eraseP_cons_of_pos h, List.countP_cons_of_pos _ _ h]
      omega
    · rw [List.eraseP_cons_of_neg h, List.countP_cons_of_neg _ _ h,
        List.countP_cons_of_neg _ _ h, ih]

theorem CleanPaymentList_vWinning (env : Env) (st : State) (hc : env.chain.length ≠ 0) :
    (CleanPaymentList env st).vWinning = st.vWinning.eraseP (expiredRecord env st) := by
  unfold CleanPaymentList
  rw [if_neg hc]
  show CleanPaymentList.erase _ _ st.vWinning = _
  rw [erase_eq_eraseP]
  rfl

/-- C20 (amended): with a chain tip, `CleanPaymentList()` removes the first
retained record with `chain height - block height > max(2 * registry size,
1000)` and no other, so the number of such records drops by one; if at most
one retained record was that old, none is after it returns. -/
theorem C20_clean_removes_first_expired (env : Env) (st : State)
    (hc : env.chain.length ≠ 0) :
    (CleanPaymentList env st).vWinning = st.vWinning.eraseP (expiredRecord env st)
    ∧ (CleanPaymentList env st).vWinning.countP (expiredRecord env st)
        = st.vWinning.countP (expiredRecord env st) - 1
    ∧ (st.vWinning.countP (expiredRecord env st) ≤ 1 →
        ∀ w ∈ (CleanPaymentList env st).vWinning, expiredRecord env st w = false) := by
  have h1 := CleanPaymentList_vWinning env st hc
  have h2 : (CleanPaymentList env st).vWinning.countP (expiredRecord env st)
      = st.vWinning.countP (expiredRecord env st) - 1 := by
    rw [h1, countP_eraseP_self]
  refine ⟨h1, h2, ?_⟩
  intro hle w hw
  have h0 : (CleanPaymentList env st).vWinning.countP (expiredRecord env st) = 0 := by
    rw [h2]; omega
  have := List.countP_eq_zero.mp h0 w hw
  simpa using this

theorem demoLongEnv_chain_length : demoLongEnv.chain.length = 3000 := by
  show (List.replicate 3000 demoBlock).length = 3000
  exact List.length_replicate _ _

/-- C20 (instance): a ledger with records for heights 100 and 2500 on a chain
with tip height 2999. -/
theorem C20_clean_removes_first_expired_witness :
    (CleanPaymentList demoLongEnv
        { State.init with vWinning := [demoRecord 100, demoRecord 2500] }).vWinning
      = [demoRecord 100, demoRecord 2500].eraseP
          (expiredRecord demoLongEnv
            { State.init with vWinning := [demoRecord 100, demoRecord 2500] }) :=
  (C20_clean_removes_first_expired demoLongEnv
    { State.init with vWinning := [demoRecord 100, demoRecord 2500] }
    (by rw [demoLongEnv_chain_length]; decide)).1

/-- C20 (counterexample): on a chain with tip height 2999 and an empty registry
(horizon 1000), a ledger holding records for heights 100 and 200 keeps the
record for height 200 after `CleanPaymentList()` returns, although
2999 - 200 > 1000. -/
theorem C20_counterexample :
    (CleanPaymentList demoLongEnv
        { State.init with vWinning := [demoRecord 100, demoRecord 200] }).vWinning
      = [demoRecord 200]
    ∧ ((demoLongEnv.chain.length : Int) - 1) - (demoRecord 200).nBlockHeight
        > max ((State.init.vecMasternodes.length : Int) * 2) 1000 := by
  constructor
  · rw [CleanPaymentList_vWinning _ _ (by rw [demoLongEnv_chain_length]; decide)]
    unfold expiredRecord
    rw [demoLongEnv_chain_length]
    decide
  · rw [demoLongEnv_chain_length]
    decide

/-! ## The block-hash lookup -/

/-- The backward walk started `d` steps short of `nBlocksAgo` returns the hash
of the entry `d` places down the list when that entry is above height 0. -/
theorem walk_spec (a : Int) :
    ∀ (l : List CBlockIndex) (n : Int) (d : Nat), a - n = d →
      GetBlockHash.walk a n l
        = if d + 1 < l.length then l[d]?.map (fun b => b.hash) else none := by
  intro l
  induction l with
  | nil => intro n d _; simp [GetBlockHash.walk]
  | cons b prev ih =>
    intro n d hd
    unfold GetBlockHash.walk
    by_cases hp : 0 < prev.length
    · rw [if_pos hp]
      cases d with
      | zero =>
        rw [if_pos (by omega)]
        simp [hp]
      | succ d =>
        rw [if_neg (by omega), ih (n + 1) d (by omega)]
        simp
    · rw [if_neg hp]
      have : prev.length = 0 := by omega
      simp [this]

/-- The lookup for a positive height: the hash of the block one below the
height, for heights from 2 to the tip height plus 1 on a chain with tip height
at least 1, and failure otherwise. -/
theorem lookup_pos (env : Env) (k : Int) (hk : 0 < k) :
    GetBlockHash.lookup env k
      = if 2 ≤ env.chain.length ∧ 2 ≤ k ∧ k ≤ env.chain.length then
          env.chain[(k - 1).toNat]?.map (fun b => b.hash)
        else none := by
  unfold GetBlockHash.lookup
  simp only []
  by_cases hg : (env.chain.length : Int) - 1 = 0 ∨ (env.chain.length : Int) - 1 + 1 < k
  · rw [if_pos hg, if_neg (by omega)]
  · rw [if_neg hg, if_pos hk]
    have hd : ((env.chain.length : Int) - 1 + 1 - k) - 0 = ((env.chain.length - k.toNat : Nat) : Int) := by
      omega
    rw [walk_spec _ env.chain.reverse 0 (env.chain.length - k.toNat) hd, List.length_reverse]
    by_cases h2 : 2 ≤ k
    · rw [if_pos (by omega), if_pos ⟨by omega, h2, by omega⟩]
      rw [List.getElem?_reverse (by omega)]
      congr 2
      omega
    · rw [if_neg (by omega), if_neg (by omega)]

theorem GetBlockHash_nil_pos (env : Env) (k : Int) (hk : 0 < k) :
    (GetBlockHash env [] k).1 = GetBlockHash.lookup env k := by
  have hkey : GetBlockHash.key env k = k := by
    unfold GetBlockHash.key
    rw [if_neg (by omega)]
  unfold GetBlockHash
  by_cases hc : env.chain.length = 0
  · rw [if_pos hc, lookup_pos env k hk, if_neg (by omega)]
  · rw [if_neg hc, hkey]
    simp only [cacheFind]
    cases GetBlockHash.lookup env k <;> rfl

/-- C29: on a chain with tip height at least 1 and an empty cache,
`GetBlockHash(hash, h)` succeeds for every `h` from 2 to the tip height plus 1
and yields the hash of the block at height `h - 1`; it fails for `h = 1` and
for every `h` above the tip height plus 1.  The backward walk is a structural
recursion over the chain, so it ends on every input. -/
theorem C29_block_hash_lookup (env : Env) (h : Int) (hT : 2 ≤ env.chain.length) :
    (2 ≤ h → h ≤ env.chain.length →
      ∃ b, env.chain[(h - 1).toNat]? = some b ∧ (GetBlockHash env [] h).1 = some b.hash)
    ∧ (h = 1 → (GetBlockHash env [] h).1 = none)
    ∧ ((env.chain.length : Int) < h → (GetBlockHash env [] h).1 = none) := by
  refine ⟨?_, ?_, ?_⟩
  · intro h2 hle
    rw [GetBlockHash_nil_pos env h (by omega), lookup_pos env h (by omega),
      if_pos ⟨hT, h2, hle⟩]
    have hlt : (h - 1).toNat < env.chain.length := by omega
    exact ⟨env.chain[(h - 1).toNat], List.getElem?_eq_getElem hlt, by
      rw [List.getElem?_eq_getElem hlt]; rfl⟩
  · intro h1
    rw [GetBlockHash_nil_pos env h (by omega), lookup_pos env h (by omega), if_neg (by omega)]
  · intro hgt
    rw [GetBlockHash_nil_pos env h (by omega), lookup_pos env h (by omega), if_neg (by omega)]

/-- C29 (instance): on the chain of hashes 10, 11, 12 the lookup for height 3
yields 12, the hash of the block at height 2. -/
theorem C29_block_hash_lookup_witness :
    ∃ b, (demoChainEnv [demoHashBlock 10, demoHashBlock 11, demoHashBlock 12]).chain[
          ((3 : Int) - 1).toNat]? = some b
      ∧ (GetBlockHash (demoChainEnv [demoHashBlock 10, demoHashBlock 11, demoHashBlock 12])
          [] 3).1 = some b.hash :=
  (C29_block_hash_lookup (demoChainEnv [demoHashBlock 10, demoHashBlock 11, demoHashBlock 12])
    3 (by decide)).1 (by decide) (by decide)

/-! ## The block-hash cache -/

theorem lookup_chain (env env1 : Env) (k : Int) (h : env1.chain = env.chain) :
    GetBlockHash.lookup env1 k = GetBlockHash.lookup env k := by
  unfold GetBlockHash.lookup
  rw [h]

/-- A successful lookup for a positive height stays the same when blocks are appended. -/
theorem lookup_pos_grow (env env1 : Env) (more : List CBlockIndex) (k : Int) (v : Nat)
    (hk : 0 < k) (h1 : env1.chain = env.chain ++ more)
    (hv : GetBlockHash.lookup env k = some v) : GetBlockHash.lookup env1 k = some v := by
  rw [lookup_pos env k hk] at hv
  rw [lookup_pos env1 k hk, h1]
  by_cases hc : 2 ≤ env.chain.length ∧ 2 ≤ k ∧ k ≤ env.chain.length
  · rw [if_pos hc] at hv
    rw [if_pos ⟨by rw [List.length_append]; omega, hc.2.1, by
      rw [List.length_append]; push_cast; omega⟩]
    rw [List.getElem?_append_left (by omega)]
    exact hv
  · rw [if_neg hc] at hv
    simp at hv

theorem key_of_lookup (env : Env) (nBlockHeight : Int) (v : Nat)
    (hv : GetBlockHash.lookup env (GetBlockHash.key env nBlockHeight) = some v) :
    GetBlockHash.key env nBlockHeight ≠ 0 := by
  intro h0
  unfold GetBlockHash.key at h0 hv
  by_cases hz : nBlockHeight = 0
  · rw [if_pos hz] at h0 hv
    unfold GetBlockHash.lookup at hv
    simp only [] at hv
    rw [if_pos (Or.inl h0)] at hv
    simp at hv
  · rw [if_neg hz] at h0
    exact hz h0

theorem cacheReachable_sound (chain : List CBlockIndex) (cache : Cache)
    (h : CacheReachable chain cache) : CacheSound chain cache := by
  induction h with
  | empty chain => intro env k v _ hf; simp [cacheFind] at hf
  | lookup env0 cache nBlockHeight _ ih =>
    intro env k v hchain hf
    unfold GetBlockHash at hf
    by_cases hc : env0.chain.length = 0
    · rw [if_pos hc] at hf
      exact ih env k v hchain hf
    · rw [if_neg hc] at hf
      cases hcf : cacheFind cache (GetBlockHash.key env0 nBlockHeight) with
      | some v0 =>
        rw [hcf] at hf
        exact ih env k v hchain hf
      | none =>
        rw [hcf] at hf
        cases hl : GetBlockHash.lookup env0 (GetBlockHash.key env0 nBlockHeight) with
        | none =>
          rw [hl] at hf
          exact ih env k v hchain hf
        | some v1 =>
          rw [hl] at hf
          simp only [cacheFind] at hf
          by_cases hk : GetBlockHash.key env0 nBlockHeight = k
          · rw [if_pos hk] at hf
            have hv : v1 = v := Option.some.inj hf
            subst hv
            have hne := key_of_lookup env0 nBlockHeight v1 hl
            rw [hk] at hne hl
            rcases lt_or_gt_of_ne hne with hneg | hpos
            · exact Or.inl hneg
            · exact Or.inr ⟨hpos, by rw [lookup_chain env0 env k hchain]; exact hl⟩
          · rw [if_neg hk] at hf
            exact ih env k v hchain hf
  | grow chain more cache _ ih =>
    intro env k v hchain hf
    rcases ih { env with chain := chain } k v rfl hf with hneg | ⟨hpos, hl⟩
    · exact Or.inl hneg
    · exact Or.inr ⟨hpos, lookup_pos_grow { env with chain := chain } env more k v hpos hchain hl⟩

/-- With a reachable cache a lookup for a height that is not negative gives the
flag and hash of a lookup with an empty cache. -/
theorem GetBlockHash_transparent (env : Env) (cache : Cache) (nBlockHeight : Int)
    (hr : CacheReachable env.chain cache) (hn : 0 ≤ nBlockHeight) :
    (GetBlockHash env cache nBlockHeight).1 = (GetBlockHash env [] nBlockHeight).1 := by
  have hs := cacheReachable_sound env.chain cache hr
  unfold GetBlockHash
  by_cases hc : env.chain.length = 0
  · rw [if_pos hc, if_pos hc]
  · rw [if_neg hc, if_neg hc]
    have hkey : 0 ≤ GetBlockHash.key env nBlockHeight := by
      unfold GetBlockHash.key
      split_ifs <;> omega
    simp only [cacheFind]
    cases hcf : cacheFind cache (GetBlockHash.key env nBlockHeight) with
    | none =>
      cases GetBlockHash.lookup env (GetBlockHash.key env nBlockHeight) <;> rfl
    | some v =>
      rcases hs env _ v rfl hcf with hneg | ⟨_, hl⟩
      · omega
      · rw [hl]

/-- C23 (divergence): for heights that are not negative the cache is
transparent: with any cache reachable by earlier lookups and appended blocks,
`GetBlockHash` gives the flag and hash of a lookup with an empty cache.  For a
negative height it is not: on the chain of hashes 10, 11 the lookup for height
-1 yields 11, the tip hash, and stores it under -1; after the block of hash 12
is appended, the lookup served from that cache still yields 11, while a lookup
with an empty cache yields 12. -/
theorem C23_negative_height_cache_stale :
    (∀ (env : Env) (cache : Cache) (nBlockHeight : Int),
      CacheReachable env.chain cache → 0 ≤ nBlockHeight →
      (GetBlockHash env cache nBlockHeight).1 = (GetBlockHash env [] nBlockHeight).1)
    ∧ CacheReachable (demoChainEnv [demoHashBlock 10, demoHashBlock 11, demoHashBlock 12]).chain
        (GetBlockHash (demoChainEnv [demoHashBlock 10, demoHashBlock 11]) [] (-1)).2
    ∧ (GetBlockHash (demoChainEnv [demoHashBlock 10, demoHashBlock 11, demoHashBlock 12])
        (GetBlockHash (demoChainEnv [demoHashBlock 10, demoHashBlock 11]) [] (-1)).2 (-1)).1
        = some 11
    ∧ (GetBlockHash (demoChainEnv [demoHashBlock 10, demoHashBlock 11, demoHashBlock 12])
        [] (-1)).1 = some 12 := by
  refine ⟨GetBlockHash_transparent, ?_, by decide, by decide⟩
  exact CacheReachable.grow [demoHashBlock 10, demoHashBlock 11] [demoHashBlock 12] _
    (CacheReachable.lookup (demoChainEnv [demoHashBlock 10, demoHashBlock 11]) [] (-1)
      (CacheReachable.empty _))

/-! ## The record produced by `ProcessBlock` -/

/-- The loop collecting `vecLastPayments` takes one record more than `size`. -/
theorem lastPayments_eq_take (N : Nat) :
    ∀ (l : List CMasternodePaymentWinner) (c : Nat), c ≤ N →
      ProcessBlock.lastPayments (N : Int) l (c : Int) = (l.take (N - c + 1)).map (fun w => w.vin) := by
  intro l
  induction l with
  | nil => intro c _; simp [ProcessBlock.lastPayments]
  | cons w rest ih =>
    intro c hc
    unfold ProcessBlock.lastPayments
    rw [List.take_succ_cons, List.map_cons]
    by_cases hlast : (c : Int) + 1 > (N : Int)
    · rw [if_pos hlast]
      have : N - c = 0 := by omega
      rw [this]
      rfl
    · rw [if_neg hlast]
      have h1 := ih (c + 1) (by omega)
      have e : N - (c + 1) + 1 = N - c := by omega
      rw [e] at h1
      rw [← h1]
      rfl

theorem ProcessBlock_eq_record (env : Env) (st : State) (nBlockHeight : Int)
    (he : st.enabled = true) :
    ProcessBlock env st nBlockHeight
      = match env.SignWinner (ProcessBlock.record env st nBlockHeight) with
        | none =>
          (false, { st with vecMasternodes :=
            (ProcessBlock.pick env
              (ProcessBlock.lastPayments (st.vecMasternodes.length : Int) st.vWinning.reverse 0)
              nBlockHeight (env.random_shuffle st.vecMasternodes)
              CMasternodePaymentWinner.new).1 }, [])
        | some vchSig =>
          let a := AddWinningMasternode env
            { st with vecMasternodes :=
              (ProcessBlock.pick env
                (ProcessBlock.lastPayments (st.vecMasternodes.length : Int) st.vWinning.reverse 0)
                nBlockHeight (env.random_shuffle st.vecMasternodes)
                CMasternodePaymentWinner.new).1 }
            { ProcessBlock.record env st nBlockHeight with vchSig := vchSig }
          if a.1 then (true, a.2.1, [Effect.RelayWinner a.2.2]) else (false, a.2.1, []) := by
  unfold ProcessBlock ProcessBlock.record
  rw [if_neg (by simp [he])]
  try rfl

/-- When every entry is skipped by the selection loop, the loop leaves the
record as it was and the entries with their `vin` and `pubkey`. -/
theorem pick_none (env : Env) (lp : List CTxIn) (h : Int) (winner : CMasternodePaymentWinner) :
    ∀ (l : List CMasterNode),
      (∀ mn ∈ l, lp.any (fun vin => decide (mn.vin = vin)) = true
        ∨ IsEnabled (Check env mn) = false) →
      (ProcessBlock.pick env lp h l winner).2 = winner
      ∧ (ProcessBlock.pick env lp h l winner).1.map (fun mn => (mn.vin, mn.pubkey))
          = l.map (fun mn => (mn.vin, mn.pubkey)) := by
  intro l
  induction l with
  | nil => intro _; simp [ProcessBlock.pick]
  | cons mn rest ih =>
    intro hall
    have hrest := ih (fun x hx => hall x (List.mem_cons_of_mem _ hx))
    unfold ProcessBlock.pick
    by_cases hp : lp.any (fun vin => decide (mn.vin = vin)) = true
    · rw [if_pos hp]
      exact ⟨hrest.1, by simp [hrest.2]⟩
    · rw [if_neg hp]
      have hdis : IsEnabled (Check env mn) = false := by
        rcases hall mn (List.mem_cons_self _ _) with h1 | h1
        · exact absurd h1 hp
        · exact h1
      simp only [hdis, Bool.not_false, if_true]
      refine ⟨hrest.1, ?_⟩
      rw [List.map_cons, List.map_cons, hrest.2, Check_eq]

/-- C22 (amended): in `ProcessBlock(h)` with a non-empty registry, when every
entry is skipped by the selection loop (its `vin` is in `vecLastPayments` or it
is not enabled after `Check`), the record produced has block height `h` and
names the entry at position 0 of the registry after the shuffle, with the
script of that entry's `pubkey` as payee. -/
theorem C22_fallback_first_shuffled (env : Env) (st : State) (h : Int)
    (mn0 : CMasterNode) (rest : List CMasterNode)
    (hshuf : env.random_shuffle st.vecMasternodes = mn0 :: rest)
    (hnone : ∀ mn ∈ env.random_shuffle st.vecMasternodes,
      (ProcessBlock.lastPayments (st.vecMasternodes.length : Int) st.vWinning.reverse 0).any
          (fun vin => decide (mn.vin = vin)) = true
        ∨ IsEnabled (Check env mn) = false) :
    (ProcessBlock.record env st h).nBlockHeight = h
    ∧ (ProcessBlock.record env st h).vin = mn0.vin
    ∧ (ProcessBlock.record env st h).payee = env.GetScriptForDestination mn0.pubkey := by
  obtain ⟨h1, h2⟩ := pick_none env
    (ProcessBlock.lastPayments (st.vecMasternodes.length : Int) st.vWinning.reverse 0) h
    CMasternodePaymentWinner.new (env.random_shuffle st.vecMasternodes) hnone
  unfold ProcessBlock.record
  simp only []
  rw [h1]
  have h2 := h2.trans (show List.map (fun mn => (mn.vin, mn.pubkey))
      (env.random_shuffle st.vecMasternodes)
    = List.map (fun mn => (mn.vin, mn.pubkey)) (mn0 :: rest) by rw [hshuf])
  cases hr : (ProcessBlock.pick env
      (ProcessBlock.lastPayments (st.vecMasternodes.length : Int) st.vWinning.reverse 0) h
      (env.random_shuffle st.vecMasternodes) CMasternodePaymentWinner.new).1 with
  | nil => rw [hr] at h2; simp at h2
  | cons x xs =>
    rw [hr] at h2
    simp only [List.map_cons, List.cons.injEq, Prod.mk.injEq] at h2
    unfold ProcessBlock.fallback
    simp only []
    have hz : CMasternodePaymentWinner.new.nBlockHeight = 0 := rfl
    rw [if_pos hz]
    exact ⟨rfl, h2.1.1, by rw [← h2.1.2]⟩

/-- C22 (instance): two registered entries marked spent, identity shuffle. -/
theorem C22_fallback_first_shuffled_witness :
    (ProcessBlock.record demoEnv demoSpentState 1000).nBlockHeight = 1000
    ∧ (ProcessBlock.record demoEnv demoSpentState 1000).vin
        = ({ demoNode 100 1 100000 70004 with enabled := 3 } : CMasterNode).vin
    ∧ (ProcessBlock.record demoEnv demoSpentState 1000).payee
        = demoEnv.GetScriptForDestination
            ({ demoNode 100 1 100000 70004 with enabled := 3 } : CMasterNode).pubkey :=
  C22_fallback_first_shuffled demoEnv demoSpentState 1000
    { demoNode 100 1 100000 70004 with enabled := 3 }
    [{ demoNode 250 2 100000 70004 with enabled := 3 }] rfl (by decide)

/-- C22 (counterexample): with a shuffle that reverses the registry and two
entries that are not enabled, the record produced for height 1000 names the
entry that stood at position 1 before the call, not the one at position 0. -/
theorem C22_counterexample :
    demoSpentState.vecMasternodes.map (fun mn => mn.vin) = [demoVin 100, demoVin 250]
    ∧ (ProcessBlock.record demoReverseEnv demoSpentState 1000).nBlockHeight = 1000
    ∧ (ProcessBlock.record demoReverseEnv demoSpentState 1000).vin = demoVin 250
    ∧ (ProcessBlock.record demoReverseEnv demoSpentState 1000).payee = [2] := by
  refine ⟨by decide, by decide, by decide, by decide⟩

/-- C21 (divergence): the loop collecting `vecLastPayments` takes the inputs of
the `N + 1` most recently appended records for a registry of size `N`, not of
the last `N`.  With the two sample entries registered (identity shuffle, both
enabled after `Check`) and a ledger whose records, oldest first, name the
collateral transactions 100, 300 and 400, the input of entry 0 is not among the
last 2 records and yet entry 0 is skipped: the record produced names entry 1. -/
theorem C21_last_payments_off_by_one :
    (∀ (N : Nat) (l : List CMasternodePaymentWinner),
      ProcessBlock.lastPayments (N : Int) l 0 = (l.take (N + 1)).map (fun w => w.vin))
    ∧ demoEnv.random_shuffle demoCycleState.vecMasternodes
        = [demoNode 100 1 100000 70004, demoNode 250 2 100000 70004]
    ∧ IsEnabled (Check demoEnv (demoNode 100 1 100000 70004)) = true
    ∧ (demoNode 100 1 100000 70004).vin.prevout
        ∉ (demoCycleState.vWinning.reverse.take 2).map (fun w => w.vin.prevout)
    ∧ (ProcessBlock.record demoEnv demoCycleState 1000).vin = (demoNode 250 2 100000 70004).vin
    ∧ (ProcessBlock.record demoEnv demoCycleState 1000).payee = [2] := by
  refine ⟨?_, rfl, by decide, by decide, by decide, by decide⟩
  intro N l
  have := lastPayments_eq_take N l 0 (Nat.zero_le N)
  simpa using this

theorem AddWinningMasternode_true_height (env : Env) (st : State)
    (vote : CMasternodePaymentWinner) (h : (AddWinningMasternode env st vote).1 = true) :
    vote.nBlockHeight
      ∈ (AddWinningMasternode env st vote).2.1.vWinning.map (fun w => w.nBlockHeight) := by
  unfold AddWinningMasternode at h ⊢
  rcases hg : GetBlockHash env st.mapCacheBlockHashes (vote.nBlockHeight - 576) with ⟨_ | bh, cache⟩
  · rw [hg] at h; simp at h
  · rw [hg] at h
    simp only [] at h ⊢
    by_cases h1 : (AddWinningMasternode.scan
        { vote with score := CMasternodePayments.CalculateScore env bh vote.vin }
        st.vWinning false).returned = true
    · rw [if_pos h1]
      obtain ⟨pre, w, post, hbefore, _, hw, _, _⟩ := scan_returned _ _ _ h1
      simp only []
      rw [scan_heights, hbefore]
      exact List.mem_map.mpr ⟨w, by simp, hw⟩
    · rw [if_neg h1] at h ⊢
      by_cases h2 : (!(AddWinningMasternode.scan
          { vote with score := CMasternodePayments.CalculateScore env bh vote.vin }
          st.vWinning false).foundBlock) = true
      · rw [if_pos h2]
        simp
      · rw [if_neg h2] at h
        simp at h

theorem pick_length (env : Env) (lp : List CTxIn) (h : Int) :
    ∀ (l : List CMasterNode) (winner : CMasternodePaymentWinner),
      (ProcessBlock.pick env lp h l winner).1.length = l.length := by
  intro l
  induction l with
  | nil => intro winner; simp [ProcessBlock.pick]
  | cons mn rest ih =>
    intro winner
    unfold ProcessBlock.pick
    by_cases hp : lp.any (fun vin => decide (mn.vin = vin)) = true
    · rw [if_pos hp]
      simp [ih]
    · rw [if_neg hp]
      cases hE : IsEnabled (Check env mn) <;> simp [hE, ih]

theorem pick_height (env : Env) (lp : List CTxIn) (h : Int) :
    ∀ (l : List CMasterNode) (winner : CMasternodePaymentWinner),
      (ProcessBlock.pick env lp h l winner).2 = winner
      ∨ (ProcessBlock.pick env lp h l winner).2.nBlockHeight = h := by
  intro l
  induction l with
  | nil => intro winner; left; simp [ProcessBlock.pick]
  | cons mn rest ih =>
    intro winner
    unfold ProcessBlock.pick
    by_cases hp : lp.any (fun vin => decide (mn.vin = vin)) = true
    · rw [if_pos hp]
      exact ih winner
    · rw [if_neg hp]
      cases hE : IsEnabled (Check env mn)
      · simp only [hE, Bool.not_false, if_true]
        exact ih winner
      · right
        simp [hE]

/-- With a non-empty registry the record `ProcessBlock(h)` produces has height `h`. -/
theorem record_height (env : Env) (st : State) (h : Int)
    (hne : env.random_shuffle st.vecMasternodes ≠ []) :
    (ProcessBlock.record env st h).nBlockHeight = h := by
  unfold ProcessBlock.record
  simp only []
  have hlen := pick_length env
    (ProcessBlock.lastPayments (st.vecMasternodes.length : Int) st.vWinning.reverse 0) h
    (env.random_shuffle st.vecMasternodes) CMasternodePaymentWinner.new
  have hh := pick_height env
    (ProcessBlock.lastPayments (st.vecMasternodes.length : Int) st.vWinning.reverse 0) h
    (env.random_shuffle st.vecMasternodes) CMasternodePaymentWinner.new
  cases hr : (ProcessBlock.pick env
      (ProcessBlock.lastPayments (st.vecMasternodes.length : Int) st.vWinning.reverse 0) h
      (env.random_shuffle st.vecMasternodes) CMasternodePaymentWinner.new).1 with
  | nil =>
    rw [hr] at hlen
    exact absurd (List.length_eq_zero.mp hlen.symm) hne
  | cons x xs =>
    unfold ProcessBlock.fallback
    simp only []
    split_ifs with h0
    · rfl
    · rcases hh with e | e
      · rw [e] at h0; exact absurd rfl h0
      · exact e

/-- C27 (divergence): with a non-empty registry a `ProcessBlock(h)` that returns
true leaves a record for height `h` in the ledger.  With an empty registry it
does not: the default record, of height 0, is signed and added, so on a chain
with tip height 1 `ProcessBlock(1000)` returns true and the ledger afterwards
holds one record, for height 0. -/
theorem C27_empty_registry_height_zero :
    (∀ (env : Env) (st : State) (h : Int),
      env.random_shuffle st.vecMasternodes ≠ [] → (ProcessBlock env st h).1 = true →
      ∃ w ∈ (ProcessBlock env st h).2.1.vWinning, w.nBlockHeight = h)
    ∧ (ProcessBlock (demoChainEnv [demoHashBlock 10, demoHashBlock 11])
        { State.init with enabled := true } 1000).1 = true
    ∧ (ProcessBlock (demoChainEnv [demoHashBlock 10, demoHashBlock 11])
        { State.init with enabled := true } 1000).2.1.vWinning.map (fun w => w.nBlockHeight)
        = [0] := by
  refine ⟨?_, by decide, by decide⟩
  intro env st h hne htrue
  have he : st.enabled = true := by
    by_contra hd
    unfold ProcessBlock at htrue
    rw [if_pos (by simpa using hd)] at htrue
    simp at htrue
  rw [ProcessBlock_eq_record env st h he] at htrue ⊢
  cases hs : env.SignWinner (ProcessBlock.record env st h) with
  | none => rw [hs] at htrue; simp at htrue
  | some sig =>
    rw [hs] at htrue
    simp only [] at htrue ⊢
    split_ifs at htrue ⊢ with ha
    · simp only []
      obtain ⟨w, hw, hh⟩ := List.mem_map.mp (AddWinningMasternode_true_height env _ _ ha)
      exact ⟨w, hw, hh.trans (record_height env st h hne)⟩

/-! ## When the election returns an index -/

theorem GetHash_congr (env : Env) (w1 w2 : CMasternodePaymentWinner)
    (hh : w2.nBlockHeight = w1.nBlockHeight)
    (ht : w2.vin.prevout.hash = w1.vin.prevout.hash) : w2.GetHash env = w1.GetHash env := by
  unfold CMasternodePaymentWinner.GetHash
  rw [hh, ht]

theorem seenInsert_self (seen : List (Nat × CMasternodePaymentWinner)) (k : Nat)
    (w : CMasternodePaymentWinner) :
    (seenInsert seen k w).any (fun p => decide (p.1 = k)) = true := by
  unfold seenInsert
  by_cases h : seen.any (fun p => decide (p.1 = k)) = true
  · rw [if_pos h]; exact h
  · rw [if_neg h]; simp

theorem seenInsert_keeps (seen : List (Nat × CMasternodePaymentWinner)) (k k1 : Nat)
    (w : CMasternodePaymentWinner) (h : seen.any (fun p => decide (p.1 = k1)) = true) :
    (seenInsert seen k w).any (fun p => decide (p.1 = k1)) = true := by
  unfold seenInsert
  split_ifs
  · exact h
  · rw [List.any_append, h]; rfl

theorem AddWinningMasternode_seen (env : Env) (st : State) (vote : CMasternodePaymentWinner)
    (k : Nat) (h : st.mapSeenMasternodeVotes.any (fun p => decide (p.1 = k)) = true) :
    (AddWinningMasternode env st vote).2.1.mapSeenMasternodeVotes.any
      (fun p => decide (p.1 = k)) = true := by
  unfold AddWinningMasternode
  rcases GetBlockHash env st.mapCacheBlockHashes (vote.nBlockHeight - 576) with ⟨_ | bh, cache⟩
  · exact h
  · simp only []
    split_ifs
    · exact h
    · exact seenInsert_keeps _ _ _ _ h
    · exact h

/-- A vote that passes the checks of the `mnw` handler is recorded under its
hash, and a later vote with the same height and collateral transaction id is
dropped as already seen. -/
theorem mnw_repeat_dropped (env : Env) (st : State) (w1 w2 : CMasternodePaymentWinner)
    (hchain : env.chain.length ≠ 0)
    (hlow : ((env.chain.length : Int) - 1) - 10 ≤ w1.nBlockHeight)
    (hhigh : w1.nBlockHeight ≤ ((env.chain.length : Int) - 1) + 20)
    (hseq : w1.vin.nSequence = U32 - 1)
    (hsig : env.CheckSignature w1 = true)
    (hh : w2.nBlockHeight = w1.nBlockHeight)
    (ht : w2.vin.prevout.hash = w1.vin.prevout.hash) :
    w2.GetHash env = w1.GetHash env
    ∧ ProcessMessage_mnw env (ProcessMessage_mnw env st w1).1 w2
        = ((ProcessMessage_mnw env st w1).1, []) := by
  have hg := GetHash_congr env w1 w2 hh ht
  refine ⟨hg, ?_⟩
  have hseen : (ProcessMessage_mnw env st w1).1.mapSeenMasternodeVotes.any
      (fun p => decide (p.1 = w1.GetHash env)) = true := by
    unfold ProcessMessage_mnw
    rw [if_neg hchain]
    by_cases h1 : st.mapSeenMasternodeVotes.any (fun p => decide (p.1 = w1.GetHash env)) = true
    · rw [if_pos h1]; exact h1
    · rw [if_neg h1, if_neg (by omega), if_neg (by simp [hseq]), if_neg (by simp [hsig])]
      simp only []
      have := AddWinningMasternode_seen env
        { st with mapSeenMasternodeVotes :=
            seenInsert st.mapSeenMasternodeVotes (w1.GetHash env) w1 } w1 (w1.GetHash env)
        (seenInsert_self _ _ _)
      split_ifs <;> exact this
  generalize (ProcessMessage_mnw env st w1).1 = st1 at hseen ⊢
  unfold ProcessMessage_mnw
  rw [if_neg hchain, hg, if_pos hseen]

/-- C28 (amended): `GetHash()` of a vote depends only on its block height and
its collateral transaction id.  Once the `mnw` handler has taken a vote that
passes its checks, it discards as already seen every later vote with the same
block height and collateral transaction id, whatever its payee script, output
index, signature or score. -/
theorem C28_same_height_txid_dropped (env : Env) (st : State)
    (w1 w2 : CMasternodePaymentWinner)
    (hchain : env.chain.length ≠ 0)
    (hlow : ((env.chain.length : Int) - 1) - 10 ≤ w1.nBlockHeight)
    (hhigh : w1.nBlockHeight ≤ ((env.chain.length : Int) - 1) + 20)
    (hseq : w1.vin.nSequence = U32 - 1)
    (hsig : env.CheckSignature w1 = true)
    (hh : w2.nBlockHeight = w1.nBlockHeight)
    (ht : w2.vin.prevout.hash = w1.vin.prevout.hash) :
    w2.GetHash env = w1.GetHash env
    ∧ ProcessMessage_mnw env (ProcessMessage_mnw env st w1).1 w2
        = ((ProcessMessage_mnw env st w1).1, []) :=
  mnw_repeat_dropped env st w1 w2 hchain hlow hhigh hseq hsig hh ht

/-- C28 (instance): a vote for height 5 and a second one with another payee, on
a chain with tip height 1. -/
theorem C28_same_height_txid_dropped_witness :
    (demoVoteAt5 50 [9]).GetHash (demoChainEnv [demoHashBlock 10, demoHashBlock 11])
      = (demoVoteAt5 50 [50]).GetHash (demoChainEnv [demoHashBlock 10, demoHashBlock 11])
    ∧ ProcessMessage_mnw (demoChainEnv [demoHashBlock 10, demoHashBlock 11])
        (ProcessMessage_mnw (demoChainEnv [demoHashBlock 10, demoHashBlock 11]) State.init
          (demoVoteAt5 50 [50])).1 (demoVoteAt5 50 [9])
        = ((ProcessMessage_mnw (demoChainEnv [demoHashBlock 10, demoHashBlock 11]) State.init
          (demoVoteAt5 50 [50])).1, []) :=
  C28_same_height_txid_dropped (demoChainEnv [demoHashBlock 10, demoHashBlock 11]) State.init
    (demoVoteAt5 50 [50]) (demoVoteAt5 50 [9]) (by decide) (by decide) (by decide) rfl rfl rfl rfl

/-- C28 (counterexample): two votes for height 5 and the collateral transaction
50 that differ in the payee have the same `GetHash()`, and the second is dropped
by the `mnw` handler after the first; two votes for height 5 naming the
different collateral transactions 3 and 7 have the same `GetHash()` as well. -/
theorem C28_counterexample :
    (demoVoteAt5 50 [50]).payee ≠ (demoVoteAt5 50 [9]).payee
    ∧ (demoVoteAt5 50 [9]).GetHash (demoChainEnv [demoHashBlock 10, demoHashBlock 11])
      = (demoVoteAt5 50 [50]).GetHash (demoChainEnv [demoHashBlock 10, demoHashBlock 11])
    ∧ ProcessMessage_mnw (demoChainEnv [demoHashBlock 10, demoHashBlock 11])
        (ProcessMessage_mnw (demoChainEnv [demoHashBlock 10, demoHashBlock 11]) State.init
          (demoVoteAt5 50 [50])).1 (demoVoteAt5 50 [9])
        = ((ProcessMessage_mnw (demoChainEnv [demoHashBlock 10, demoHashBlock 11]) State.init
          (demoVoteAt5 50 [50])).1, [])
    ∧ (demoVoteAt5 3 [3]).vin.prevout.hash ≠ (demoVoteAt5 7 [7]).vin.prevout.hash
    ∧ (demoVoteAt5 3 [3]).GetHash (demoChainEnv [demoHashBlock 10, demoHashBlock 11])
      = (demoVoteAt5 7 [7]).GetHash (demoChainEnv [demoHashBlock 10, demoHashBlock 11]) := by
  have h := mnw_repeat_dropped (demoChainEnv [demoHashBlock 10, demoHashBlock 11]) State.init
    (demoVoteAt5 50 [50]) (demoVoteAt5 50 [9]) (by decide) (by decide) (by decide) rfl rfl rfl rfl
  exact ⟨by decide, h.1, h.2, by decide, by decide⟩

/-! ## Addresses in the registry -/

/-- When the search loop of the `dsee` handler ends without `return`, no entry
has the message's network address. -/
theorem dsee_search_none_ip (env : Env) (pfromAddr : CService) (m : DseeMsg)
    (reg : List CMasterNode) :
    dsee.search env pfromAddr m reg = none → ∀ mn ∈ reg, mn.addr.ip ≠ m.addr.ip := by
  induction reg with
  | nil => intro _ mn hmn; simp at hmn
  | cons x rest ih =>
    intro h mn hmn
    unfold dsee.search at h
    by_cases h1 : x.vin.prevout = m.vin.prevout
    · rw [if_pos h1] at h; simp at h
    · rw [if_neg h1] at h
      by_cases h2 : x.addr.ip = m.addr.ip
      · rw [if_pos h2] at h; simp at h
      · rw [if_neg h2] at h
        cases hs : dsee.search env pfromAddr m rest with
        | some r1 => rw [hs] at h; simp at h
        | none =>
          rcases List.mem_cons.mp hmn with rfl | hmem
          · exact h2
          · exact ih hs mn hmem

/-- An insertion by the `dsee` handler keeps the network addresses distinct. -/
theorem ProcessMessage_dsee_insert_uniqueAddrs (env : Env) (pfromAddr : CService)
    (reg : List CMasterNode) (m : DseeMsg)
    (hins : (ProcessMessage_dsee env pfromAddr reg m).1.length = reg.length + 1)
    (h : UniqueAddrs reg) : UniqueAddrs (ProcessMessage_dsee env pfromAddr reg m).1 := by
  unfold ProcessMessage_dsee at hins ⊢
  split_ifs at hins ⊢
  all_goals try (exfalso; simp at hins)
  cases hs : dsee.search env pfromAddr m reg with
  | some r =>
    rw [hs] at hins
    have := dsee_search_length env pfromAddr m reg r hs
    simp only [] at hins
    omega
  | none =>
    rw [hs] at hins
    simp only [] at hins ⊢
    rcases dsee_insert_cases env m reg with e | ⟨c, e⟩
    · rw [e] at hins; omega
    · rw [e]
      unfold UniqueAddrs at h ⊢
      rw [List.map_append, List.nodup_append]
      refine ⟨h, by simp, ?_⟩
      intro a ha hb
      have haddr : (UpdateLastSeen env (CMasterNode.new m.addr m.vin m.pubkey m.vchSig m.sigTime
          m.pubkey2 m.protocolVersion c) m.lastUpdated).addr = m.addr := by
        unfold UpdateLastSeen; split_ifs <;> rfl
      simp only [List.map_cons, List.map_nil, List.mem_singleton, haddr] at hb
      obtain ⟨mn, hmn, hmn2⟩ := List.mem_map.mp ha
      exact dsee_search_none_ip env pfromAddr m reg hs mn hmn (by rw [hmn2, hb])

/-- C24 (divergence): an insertion by the `dsee` handler keeps the network
addresses of the registry distinct, but the update of an existing entry assigns
the announced address without looking at the other entries.  After announces
for the collaterals 100 and 250 at the addresses 5 and 8, a newer announce for
collateral 100 at address 8, handled 1000 s later, leaves two entries with the
address 8. -/
theorem C24_update_duplicates_address :
    (∀ (env : Env) (pfromAddr : CService) (reg : List CMasterNode) (m : DseeMsg),
      (ProcessMessage_dsee env pfromAddr reg m).1.length = reg.length + 1 →
      UniqueAddrs reg → UniqueAddrs (ProcessMessage_dsee env pfromAddr reg m).1)
    ∧ demoMovedRegistry.map (fun mn => mn.vin.prevout.hash) = [100, 250]
    ∧ demoMovedRegistry.map (fun mn => mn.addr.ip) = [8, 8]
    ∧ ¬ UniqueAddrs demoMovedRegistry := by
  refine ⟨ProcessMessage_dsee_insert_uniqueAddrs, by decide, by decide, by decide⟩

/-! ## Removing a configuration entry -/

theorem remove_scan_absent (strAlias : String) :
    ∀ (entries : List CMasternodeEntry) (i rIndex : Int) (written : List String),
      (∀ e ∈ entries, e.strAlias ≠ strAlias) →
      CMasternodeConfig.remove.scan strAlias entries i rIndex written
        = (rIndex, written ++ entries.map (fun e => e.line)) := by
  intro entries
  induction entries with
  | nil => intro i rIndex written _; simp [CMasternodeConfig.remove.scan]
  | cons e rest ih =>
    intro i rIndex written h
    unfold CMasternodeConfig.remove.scan
    rw [if_pos (h e (List.mem_cons_self _ _)),
      ih (i + 1) rIndex _ (fun x hx => h x (List.mem_cons_of_mem _ hx))]
    simp

/-- C25 (divergence): when no entry has the alias, `remove` returns false and
leaves the entries as they are.  When an entry has it, the loop sets `rIndex`
to the 1-based position, and `entries.erase(entries.begin() + rIndex)` removes
the entry after the one with the alias: from the entries a, b, c the call
`remove("a")` writes b and c to the file, returns true and leaves a and c in
memory; from the single entry a, `remove("a")` erases at the end iterator. -/
theorem C25_remove_erases_next_entry :
    (∀ (entries : List CMasternodeEntry) (strAlias : String),
      (∀ e ∈ entries, e.strAlias ≠ strAlias) →
      CMasternodeConfig.remove entries strAlias
        = (entries.map (fun e => e.line), some (false, entries)))
    ∧ CMasternodeConfig.remove [demoEntry "a", demoEntry "b", demoEntry "c"] "a"
        = ([(demoEntry "b").line, (demoEntry "c").line],
            some (true, [demoEntry "a", demoEntry "c"]))
    ∧ (CMasternodeConfig.remove [demoEntry "a"] "a").2 = none := by
  refine ⟨?_, by decide, by decide⟩
  intro entries strAlias h
  unfold CMasternodeConfig.remove
  rw [remove_scan_absent strAlias entries 0 (-1) [] h]
  simp

/-! ## Stopping the main masternode -/

end Metrix
